import Mathlib

/-!
# Defragmentation strategy of the descheduler: node bookkeeping, balancer and placement planner

A shallow embedding of

* `pkg/descheduler/strategies/defragmentation/capacity/node_info.go`
* `pkg/descheduler/strategies/defragmentation/capacity/pod_info.go`
* `pkg/descheduler/strategies/defragmentation/balance.go`
* `pkg/descheduler/strategies/defragmentation/scheduler/placement.go`
* `pkg/descheduler/strategies/defragmentation/scheduler/migrate.go`
* `pkg/descheduler/strategies/defragmentation/cantor/paridepair.go`

Conventions.

* `int64` (and `int`, which is 64 bits wide on the supported platforms) is `Int`, every
  arithmetic result being reduced with `wrap64` (two's complement wrap-around).
* A Go `map[v1.ResourceName]int64` is an association list `SMap`; a `nil` map and an empty
  map are both `[]` (the sources guard every write to a possibly-nil map).
* A slice of pointers (`[]*NodeInfo`) is a list, a pointer into it is an index.
* A run-time panic is the outcome `Run.panic`.
* `float64` is `F64`: a fraction over a power of two, `NaN` or one of the two infinities; the
  conversion of an integer, every arithmetic operation and the square root round to the
  nearest `float64`, ties to even. The sign of a zero is not kept.
-/

namespace Defrag

/-! ## Machine integers -/

/-- Two's complement reduction of an integer to the `int64` range. -/
def wrap64 (x : Int) : Int := Int.bmod x (2 ^ 64)

/-- The `int64` addition `a + b`. -/
def add64 (a b : Int) : Int := wrap64 (a + b)

/-- The `int64` subtraction `a - b`. -/
def sub64 (a b : Int) : Int := wrap64 (a - b)

/-- The `int64` multiplication `a * b`. -/
def mul64 (a b : Int) : Int := wrap64 (a * b)

/-- The value is representable as an `int64`. -/
def isInt64 (x : Int) : Prop := -(2 ^ 63) ≤ x ∧ x < 2 ^ 63

instance (x : Int) : Decidable (isInt64 x) :=
  inferInstanceAs (Decidable (-(2 ^ 63) ≤ x ∧ x < 2 ^ 63))

/-! ## Outcomes -/

/-- Outcome of running a piece of Go code: a returned value, a run-time panic, or the
exhaustion of the recursion budget given to a recursive function of the model. -/
inductive Run (α : Type) where
  | val (a : α)
  | panic
  | outOfFuel
  deriving DecidableEq, Repr

/-- Sequencing of outcomes: a panic or an exhausted budget ends the run. -/
def Run.bind {α β : Type} (r : Run α) (f : α → Run β) : Run β :=
  match r with
  | .val a => f a
  | .panic => .panic
  | .outOfFuel => .outOfFuel

instance : Monad Run where
  pure := Run.val
  bind := Run.bind

/-! ## Resources -/

/-- A Go `map[v1.ResourceName]int64`, as the list of its entries. -/
abbrev SMap := List (String × Int)

/-- The lookup `v, ok := m[k]`. -/
def SMap.get? (m : SMap) (k : String) : Option Int :=
  match m with
  | [] => none
  | (k', v) :: rest => if k' = k then some v else SMap.get? rest k

/-- The lookup `m[k]`, reading an absent key as the zero value. -/
def SMap.get (m : SMap) (k : String) : Int := (m.get? k).getD 0

/-- The update `m[k] = v`. -/
def SMap.set (m : SMap) (k : String) (v : Int) : SMap :=
  match m with
  | [] => [(k, v)]
  | (k', v') :: rest => if k' = k then (k', v) :: rest else (k', v') :: SMap.set rest k v

/-- The statement `for k, q := range src { m[k] += q }`. -/
def SMap.addAll (m src : SMap) : SMap :=
  src.foldl (fun acc e => acc.set e.1 (add64 (acc.get e.1) e.2)) m

/-- The statement `for k, q := range src { m[k] -= q }`. -/
def SMap.subAll (m src : SMap) : SMap :=
  src.foldl (fun acc e => acc.set e.1 (sub64 (acc.get e.1) e.2)) m

/-- The fields of `capacity.Resource` read by the strategy. -/
structure Resource where
  MilliCPU : Int := 0
  Memory : Int := 0
  ScalarResources : SMap := []
  deriving DecidableEq, Repr

/-- `Resource.Clone`. -/
def Resource.Clone (r : Resource) : Resource := r

/-! ## Pods and nodes

`CalculateResource`, `GetPodKey`, `IsMigratable`, `podWithAffinity` and
`podWithRequiredAntiAffinity` are functions of the pod object whose definitions are not part
of the sources at hand; a pod therefore carries their results as fields. -/

/-- A container of a pod: the two results of `getNonzeroRequests(&c.Resources.Requests)`. -/
structure Container where
  Non0CPUReq : Int := 0
  Non0MemReq : Int := 0
  deriving DecidableEq, Repr

/-- A `metav1.OwnerReference`: the fields read by the executor. -/
structure OwnerReference where
  Kind : String := ""
  Name : String := ""
  deriving DecidableEq, Repr

/-- A `v1.NodeSelectorRequirement`. -/
structure NodeSelectorRequirement where
  Key : String := ""
  Operator : String := ""
  Values : List String := []
  deriving DecidableEq, Repr

/-- A `v1.NodeSelectorTerm`: its `MatchExpressions`. -/
structure NodeSelectorTerm where
  MatchExpressions : List NodeSelectorRequirement := []
  deriving DecidableEq, Repr

/-- A `v1.PreferredSchedulingTerm`. -/
structure PreferredSchedulingTerm where
  Weight : Int := 0
  Preference : NodeSelectorTerm := {}
  deriving DecidableEq, Repr

/-- A `v1.NodeAffinity`; `RequiredDuringSchedulingIgnoredDuringExecution` is a pointer to a
`v1.NodeSelector`, given by its `NodeSelectorTerms`. -/
structure NodeAffinity where
  RequiredDuringSchedulingIgnoredDuringExecution : Option (List NodeSelectorTerm) := none
  PreferredDuringSchedulingIgnoredDuringExecution : List PreferredSchedulingTerm := []
  deriving DecidableEq, Repr

/-- A `v1.Affinity`: its `NodeAffinity` pointer. -/
structure Affinity where
  NodeAffinity : Option NodeAffinity := none
  deriving DecidableEq, Repr

/-- A `v1.PodStatus`: the phase and the messages of the conditions. -/
structure PodStatus where
  Phase : String := ""
  ConditionMessages : List String := []
  deriving DecidableEq, Repr

/-- A `v1.Pod`, with the results of the pod-only helper functions. -/
structure Pod where
  Namespace : String := ""
  Name : String := ""
  ResourceVersion : String := ""
  UID : String := ""
  OwnerReferences : List OwnerReference := []
  /-- `pod.Spec.Containers`. -/
  Containers : List Container := []
  /-- `pod.Spec.InitContainers`. -/
  InitContainers : List Container := []
  /-- `pod.Spec.Affinity`. -/
  Affinity : Option Affinity := none
  Status : PodStatus := {}
  /-- `pod.Spec.NodeName`. -/
  NodeName : String := ""
  /-- Result of `GetPodKey(pod)`; `none` when it returns an error. -/
  Key : Option String := none
  /-- First result of `CalculateResource(pod)`. -/
  Res : Resource := {}
  /-- Second result of `CalculateResource(pod)`. -/
  Non0CPU : Int := 0
  /-- Third result of `CalculateResource(pod)`. -/
  Non0Mem : Int := 0
  /-- Result of `IsMigratable(pod)`. -/
  Migratable : Bool := true
  /-- Result of `podWithAffinity(pod)`. -/
  WithAffinity : Bool := false
  /-- Result of `podWithRequiredAntiAffinity(pod)`. -/
  WithRequiredAntiAffinity : Bool := false
  deriving DecidableEq, Repr

/-- `CalculateResource(pod)`. -/
def CalculateResource (pod : Pod) : Resource × Int × Int := (pod.Res, pod.Non0CPU, pod.Non0Mem)

/-- `GetPodKey(pod)`. -/
def GetPodKey (pod : Pod) : Option String := pod.Key

/-- `IsMigratable(pod)`. -/
def IsMigratable (pod : Pod) : Bool := pod.Migratable

/-- `PodInfo`; the cached affinity terms, which nothing below reads, are left out. -/
structure PodInfo where
  Pod : Pod
  deriving DecidableEq, Repr

/-- `NewPodInfo(pod)`. -/
def NewPodInfo (pod : Pod) : PodInfo := { Pod := pod }

/-- A `v1.Node`: its name and `NewResource(node.Status.Allocatable)`. -/
structure Node where
  Name : String := ""
  Allocatable : Resource := {}
  deriving DecidableEq, Repr

/-- `NodeInfo`, node level aggregated information. -/
structure NodeInfo where
  node : Option Node := none
  Pods : List PodInfo := []
  PodsWithAffinity : List PodInfo := []
  PodsWithRequiredAntiAffinity : List PodInfo := []
  Requested : Resource := {}
  NonZeroRequested : Resource := {}
  Allocatable : Resource := {}
  Available : Resource := {}
  Generation : Int := 0
  deriving DecidableEq, Repr

/-- `nextGeneration()`: `atomic.AddInt64(&generation, 1)`, given the value of the
process-wide counter; the result is also the new value of the counter. -/
def nextGeneration (generation : Int) : Int := add64 generation 1

/-- `NodeInfo.Node`. -/
def NodeInfo.Node (n : NodeInfo) : Option Node := n.node

/-- `NodeInfo.AddPodInfo`; `generation` is the process-wide counter before the call, the
counter after the call is the `Generation` of the result. -/
def NodeInfo.AddPodInfo (generation : Int) (n : NodeInfo) (podInfo : PodInfo) : NodeInfo :=
  let (res, non0CPU, non0Mem) := CalculateResource podInfo.Pod
  { n with
    Requested :=
      { n.Requested with
        MilliCPU := add64 n.Requested.MilliCPU res.MilliCPU
        Memory := add64 n.Requested.Memory res.Memory
        ScalarResources := n.Requested.ScalarResources.addAll res.ScalarResources }
    NonZeroRequested :=
      { n.NonZeroRequested with
        MilliCPU := add64 n.NonZeroRequested.MilliCPU non0CPU
        Memory := add64 n.NonZeroRequested.Memory non0Mem
        ScalarResources := n.NonZeroRequested.ScalarResources.addAll res.ScalarResources }
    Available :=
      { n.Available with
        MilliCPU := sub64 n.Available.MilliCPU non0CPU
        Memory := sub64 n.Available.Memory non0Mem
        ScalarResources := n.Available.ScalarResources.subAll res.ScalarResources }
    Pods := n.Pods ++ [podInfo]
    PodsWithAffinity :=
      if podInfo.Pod.WithAffinity then n.PodsWithAffinity ++ [podInfo] else n.PodsWithAffinity
    PodsWithRequiredAntiAffinity :=
      if podInfo.Pod.WithRequiredAntiAffinity then n.PodsWithRequiredAntiAffinity ++ [podInfo]
      else n.PodsWithRequiredAntiAffinity
    Generation := nextGeneration generation }

/-- `NodeInfo.AddPod`. -/
def NodeInfo.AddPod (generation : Int) (n : NodeInfo) (pod : Pod) : NodeInfo :=
  n.AddPodInfo generation (NewPodInfo pod)

/-- Index of the first element of `s` whose key is available and equal to `k`
(the loop `for i := range s` with its `continue` and `break`). -/
def findKeyIdx (s : List PodInfo) (k : String) : Option Nat :=
  match s with
  | [] => none
  | p :: rest =>
    if GetPodKey p.Pod = some k then some 0
    else (findKeyIdx rest k).map (· + 1)

/-- The deletion `s[i] = s[len(s)-1]; s = s[:len(s)-1]`. -/
def swapRemove (s : List PodInfo) (i : Nat) : List PodInfo :=
  match s.getLast? with
  | none => s
  | some last => (s.set i last).dropLast

/-- `removeFromSlice`. -/
def removeFromSlice (s : List PodInfo) (k : String) : List PodInfo :=
  match findKeyIdx s k with
  | some i => swapRemove s i
  | none => s

/-- The errors returned by `RemovePod`. -/
inductive RemoveErr where
  | noKey
  | notFound (pod : String) (node : String)
  deriving DecidableEq, Repr

/-- `NodeInfo.RemovePod`: the node after the call and the returned error (`none` for `nil`).
It panics when the pod is not found and no node is set (`n.node.Name`). The final
`resetSlicesIfEmpty` turns empty slices into `nil`, which a list does not distinguish. -/
def NodeInfo.RemovePod (generation : Int) (n : NodeInfo) (pod : Pod) :
    Run (NodeInfo × Option RemoveErr) :=
  match GetPodKey pod with
  | none => .val (n, some .noKey)
  | some k =>
    let podsWithAffinity :=
      if pod.WithAffinity then removeFromSlice n.PodsWithAffinity k else n.PodsWithAffinity
    let podsWithRequiredAntiAffinity :=
      if pod.WithRequiredAntiAffinity then removeFromSlice n.PodsWithRequiredAntiAffinity k
      else n.PodsWithRequiredAntiAffinity
    match findKeyIdx n.Pods k with
    | some i =>
      let (res, non0CPU, non0Mem) := CalculateResource pod
      .val
        ({ n with
            PodsWithAffinity := podsWithAffinity
            PodsWithRequiredAntiAffinity := podsWithRequiredAntiAffinity
            Pods := swapRemove n.Pods i
            Requested :=
              { n.Requested with
                MilliCPU := sub64 n.Requested.MilliCPU res.MilliCPU
                Memory := sub64 n.Requested.Memory res.Memory
                ScalarResources := n.Requested.ScalarResources.subAll res.ScalarResources }
            NonZeroRequested :=
              { n.NonZeroRequested with
                MilliCPU := sub64 n.NonZeroRequested.MilliCPU non0CPU
                Memory := sub64 n.NonZeroRequested.Memory non0Mem }
            Available :=
              { n.Available with
                MilliCPU := add64 n.Available.MilliCPU non0CPU
                Memory := add64 n.Available.Memory non0Mem }
            Generation := nextGeneration generation },
          none)
    | none =>
      match n.node with
      | none => .panic
      | some nd =>
        .val
          ({ n with
              PodsWithAffinity := podsWithAffinity
              PodsWithRequiredAntiAffinity := podsWithRequiredAntiAffinity },
            some (.notFound pod.Name nd.Name))

/-- The process-wide generation counter after a `RemovePod` that returned `r`. -/
def genAfterRemove (generation : Int) (r : NodeInfo × Option RemoveErr) : Int :=
  match r.2 with
  | none => r.1.Generation
  | some _ => generation

/-- `NewNodeInfo(pods...)`; the process-wide counter afterwards is the `Generation` of the
result. -/
def NewNodeInfo (generation : Int) (pods : List Pod) : NodeInfo :=
  pods.foldl (fun ni pod => ni.AddPod ni.Generation pod)
    { Generation := nextGeneration generation }

/-- `NodeInfo.SetNode`. -/
def NodeInfo.SetNode (generation : Int) (n : NodeInfo) (node : Defrag.Node) : NodeInfo :=
  { n with
    node := some node
    Allocatable := node.Allocatable
    Available := node.Allocatable
    Generation := nextGeneration generation }

/-- `NodeInfo.RemoveNode`. -/
def NodeInfo.RemoveNode (generation : Int) (n : NodeInfo) : NodeInfo :=
  { n with node := none, Generation := nextGeneration generation }

/-- A call made on a `NodeInfo` by a client. -/
inductive NodeOp where
  | addPod (pod : Pod)
  | removePod (pod : Pod)
  deriving DecidableEq, Repr

/-- Run a sequence of `AddPod` and `RemovePod` calls, whatever each `RemovePod` returns;
the state is the node and the process-wide generation counter. -/
def runOps (generation : Int) (n : NodeInfo) (ops : List NodeOp) : Run (NodeInfo × Int) :=
  match ops with
  | [] => .val (n, generation)
  | .addPod pod :: rest =>
    let n1 := n.AddPod generation pod
    runOps n1.Generation n1 rest
  | .removePod pod :: rest =>
    match n.RemovePod generation pod with
    | .val r => runOps (genAfterRemove generation r) r.1 rest
    | .panic => .panic
    | .outOfFuel => .outOfFuel

/-! ## Floating point

A `float64` is a fraction `num / den` whose denominator is a positive power of two, or one of
the special values. Every arithmetic operation and the conversion of an integer round the exact
result to the nearest `float64`, ties to even, as IEEE 754 prescribes for the binary64 format
(a significand of 53 bits, a last place between `2 ^ -1074` and `2 ^ 971`, overflow to an
infinity from `2 ^ 1024`, that is from 1025 binary digits). Only the operations used by the
strategy are given. The sign of a zero is not kept: no computation of the strategy divides by
a zero that was computed. -/

/-- A `float64` value. -/
inductive F64 where
  | nan
  | posInf
  | negInf
  | fin (num : Int) (den : Int)
  deriving DecidableEq, Repr

namespace F64

/-- The number of binary digits of `n`; the first argument bounds the number of digits. -/
def bitLen : Nat → Nat → Nat
  | 0, _ => 0
  | k + 1, n => if n = 0 then 0 else bitLen k (n / 2) + 1

/-- Whether `n` is a power of two; the first argument bounds the number of digits. -/
def isPow2 : Nat → Nat → Bool
  | 0, _ => false
  | k + 1, n => if n = 1 then true else if n % 2 = 0 ∧ n ≠ 0 then isPow2 k (n / 2) else false

/-- The numerator of `n / d` divided by `2 ^ e`. -/
def scaleNum (n : Nat) (e : Int) : Nat := if 0 ≤ e then n else n * 2 ^ (-e).toNat

/-- The denominator of `n / d` divided by `2 ^ e`. -/
def scaleDen (d : Nat) (e : Int) : Nat := if 0 ≤ e then d * 2 ^ e.toNat else d

/-- The exponent of the last place of the `float64` nearest to `n / d`: the exponent `e` at
which the quotient of `n / d` by `2 ^ e` has 53 binary digits, and at least `-1074`. -/
def roundExp (n d : Nat) : Int :=
  let e0 : Int := (bitLen n n : Int) - (bitLen d d : Int) - 52
  let q0 : Nat := scaleNum n e0 / scaleDen d e0
  let e1 : Int := if q0 < 2 ^ 52 then e0 - 1 else e0
  if e1 < -1074 then -1074 else e1

/-- The quotient of `n / d` by `2 ^ e`, rounded to the nearest integer, ties to even. -/
def roundSig (n d : Nat) (e : Int) : Nat :=
  let q := scaleNum n e / scaleDen d e
  let r := scaleNum n e % scaleDen d e
  if 2 * r < scaleDen d e then q
  else if scaleDen d e < 2 * r then q + 1
  else if q % 2 = 0 then q else q + 1

/-- The `float64` nearest to the fraction `n / d` of two naturals (`d > 0`), ties to even:
the rounded quotient times `2 ^ e`, or an infinity from `2 ^ 1024`. -/
def roundPos (n d : Nat) : F64 :=
  let e := roundExp n d
  let q1 := roundSig n d e
  if 0 ≤ e then
    if 1024 < bitLen q1 q1 + e.toNat then .posInf else .fin ((q1 * 2 ^ e.toNat : Nat) : Int) 1
  else .fin (q1 : Int) ((2 ^ (-e).toNat : Nat) : Int)

/-- Unary minus. -/
def neg : F64 → F64
  | .nan => .nan
  | .posInf => .negInf
  | .negInf => .posInf
  | .fin a b => .fin (-a) b

/-- The `float64` nearest to the fraction `num / den` (`den > 0`), ties to even. A fraction
that is written with a significand below `2 ^ 53` over a power of two up to `2 ^ 1074` is a
`float64` and is returned as it is. -/
def round (num den : Int) : F64 :=
  if isPow2 den.toNat den.toNat = true ∧ bitLen den.toNat den.toNat ≤ 1075 ∧
      num.natAbs < 2 ^ 53 then .fin num den
  else if 0 < num then roundPos num.toNat den.toNat
  else neg (roundPos (-num).toNat den.toNat)

/-- The conversion `float64(x)` of an integer. -/
def ofInt (x : Int) : F64 := round x 1

/-- The function `math.Abs`. -/
def abs : F64 → F64
  | .nan => .nan
  | .posInf => .posInf
  | .negInf => .posInf
  | .fin a b => .fin (if a < 0 then -a else a) b

/-- Addition. -/
def add : F64 → F64 → F64
  | .nan, _ => .nan
  | _, .nan => .nan
  | .posInf, .negInf => .nan
  | .negInf, .posInf => .nan
  | .posInf, _ => .posInf
  | _, .posInf => .posInf
  | .negInf, _ => .negInf
  | _, .negInf => .negInf
  | .fin a b, .fin c d => round (a * d + c * b) (b * d)

/-- Subtraction. -/
def sub (x y : F64) : F64 := add x (neg y)

/-- Multiplication. -/
def mul : F64 → F64 → F64
  | .nan, _ => .nan
  | _, .nan => .nan
  | .fin a b, .fin c d => round (a * c) (b * d)
  | .fin a _, .posInf => if a = 0 then .nan else if 0 < a then .posInf else .negInf
  | .fin a _, .negInf => if a = 0 then .nan else if 0 < a then .negInf else .posInf
  | .posInf, .fin c _ => if c = 0 then .nan else if 0 < c then .posInf else .negInf
  | .negInf, .fin c _ => if c = 0 then .nan else if 0 < c then .negInf else .posInf
  | .posInf, .posInf => .posInf
  | .posInf, .negInf => .negInf
  | .negInf, .posInf => .negInf
  | .negInf, .negInf => .posInf

/-- Division. -/
def div : F64 → F64 → F64
  | .nan, _ => .nan
  | _, .nan => .nan
  | .fin a b, .fin c d =>
    if c = 0 then (if a = 0 then .nan else if 0 < a then .posInf else .negInf)
    else if 0 < c then round (a * d) (b * c)
    else round (-(a * d)) (-(b * c))
  | .fin _ _, _ => .fin 0 1
  | .posInf, .fin c _ => if 0 ≤ c then .posInf else .negInf
  | .negInf, .fin c _ => if 0 ≤ c then .negInf else .posInf
  | _, _ => .nan

/-- The comparison `x < y`. -/
def lt : F64 → F64 → Bool
  | .nan, _ => false
  | _, .nan => false
  | .fin a b, .fin c d => decide (a * d < c * b)
  | .negInf, .negInf => false
  | .negInf, _ => true
  | _, .negInf => false
  | .posInf, _ => false
  | _, .posInf => true

/-- The comparison `x <= y`. -/
def le : F64 → F64 → Bool
  | .nan, _ => false
  | _, .nan => false
  | .fin a b, .fin c d => decide (a * d ≤ c * b)
  | .negInf, _ => true
  | _, .negInf => false
  | _, .posInf => true
  | .posInf, _ => false

/-- The comparison `x > y`. -/
def gt (x y : F64) : Bool := lt y x

/-- The comparison `x >= y`. -/
def ge (x y : F64) : Bool := le y x

/-- The conversion `int64(x)`, truncating toward zero. The Go specification leaves the result
open when the value does not fit: as on amd64, a value out of range and a special value give
the most negative integer. -/
def toInt64 : F64 → Int
  | .fin a b => if isInt64 (Int.tdiv a b) then Int.tdiv a b else -(2 ^ 63)
  | _ => -(2 ^ 63)

/-- The value is not `NaN`. -/
def isNum : F64 → Bool
  | .nan => false
  | _ => true

end F64

/-! ## Metrics (`node_info.go`) -/

/-- The constant `MB = 1024 * KB`. -/
def MB : Int := 1024 * 1024

/-- The expression `float64(x) / MB`. -/
def toMBf (x : Int) : F64 := F64.div (F64.ofInt x) (F64.ofInt MB)

/-- `GetCpuMemoryRatio`. -/
def GetCpuMemoryRatio (nodeInfo : NodeInfo) : F64 :=
  if F64.toInt64 (toMBf nodeInfo.Available.Memory) = 0 then F64.ofInt 1000000
  else if nodeInfo.Available.MilliCPU = 0 then F64.ofInt 0
  else F64.div (F64.ofInt nodeInfo.Available.MilliCPU) (toMBf nodeInfo.Available.Memory)

/-- The sum `totalAvailableCpu` accumulated by `GetPivotRatio`. -/
def totalAvailableCpu (nodeInfos : List NodeInfo) : Int :=
  nodeInfos.foldl (fun acc n => add64 acc n.Available.MilliCPU) 0

/-- The sum `totalAvailableMem` accumulated by `GetPivotRatio`. -/
def totalAvailableMem (nodeInfos : List NodeInfo) : Int :=
  nodeInfos.foldl (fun acc n => add64 acc n.Available.Memory) 0

/-- `GetPivotRatio`. -/
def GetPivotRatio (nodeInfos : List NodeInfo) : F64 :=
  let availableMem := F64.toInt64 (toMBf (totalAvailableMem nodeInfos))
  F64.div (F64.ofInt (totalAvailableCpu nodeInfos)) (F64.ofInt availableMem)

/-- `GetDistanceFromPivot`. -/
def GetDistanceFromPivot (nodeInfo : NodeInfo) (pivotratio : F64) : F64 :=
  F64.abs (F64.sub pivotratio (GetCpuMemoryRatio nodeInfo))

/-- The loop of `GetSystemEntropy`, for a given pivot ratio and starting sum. -/
def entropySum (pivotRatio : F64) (sum : F64) (nodeInfos : List NodeInfo) : F64 :=
  nodeInfos.foldl
    (fun acc n => F64.add acc (F64.abs (F64.sub pivotRatio (GetCpuMemoryRatio n)))) sum

/-- `GetSystemEntropy`. -/
def GetSystemEntropy (nodeInfos : List NodeInfo) : F64 :=
  entropySum (GetPivotRatio nodeInfos) (F64.ofInt 0) nodeInfos

/-! ## Balancer (`balance.go`) -/

/-- `isSchedulingDone`, with the two counters it keeps. -/
def isSchedulingDone (nodeInfos : List NodeInfo) (pivotRatio : F64) : Bool :=
  let counts := nodeInfos.foldl
    (fun (c : Nat × Nat) n =>
      let v := F64.sub pivotRatio (GetCpuMemoryRatio n)
      if F64.gt v (F64.ofInt 0) then (c.1 + 1, c.2)
      else if F64.lt v (F64.ofInt 0) then (c.1, c.2 + 1)
      else c)
    (0, 0)
  counts.1 == nodeInfos.length || counts.2 == nodeInfos.length

/-- The call `nodeInfos[i].RemovePod(pod)` through a pointer into the snapshot: the
snapshot, the generation counter and the error after the call. -/
def removePodAt (generation : Int) (nodeInfos : List NodeInfo) (i : Nat) (pod : Pod) :
    Run (List NodeInfo × Int × Option RemoveErr) :=
  match nodeInfos[i]? with
  | none => .panic
  | some n =>
    match n.RemovePod generation pod with
    | .val r => .val (nodeInfos.set i r.1, genAfterRemove generation r, r.2)
    | .panic => .panic
    | .outOfFuel => .outOfFuel

/-- The call `nodeInfos[i].AddPod(pod)` through a pointer into the snapshot. -/
def addPodAt (generation : Int) (nodeInfos : List NodeInfo) (i : Nat) (pod : Pod) :
    Run (List NodeInfo × Int) :=
  match nodeInfos[i]? with
  | none => .panic
  | some n => .val (nodeInfos.set i (n.AddPod generation pod), (n.AddPod generation pod).Generation)

/-- One of the two loops of `swapIfPossible` over the scalar resources of a pod: every key of
`resA` is in `resB` with the same quantity. -/
def scalarsCovered (resA resB : SMap) : Bool :=
  resA.all (fun e => decide (resB.get? e.1 = some e.2))

/-- `swapIfPossible(nodeInfos, nodeA, nodeB, podA, podB)`, where `nodeA` and `nodeB` point to
the elements `iA` and `iB` of `nodeInfos`: the result, the snapshot and the generation counter
after the call. -/
def swapIfPossible (generation : Int) (nodeInfos : List NodeInfo) (iA iB : Nat)
    (podA podB : PodInfo) : Run (Bool × List NodeInfo × Int) :=
  let resA := (CalculateResource podA.Pod).1
  let resB := (CalculateResource podB.Pod).1
  let isSatisfied :=
    scalarsCovered resA.ScalarResources resB.ScalarResources &&
      scalarsCovered resB.ScalarResources resA.ScalarResources
  if !isSatisfied then .val (false, nodeInfos, generation)
  else
    let entropyBeforeSwap := GetSystemEntropy nodeInfos
    (removePodAt generation nodeInfos iA podA.Pod).bind fun (ns1, g1, aRemovedFromA) =>
    (removePodAt g1 ns1 iB podB.Pod).bind fun (ns2, g2, bRemovedFromB) =>
    if aRemovedFromA = none ∧ bRemovedFromB = none then
      (addPodAt g2 ns2 iA podB.Pod).bind fun (ns3, g3) =>
      (addPodAt g3 ns3 iB podA.Pod).bind fun (ns4, g4) =>
      let entropyAfterSwap := GetSystemEntropy ns4
      if F64.ge entropyAfterSwap entropyBeforeSwap then
        -- Revert swapping
        (removePodAt g4 ns4 iA podB.Pod).bind fun (ns5, g5, e1) =>
        if e1 = none then .val (false, ns5, g5)
        else
          (removePodAt g5 ns5 iB podA.Pod).bind fun (ns6, g6, e2) =>
          if e2 = none then .val (false, ns6, g6)
          else
            (addPodAt g6 ns6 iA podA.Pod).bind fun (ns7, g7) =>
            (addPodAt g7 ns7 iB podB.Pod).bind fun (ns8, g8) =>
            .val (false, ns8, g8)
      else .val (true, ns4, g4)
    else if aRemovedFromA = none then
      (addPodAt g2 ns2 iA podA.Pod).bind fun (ns3, g3) => .val (false, ns3, g3)
    else if bRemovedFromB = none then
      (addPodAt g2 ns2 iB podB.Pod).bind fun (ns3, g3) => .val (false, ns3, g3)
    else .val (true, ns2, g2)

/-- The loop of `BalancePolicy`. The cluster behind the API client is a state `c : C`;
`snapshot` is `GetSystemSnapshot` and `balanceWorkload` is `BalanceWorkload`, which yields
the cluster it leaves and whether it returned an error. `n` bounds the number of remaining
rounds. The result is the returned error flag, the number of `BalanceWorkload` calls made and
the final cluster. -/
def BalancePolicy.loop {C : Type} (snapshot : C → List NodeInfo)
    (balanceWorkload : C → C × Bool) (iterations : Int) (pivotRatio : F64) :
    Nat → Int → C → List NodeInfo → Nat → Bool × Nat × C
  | 0, _, c, _, calls => (false, calls, c)
  | n + 1, currIterations, c, nodeInfos, calls =>
    if currIterations < iterations ∧ isSchedulingDone nodeInfos pivotRatio = true then
      match balanceWorkload c with
      | (c1, true) => (true, calls + 1, c1)
      | (c1, false) =>
        BalancePolicy.loop snapshot balanceWorkload iterations pivotRatio n
          (currIterations + 1) c1 (snapshot c1) (calls + 1)
    else (false, calls, c)

/-- `BalancePolicy`: whether it returns an error, how many times it called `BalanceWorkload`,
and the cluster it leaves. -/
def BalancePolicy {C : Type} (snapshot : C → List NodeInfo) (balanceWorkload : C → C × Bool)
    (c : C) (iterations : Int) : Bool × Nat × C :=
  let nodeInfos := snapshot c
  let pivotRatio := GetPivotRatio nodeInfos
  let nodeInfos := snapshot c
  BalancePolicy.loop snapshot balanceWorkload iterations pivotRatio iterations.toNat 0 c
    nodeInfos 0

/-! ## Cantor pairing (`cantor/paridepair.go`) -/

/-- Digit-by-digit integer square root: with `acc` the bits found so far, try the bits
`k - 1, ..., 0`. The result is the largest `r` with `r * r ≤ n` when `n < 4 ^ k`. -/
def isqrtBits : Nat → Nat → Nat → Nat
  | 0, _, acc => acc
  | k + 1, n, acc =>
    if (acc + 2 ^ k) * (acc + 2 ^ k) ≤ n then isqrtBits k n (acc + 2 ^ k)
    else isqrtBits k n acc

/-- Twice the integer square root of `M`, plus one when `M` is not a square: the square root of
`M` in half units, with every root strictly between two integers moved to the midpoint. -/
def F64.sqrtSticky (M : Nat) : Nat :=
  let s := isqrtBits (F64.bitLen M M / 2 + 1) M 0
  if s * s = M then 2 * s else 2 * s + 1

/-- The function `math.Sqrt`: the `float64` nearest to the square root, as IEEE 754 prescribes.
The root of `n / d` is the root of `n * d * 4 ^ 54` over `d * 2 ^ 54`; no `float64` and no
midpoint of two neighbouring ones lies strictly between two consecutive multiples of
`1 / (d * 2 ^ 54)`, so a root between two of them rounds as their midpoint does. -/
def F64.sqrt : F64 → F64
  | .nan => .nan
  | .posInf => .posInf
  | .negInf => .nan
  | .fin n d =>
    if n < 0 then .nan
    else if n = 0 then .fin 0 1
    else F64.round (F64.sqrtSticky (n.toNat * d.toNat * 4 ^ 54) : Int)
      ((2 * d.toNat * 2 ^ 54 : Nat) : Int)

/-- The function `math.Floor`. -/
def F64.floor : F64 → F64
  | .fin n d => .fin (n / d) 1
  | x => x

/-- The expression `int(math.Floor((math.Sqrt(float64(m)) - 1) / 2))`. -/
def floorHalfSqrtPred (m : Int) : Int :=
  F64.toInt64
    (F64.floor (F64.div (F64.sub (F64.sqrt (F64.ofInt m)) (F64.ofInt 1)) (F64.ofInt 2)))

/-- `depair`. -/
def depair (z : Int) : List Int :=
  let t := floorHalfSqrtPred (add64 (mul64 8 z) 1)
  let x := sub64 (Int.tdiv (mul64 t (add64 t 3)) 2) z
  let y := sub64 z (Int.tdiv (mul64 t (add64 t 1)) 2)
  [x, y]

/-- `Pair`. -/
def Pair (a b : Int) : Int :=
  if a > -1 ∨ b > -1 then
    let input := [a, b]
    let result :=
      F64.toInt64
        (F64.add
          (F64.mul (F64.fin 1 2) (F64.ofInt (mul64 (add64 a b) (add64 (add64 a b) 1))))
          (F64.ofInt b))
    if depair result = input then result else -1
  else -1

/-! ## `sort.Slice` -/

/-- Insertion of `x` behind a sorted prefix given in reverse order: `x` moves toward the front
while it is less than its predecessor. -/
def insertRev {α : Type} (less : α → α → Bool) (x : α) : List α → List α
  | [] => [x]
  | y :: r => if less x y then y :: insertRev less x r else x :: y :: r

/-- `sort.Slice` with the given `less`, as the insertion sort that the standard library runs
on slices of at most 12 elements (on longer slices the library may order elements that
`less` does not separate differently). -/
def sortSlice {α : Type} (less : α → α → Bool) (l : List α) : List α :=
  (l.foldl (fun r x => insertRev less x r) []).reverse

/-! ## Placement planner (`scheduler/placement.go`) -/

/-- A call of `MigratePod` that reaches the API server. -/
structure MigrateCall where
  pod : Pod
  fromNode : Option Node
  toNode : Option Node
  isSwap : Bool
  deriving DecidableEq, Repr

/-- The collaborators of the planner that are black boxes: the two fit predicates of
`nodeutil` and the API server behind `MigratePod` (`apiMigrate calls c` tells whether the
call `c` returns an error after the earlier calls `calls`). -/
structure Env where
  PodFitsCurrentNode : Pod → Option Node → Bool
  PodFitsAnyOtherNode : Pod → List (Option Node) → Bool
  apiMigrate : List MigrateCall → MigrateCall → Bool

/-- The mutable state seen by the planner: the snapshot, the process-wide generation counter
and the `MigratePod` calls that reached the API server so far. -/
structure PState where
  nodeInfos : List NodeInfo
  generation : Int := 0
  calls : List MigrateCall := []
  deriving DecidableEq, Repr

/-- `MigratePod`, as far as the planner is concerned: it returns `nil` at once when `fromNode`
is `nil`; otherwise the call reaches the API server. The result is the list of calls and
whether an error is returned. -/
def MigratePod (env : Env) (calls : List MigrateCall) (pod : Pod) (fromNode toNode : Option Node)
    (isSwap : Bool) : List MigrateCall × Bool :=
  match fromNode with
  | none => (calls, false)
  | some _ =>
    let c : MigrateCall := { pod := pod, fromNode := fromNode, toNode := toNode, isSwap := isSwap }
    (calls ++ [c], env.apiMigrate calls c)

/-- The expression `nodeInfo.Node().GetName()`; it panics on a `nil` node. -/
def NodeInfo.GetName (n : NodeInfo) : Run String :=
  match n.Node with
  | none => .panic
  | some nd => .val nd.Name

/-- The sum `sr` of the allocatable scalar resources built by `checkPlacementElibility`. -/
def allocatableScalarSum (nodeInfos : List NodeInfo) : SMap :=
  nodeInfos.foldl (fun sr n => sr.addAll n.Allocatable.ScalarResources) []

/-- `checkPlacementElibility`. -/
def checkPlacementElibility (env : Env) (podInfo : PodInfo) (nodeInfos : List NodeInfo) : Bool :=
  let cpuSum := nodeInfos.foldl (fun acc n => add64 acc n.Available.MilliCPU) 0
  let memorySum := nodeInfos.foldl (fun acc n => add64 acc n.Allocatable.Memory) 0
  let sr := allocatableScalarSum nodeInfos
  let nodes := nodeInfos.map (fun n => n.Node)
  let (res, non0CPU, non0Mem) := CalculateResource podInfo.Pod
  let isUnAvailable := res.ScalarResources.any (fun e => decide (sr.get e.1 < e.2))
  decide (cpuSum ≥ non0CPU) && decide (memorySum ≥ non0Mem) && !isUnAvailable &&
    env.PodFitsAnyOtherNode podInfo.Pod nodes

/-- First loop of `computeNormalPlacement`: the last node named `nodeName`, starting from
`fromNode`; `i` is the index of the head of the list. -/
def findFromNode (nodeName : String) : List NodeInfo → Nat → Option Nat → Run (Option Nat)
  | [], _, fromNode => .val fromNode
  | n :: rest, i, fromNode =>
    match n.GetName with
    | .val name =>
      findFromNode nodeName rest (i + 1) (if name = nodeName then some i else fromNode)
    | .panic => .panic
    | .outOfFuel => .outOfFuel

/-- The test made on a candidate node by the second loop of `computeNormalPlacement`, once
the node is known not to be the pod's own and to pass `PodFitsCurrentNode`. -/
def hasRoom (placePodInfo : PodInfo) (nodeInfo : NodeInfo) : Bool :=
  let (res, placeCpu, placeMem) := CalculateResource placePodInfo.Pod
  let isUnAvailable :=
    res.ScalarResources.any (fun e => decide (nodeInfo.Available.ScalarResources.get e.1 < e.2))
  decide (placeCpu ≤ nodeInfo.Available.MilliCPU) && decide (placeMem ≤ nodeInfo.Available.Memory)
    && !isUnAvailable

/-- Second loop of `computeNormalPlacement`: the first node that can take the pod. -/
def findToNode (env : Env) (placePodInfo : PodInfo) : List NodeInfo → Nat → Run (Option Nat)
  | [], _ => .val none
  | n :: rest, i =>
    match n.GetName with
    | .val name =>
      if placePodInfo.Pod.NodeName = name ∨
          env.PodFitsCurrentNode placePodInfo.Pod n.Node = false then
        findToNode env placePodInfo rest (i + 1)
      else if hasRoom placePodInfo n then .val (some i)
      else findToNode env placePodInfo rest (i + 1)
    | .panic => .panic
    | .outOfFuel => .outOfFuel

/-- `computeNormalPlacement`: `fromNode`, `toNode` (indices into the snapshot) and whether a
direct placement was found. -/
def computeNormalPlacement (env : Env) (placePodInfo : PodInfo) (nodeInfos : List NodeInfo) :
    Run (Option Nat × Option Nat × Bool) :=
  (findFromNode placePodInfo.Pod.NodeName nodeInfos 0 none).bind fun fromNode =>
  (findToNode env placePodInfo nodeInfos 0).bind fun toNode =>
  .val (fromNode, toNode, toNode.isSome)

/-- The expression `int(math.Abs(float64(x)))`. -/
def absInt (x : Int) : Int := F64.toInt64 (F64.abs (F64.ofInt x))

/-- The expression `int(math.Abs(float64(x) / capacity.MB))`. -/
def absIntMB (x : Int) : Int := F64.toInt64 (F64.abs (toMBf x))

/-- The score given to a node by `computePlacementPriority`. -/
def placementScore (podInfo : PodInfo) (nodeInfo : NodeInfo) : Int :=
  let (res, cpu, mem) := CalculateResource podInfo.Pod
  let pairedScore := res.ScalarResources.foldl
    (fun score e =>
      let diffSr := sub64 e.2 (nodeInfo.Available.ScalarResources.get e.1)
      let score := add64 score
        (Pair (absInt diffSr) (absInt (sub64 cpu nodeInfo.Available.MilliCPU)))
      add64 score (Pair (absInt diffSr) (absIntMB (sub64 mem nodeInfo.Available.Memory))))
    0
  add64 pairedScore
    (Pair (absInt (sub64 cpu nodeInfo.Available.MilliCPU))
      (absIntMB (sub64 mem nodeInfo.Available.Memory)))

/-- The loop of `computePlacementPriority` filling `keys` and the map `nodeScore`. -/
def scoreNodes (podInfo : PodInfo) :
    List NodeInfo → List String → SMap → Run (List String × SMap)
  | [], keys, nodeScore => .val (keys, nodeScore)
  | n :: rest, keys, nodeScore =>
    match n.GetName with
    | .val name =>
      scoreNodes podInfo rest (keys ++ [name]) (nodeScore.set name (placementScore podInfo n))
    | .panic => .panic
    | .outOfFuel => .outOfFuel

/-- `computePlacementPriority`. -/
def computePlacementPriority (podInfo : PodInfo) (nodeInfos : List NodeInfo) :
    Run (List String) :=
  (scoreNodes podInfo nodeInfos [] []).bind fun (keys, nodeScore) =>
  .val (sortSlice (fun a b => decide (nodeScore.get a < nodeScore.get b)) keys)

/-- The loop `for _, nodeInfo = range nodeInfos { if nodeInfo.Node().GetName() == name
{ break } }`: the index held by `nodeInfo` afterwards (`last` when nothing matched). -/
def findByName (name : String) : List NodeInfo → Nat → Option Nat → Run (Option Nat)
  | [], _, last => .val last
  | n :: rest, i, _ =>
    match n.GetName with
    | .val nm => if nm = name then .val (some i) else findByName name rest (i + 1) (some i)
    | .panic => .panic
    | .outOfFuel => .outOfFuel

/-- The test made by `computeEligiblePods` on a pod of the node. -/
def isEligible (placePodInfo : PodInfo) (nodeInfo : NodeInfo) (podInfo : PodInfo) : Bool :=
  let (placeRes, placeCpu, placeMem) := CalculateResource placePodInfo.Pod
  let (migrateRes, migrateCpu, migrateMem) := CalculateResource podInfo.Pod
  let isUnAvailable := placeRes.ScalarResources.any (fun e =>
    match nodeInfo.Available.ScalarResources.get? e.1 with
    | some avail =>
      let diffSr := sub64 e.2 avail
      decide (migrateRes.ScalarResources.get e.1 < diffSr) ||
        decide (migrateRes.ScalarResources.get e.1 ≥ e.2)
    | none => false)
  let diffCpu := sub64 placeCpu nodeInfo.Available.MilliCPU
  let diffMem := sub64 placeMem nodeInfo.Available.Memory
  decide (migrateCpu ≥ diffCpu) && decide (migrateMem ≥ diffMem) &&
    decide (migrateCpu < placeCpu) && decide (migrateMem < placeMem) && !isUnAvailable

/-- `computeEligiblePods`. -/
def computeEligiblePods (env : Env) (placePodInfo : PodInfo) (nodeInfo : NodeInfo) :
    List PodInfo :=
  if env.PodFitsCurrentNode placePodInfo.Pod nodeInfo.Node = false then []
  else
    nodeInfo.Pods.filter (fun podInfo =>
      IsMigratable podInfo.Pod && isEligible placePodInfo nodeInfo podInfo)

/-- The `less` function of `computeMinimumMigrateablePod`; the scalar resources of the first
pod are visited in the order of the list. -/
def lessMigrateable (p1 p2 : PodInfo) : Bool :=
  let (res1, cpu1, _) := CalculateResource p1.Pod
  let (res2, cpu2, _) := CalculateResource p2.Pod
  let rec go : SMap → Bool
    | [] => decide (cpu1 < cpu2)
    | (rName, rQuant1) :: rest =>
      match res2.ScalarResources.get? rName with
      | some rQuant2 => if rQuant1 ≠ rQuant2 then decide (rQuant1 < rQuant2) else go rest
      | none => go rest
  go res1.ScalarResources

/-- `computeMinimumMigrateablePod`. -/
def computeMinimumMigrateablePod (eligiblePods : List PodInfo) : Option PodInfo :=
  match eligiblePods with
  | [] => none
  | [p] => some p
  | _ => (sortSlice lessMigrateable eligiblePods).head?

/-- The test made by `computeMultipleEligiblePods` on a pod of the node. -/
def isMultipleEligible (placePodInfo : PodInfo) (podInfo : PodInfo) : Bool :=
  let (placeRes, placeCpu, placeMem) := CalculateResource placePodInfo.Pod
  let (migragteRes, migrateCpu, migrateMem) := CalculateResource podInfo.Pod
  let isUnSatisfied := placeRes.ScalarResources.any (fun e =>
    match migragteRes.ScalarResources.get? e.1 with
    | some rMigrateQuant => decide (rMigrateQuant ≥ e.2)
    | none => false)
  decide (migrateCpu < placeCpu) && decide (migrateMem < placeMem) && !isUnSatisfied

/-- `computeMultipleEligiblePods`. -/
def computeMultipleEligiblePods (placePodInfo : PodInfo) (nodeInfo : NodeInfo) : List PodInfo :=
  nodeInfo.Pods.filter (fun podInfo => isMultipleEligible placePodInfo podInfo)

/-- `computeTotalMemoryMB`. -/
def computeTotalMemoryMB (podInfos : List PodInfo) : Int :=
  let memSum := podInfos.foldl (fun acc p => add64 acc (CalculateResource p.Pod).2.2) 0
  F64.toInt64 (toMBf memSum)

/-- `computeTotalCpuMilicore`; the value it binds to `cpu` is the third result of
`CalculateResource`. -/
def computeTotalCpuMilicore (podInfos : List PodInfo) : Int :=
  podInfos.foldl (fun acc p => add64 acc (CalculateResource p.Pod).2.2) 0

/-- `computeTotalScalarResource`. -/
def computeTotalScalarResource (name : String) (podInfos : List PodInfo) : Int :=
  podInfos.foldl
    (fun acc p =>
      match (CalculateResource p.Pod).1.ScalarResources.get? name with
      | some rQuaint => add64 acc rQuaint
      | none => acc)
    0

/-- The score given to a pod by `sortMigrateablePods`. -/
def migrateableScore (pod : PodInfo) : Int :=
  let (res, cpu, mem) := CalculateResource pod.Pod
  let pairedScore := res.ScalarResources.foldl
    (fun score e =>
      let score := add64 score (Pair (absInt e.2) (absInt cpu))
      add64 score (Pair (absInt e.2) (absIntMB mem)))
    0
  add64 pairedScore (Pair (absInt cpu) (absIntMB mem))

/-- The call `strings.Split(key, "-")`. -/
def splitDash (key : String) : List String :=
  (List.splitOn '-' key.data).map String.mk

/-- `sortMigrateablePods`. -/
def sortMigrateablePods (pods : List PodInfo) : List PodInfo :=
  let keys := pods.map (fun pod => pod.Pod.Namespace ++ "-" ++ pod.Pod.Name)
  let podScore : SMap := pods.foldl
    (fun m pod => m.set (pod.Pod.Namespace ++ "-" ++ pod.Pod.Name) (migrateableScore pod)) []
  let keys := sortSlice (fun a b => decide (podScore.get a < podScore.get b)) keys
  keys.foldl
    (fun sortPods key =>
      match splitDash key with
      | ns :: name :: _ =>
        sortPods ++ pods.filter (fun pod => pod.Pod.Namespace = ns ∧ pod.Pod.Name = name)
      | _ => sortPods)
    []

/-- `computeMinimumMigrateablePods`; the access `multipleEligiblePods[1]` panics on a list of
fewer than two elements. -/
def computeMinimumMigrateablePods (placePodInfo : PodInfo) (nodeInfo : NodeInfo) :
    List PodInfo → List PodInfo → Run (List PodInfo)
  | multipleEligiblePods, currentEligiblePods =>
    let totalCpuMiliCore := computeTotalCpuMilicore currentEligiblePods
    let totalMemMB := computeTotalMemoryMB currentEligiblePods
    let (placedRes, placeCpu, placeMem) := CalculateResource placePodInfo.Pod
    let isUnAvailable := placedRes.ScalarResources.any (fun e =>
      decide (computeTotalScalarResource e.1 currentEligiblePods < e.2))
    let cpuDiff := sub64 placeCpu nodeInfo.Available.MilliCPU
    let memDiff := sub64 placeMem nodeInfo.Available.Memory
    let covered : Bool :=
      if cpuDiff > 0 ∧ memDiff > 0 then
        decide (totalCpuMiliCore ≥ cpuDiff ∧ totalMemMB ≥ memDiff)
      else if cpuDiff > 0 ∧ memDiff < 0 then decide (totalCpuMiliCore ≥ cpuDiff)
      else if memDiff > 0 ∧ cpuDiff < 0 then decide (totalCpuMiliCore ≥ cpuDiff)
      else false
    if !isUnAvailable && (covered || decide (multipleEligiblePods.length ≤ 1)) then
      .val (sortMigrateablePods currentEligiblePods)
    else
      match multipleEligiblePods with
      | [] => .panic
      | _ :: rest =>
        match rest with
        | [] => .panic
        | currentPod :: _ =>
          computeMinimumMigrateablePods placePodInfo nodeInfo rest
            (currentEligiblePods ++ [currentPod])

/-- Dereference of a `*NodeInfo` pointing into the snapshot (`none` is `nil`). -/
def nodeAt (nodeInfos : List NodeInfo) (p : Option Nat) : Option NodeInfo :=
  p.bind fun i => nodeInfos[i]?

/-- The expression `p.Node()` for a `*NodeInfo`, which is `nil` for a `nil` pointer. -/
def ptrNode (nodeInfos : List NodeInfo) (p : Option Nat) : Option Node :=
  (nodeAt nodeInfos p).bind fun n => n.Node

/-- The candidate loop of `placeCapacity`, up to its recursive call: the pod returned by
`computeMinimumMigrateablePod` for the first node, in priority order, that has eligible
pods. -/
def firstEligible (env : Env) (placePodInfo : PodInfo) (nodeInfos : List NodeInfo) :
    List String → Run (Option PodInfo)
  | [] => .val none
  | name :: rest =>
    (findByName name nodeInfos 0 none).bind fun idx =>
    match nodeAt nodeInfos idx with
    | none => .panic
    | some nodeInfo =>
      let eligiblePods := computeEligiblePods env placePodInfo nodeInfo
      if eligiblePods.length ≠ 0 then
        match computeMinimumMigrateablePod eligiblePods with
        | some eligiblePod => .val (some eligiblePod)
        | none => .panic
      else firstEligible env placePodInfo nodeInfos rest

/-- The result of `placeCapacity`: the migrated pod, the node it leaves, and success. -/
abbrev SingleResult := Option PodInfo × Option Nat × Bool

/-- `placeCapacity`, with a budget `fuel` for the depth of its recursion. -/
def placeCapacity (env : Env) : Nat → PodInfo → PState → Run (SingleResult × PState)
  | 0, _, _ => .outOfFuel
  | fuel + 1, placePodInfo, st =>
    if checkPlacementElibility env placePodInfo st.nodeInfos then
      (computeNormalPlacement env placePodInfo st.nodeInfos).bind fun (fromNode, toNode, direct) =>
      if direct then
        -- the log line evaluates `fromNode.Node().GetName()` and `toNode.Node().GetName()`
        match ptrNode st.nodeInfos fromNode, ptrNode st.nodeInfos toNode with
        | some _, some _ =>
          let (calls, err) :=
            MigratePod env st.calls placePodInfo.Pod (ptrNode st.nodeInfos fromNode)
              (ptrNode st.nodeInfos toNode) false
          if err then .val ((none, none, false), { st with calls := calls })
          else
            match fromNode with
            | some i =>
              (removePodAt st.generation st.nodeInfos i placePodInfo.Pod).bind fun (ns, g, _) =>
              .val ((some placePodInfo, some i, true),
                { nodeInfos := ns, generation := g, calls := calls })
            | none => .val ((none, none, false), { st with calls := calls })
        | _, _ => .panic
      else
        (computePlacementPriority placePodInfo st.nodeInfos).bind fun sortedNodeNames =>
        (firstEligible env placePodInfo st.nodeInfos sortedNodeNames).bind fun e =>
        match e with
        | some eligiblePod => placeCapacity env fuel eligiblePod st
        | none => .val ((none, none, false), st)
    else .val ((none, none, false), st)

/-- The candidate loop of `placeCapacityWithMultipleMigration`, up to the placement of the
chosen pods: the first node, in priority order, that has eligible pods, with the pods
returned by `computeMinimumMigrateablePods`. -/
def firstMultipleEligible (placePodInfo : PodInfo) (nodeInfos : List NodeInfo) :
    List String → Run (Option (Option Nat × List PodInfo))
  | [] => .val none
  | name :: rest =>
    (findByName name nodeInfos 0 none).bind fun idx =>
    match nodeAt nodeInfos idx with
    | none => .panic
    | some nodeInfo =>
      match computeMultipleEligiblePods placePodInfo nodeInfo with
      | [] => firstMultipleEligible placePodInfo nodeInfos rest
      | first :: others =>
        (computeMinimumMigrateablePods placePodInfo nodeInfo (first :: others) [first]).bind
          fun pods => .val (some (idx, pods))

/-- The loop `for _, nodeInfo := range nodeInfos` that returns the first node named
`nodeName`. -/
def findNamed (nodeName : String) : List NodeInfo → Nat → Run (Option Nat)
  | [], _ => .val none
  | n :: rest, i =>
    match n.GetName with
    | .val name => if name = nodeName then .val (some i) else findNamed nodeName rest (i + 1)
    | .panic => .panic
    | .outOfFuel => .outOfFuel

/-- The result of `placeCapacityWithMultipleMigration`. -/
abbrev MultiResult := List PodInfo × Option Nat × Bool

/-- The loop `for _, pod := range pods` of `placeCapacityWithMultipleMigration`, given the two
placement functions. -/
def placeEach (single : PodInfo → PState → Run (SingleResult × PState))
    (multi : PodInfo → PState → Run (MultiResult × PState)) :
    List PodInfo → PState → Run PState
  | [], st => .val st
  | pod :: rest, st =>
    (single pod st).bind fun (r, st1) =>
    if r.2.2 then placeEach single multi rest st1
    else (multi pod st1).bind fun (_, st2) => placeEach single multi rest st2

/-- `placeCapacityWithMultipleMigration`, with a budget `fuel` for the depth of the
recursion. -/
def placeCapacityWithMultipleMigration (env : Env) :
    Nat → PodInfo → PState → Run (MultiResult × PState)
  | 0, _, _ => .outOfFuel
  | fuel + 1, placePodInfo, st =>
    if !checkPlacementElibility env placePodInfo st.nodeInfos then
      (computeNormalPlacement env placePodInfo st.nodeInfos).bind fun (fromNode, toNode, direct) =>
      if direct then
        let (calls, err) :=
          MigratePod env st.calls placePodInfo.Pod (ptrNode st.nodeInfos fromNode)
            (ptrNode st.nodeInfos toNode) false
        if err then .val (([], none, false), { st with calls := calls })
        else
          (findNamed placePodInfo.Pod.NodeName st.nodeInfos 0).bind fun found =>
          match found with
          | some i => .val (([], some i, true), { st with calls := calls })
          | none => .val (([], none, false), { st with calls := calls })
      else
        (computePlacementPriority placePodInfo st.nodeInfos).bind fun sortedNodeNames =>
        (firstMultipleEligible placePodInfo st.nodeInfos sortedNodeNames).bind fun c =>
        match c with
        | some (nodeInfo, pods) =>
          (placeEach (placeCapacity env fuel) (placeCapacityWithMultipleMigration env fuel)
            pods st).bind fun st1 =>
          .val ((pods, nodeInfo, true), st1)
        | none => .val (([], none, false), st)
    else .val (([], none, false), st)

/-- `PlacePod`: the migrated pods, the target node and success, with the state it leaves. -/
def PlacePod (env : Env) (fuel : Nat) (podInfo : PodInfo) (st : PState) :
    Run (MultiResult × PState) :=
  (placeCapacity env fuel podInfo st).bind fun (r, st1) =>
  if r.2.2 then .val ((r.1.toList, r.2.1, true), st1)
  else
    (placeCapacityWithMultipleMigration env fuel podInfo st1).bind fun (m, st2) =>
    if m.2.2 then .val ((m.1, m.2.1, true), st2)
    else .val (([], none, false), st2)

/-- The availability invariant of a node, in `int64` arithmetic. -/
def AvailInv (n : NodeInfo) : Prop :=
  add64 n.Available.MilliCPU n.NonZeroRequested.MilliCPU = n.Allocatable.MilliCPU ∧
  add64 n.Available.Memory n.NonZeroRequested.Memory = n.Allocatable.Memory

/-- The value returned by a run, if any. -/
def Run.get? {α : Type} : Run α → Option α
  | .val a => some a
  | _ => none

/-- The names of the pods held by each node of a snapshot. -/
def podNames (nodeInfos : List NodeInfo) : List (List String) :=
  nodeInfos.map fun n => n.Pods.map fun p => p.Pod.Name

/-- What a run of `PlacePod` shows to its caller and to the cluster: the names of the migrated
pods, the target node, success, and the names of the pods whose `MigratePod` call reached the
API server. -/
def placeSummary (r : Run (MultiResult × PState)) :
    Run ((List String × Option Nat × Bool) × List String) :=
  r.bind fun (m, st) =>
    .val ((m.1.map (fun p => p.Pod.Name), m.2.1, m.2.2), st.calls.map (fun c => c.pod.Name))

/-! ## Pod ordering (`capacity/pod_info.go`) -/

/-- `getCpuRequests`. -/
def getCpuRequests (pod : Pod) : Int :=
  let non0CPU := pod.Containers.foldl (fun acc c => add64 acc c.Non0CPUReq) 0
  pod.InitContainers.foldl (fun acc ic => max acc ic.Non0CPUReq) non0CPU

/-- `getMemoryRequests`. -/
def getMemoryRequests (pod : Pod) : Int :=
  let non0Mem := pod.Containers.foldl (fun acc c => add64 acc c.Non0MemReq) 0
  pod.InitContainers.foldl (fun acc ic => max acc ic.Non0MemReq) non0Mem

/-- `SortPodsBasedOnCpu`: the slice it returns and the slice it was given as the call leaves
it. The copy is taken before `sort.Slice` runs on the argument. -/
def SortPodsBasedOnCpu (podInfos : List PodInfo) : List PodInfo × List PodInfo :=
  let sortPodInfos := [] ++ podInfos
  let podInfos :=
    sortSlice (fun a b => decide (getCpuRequests a.Pod < getCpuRequests b.Pod)) podInfos
  (sortPodInfos, podInfos)

/-- `SortPodsBasedOnMemory`: the slice it returns and the slice it was given as the call
leaves it. -/
def SortPodsBasedOnMemory (podInfos : List PodInfo) : List PodInfo × List PodInfo :=
  let sortPodInfos := [] ++ podInfos
  let podInfos :=
    sortSlice (fun a b => decide (getMemoryRequests a.Pod < getMemoryRequests b.Pod)) podInfos
  (sortPodInfos, podInfos)

/-- `SortNodesBasedRatio`. -/
def SortNodesBasedRatio (nodeInfos : List NodeInfo) : List NodeInfo :=
  sortSlice (fun a b => F64.lt (GetCpuMemoryRatio a) (GetCpuMemoryRatio b)) nodeInfos

/-! ## Affinity helper (`pkg/utils/defragement.go`) -/

/-- The constant `nodeAffinityHostNameKey`. -/
def nodeAffinityHostNameKey : String := "kubernetes.io/hostname"

/-- The requirement appended by the two helpers: the hostname label `In [toNode]`. -/
def hostNameRequirement (toNode : String) : NodeSelectorRequirement :=
  { Key := nodeAffinityHostNameKey, Operator := "In", Values := [toNode] }

/-- The assignment `terms[len(terms)-1].MatchExpressions = append(..., r)` on a slice of
preferred terms. -/
def appendToLastPreferred (terms : List PreferredSchedulingTerm) (r : NodeSelectorRequirement) :
    List PreferredSchedulingTerm :=
  match terms.getLast? with
  | none => terms
  | some last =>
    terms.dropLast ++
      [{ last with
          Preference :=
            { last.Preference with
              MatchExpressions := last.Preference.MatchExpressions ++ [r] } }]

/-- `SetNewPreferredPodAffinity` on a non-nil pod. -/
def SetNewPreferredPodAffinity (pod : Pod) (toNode : String) : Pod :=
  let affinity : Affinity := pod.Affinity.getD {}
  let nodeAffinity : NodeAffinity := affinity.NodeAffinity.getD {}
  let preferred :=
    if nodeAffinity.PreferredDuringSchedulingIgnoredDuringExecution.length = 0 then
      nodeAffinity.PreferredDuringSchedulingIgnoredDuringExecution ++ [{ Weight := 1 }]
    else nodeAffinity.PreferredDuringSchedulingIgnoredDuringExecution
  let preferred := appendToLastPreferred preferred (hostNameRequirement toNode)
  { pod with
    Affinity :=
      some
        { affinity with
          NodeAffinity :=
            some { nodeAffinity with PreferredDuringSchedulingIgnoredDuringExecution := preferred } } }

/-- The assignment `terms[len(terms)-1].MatchExpressions = append(..., r)` on a slice of
node selector terms. -/
def appendToLastRequired (terms : List NodeSelectorTerm) (r : NodeSelectorRequirement) :
    List NodeSelectorTerm :=
  match terms.getLast? with
  | none => terms
  | some last =>
    terms.dropLast ++ [{ last with MatchExpressions := last.MatchExpressions ++ [r] }]

/-- `SetNewRequiredPodAffinity` on a non-nil pod. -/
def SetNewRequiredPodAffinity (pod : Pod) (toNode : String) : Pod :=
  let affinity : Affinity := pod.Affinity.getD {}
  let nodeAffinity : NodeAffinity := affinity.NodeAffinity.getD {}
  let terms : List NodeSelectorTerm :=
    nodeAffinity.RequiredDuringSchedulingIgnoredDuringExecution.getD []
  let terms := if terms.length = 0 then terms ++ [({} : NodeSelectorTerm)] else terms
  let terms := appendToLastRequired terms (hostNameRequirement toNode)
  { pod with
    Affinity :=
      some
        { affinity with
          NodeAffinity :=
            some { nodeAffinity with RequiredDuringSchedulingIgnoredDuringExecution := some terms } } }

/-! ## Migration executor (`scheduler/migrate.go`)

The API server is a black box that answers each call given the calls made before it. -/

namespace Executor

/-- The 32-bit reduction of an integer (`int32` arithmetic). -/
def wrap32 (x : Int) : Int := Int.bmod x (2 ^ 32)

/-- The value is representable as an `int32`. -/
def isInt32 (x : Int) : Prop := -(2 ^ 31) ≤ x ∧ x < 2 ^ 31

instance (x : Int) : Decidable (isInt32 x) :=
  inferInstanceAs (Decidable (-(2 ^ 31) ≤ x ∧ x < 2 ^ 31))

/-- An `autoscalingv1.Scale`: its resource version and `Spec.Replicas`. -/
structure Scale where
  ResourceVersion : String := ""
  Replicas : Int := 0
  deriving DecidableEq, Repr

/-- A call to the API server. `kind` is the resource whose `Scale` subresource is used:
`"ReplicationController"`, `"ReplicaSet"` or `"Deployment"`. -/
inductive ApiCall where
  | getReplicaSet (ns name : String)
  | getScale (kind ns name : String)
  | updateScale (kind ns name : String) (scale : Scale)
  | deletePod (ns name : String) (gracePeriodSeconds : Int)
  | createPod (ns : String) (pod : Pod)
  deriving DecidableEq, Repr

/-- The answers of the API server, each given the calls made so far. `getReplicaSet` yields
the owner references of the replica set, `getScale` the scale, or `none` on an error; the
other three tell whether the call returns an error. -/
structure Api where
  getReplicaSet : List ApiCall → String → String → Option (List OwnerReference)
  getScale : List ApiCall → String → String → String → Option Scale
  updateScale : List ApiCall → String → String → String → Scale → Bool
  deletePod : List ApiCall → String → String → Bool
  createPod : List ApiCall → String → Pod → Bool

/-- The struct `Controller`. -/
structure Controller where
  controllerType : String := ""
  Name : String := ""
  deriving DecidableEq, Repr

/-- `deletePod`: the calls made so far and whether an error is returned. -/
def deletePod (api : Api) (calls : List ApiCall) (pod : Pod) : List ApiCall × Bool :=
  let gracePeriodSeconds : Int := 0
  (calls ++ [.deletePod pod.Namespace pod.Name gracePeriodSeconds],
    api.deletePod calls pod.Namespace pod.Name)

/-- `reSchedulePod`. -/
def reSchedulePod (api : Api) (calls : List ApiCall) (pod : Pod) (toNode : String)
    (isSwap : Bool) : List ApiCall × Bool :=
  let schedulePod := pod
  let schedulePod := { schedulePod with ResourceVersion := "" }
  let schedulePod := { schedulePod with UID := "" }
  let schedulePod := { schedulePod with NodeName := "" }
  let schedulePod := if isSwap then SetNewPreferredPodAffinity schedulePod toNode else schedulePod
  let schedulePod := { schedulePod with Status := {} }
  (calls ++ [.createPod schedulePod.Namespace schedulePod],
    api.createPod calls schedulePod.Namespace schedulePod)

/-- The first loop of `MigratePod`, which resolves the controller of the pod. Every branch of
its body ends with `break`, so only the first owner reference is looked at. -/
def resolveController (api : Api) (calls : List ApiCall) (pod : Pod) :
    List ApiCall × Controller :=
  match pod.OwnerReferences with
  | [] => (calls, {})
  | owner :: _ =>
    if owner.Kind = "ReplicationController" then
      (calls, { controllerType := "ReplicationController", Name := owner.Name })
    else if owner.Kind = "ReplicaSet" then
      let calls1 := calls ++ [.getReplicaSet pod.Namespace owner.Name]
      match api.getReplicaSet calls pod.Namespace owner.Name with
      | none => (calls1, { controllerType := "ReplicaSet", Name := owner.Name })
      | some rsOwners =>
        match rsOwners.find? (fun rsOwner => rsOwner.Kind = "Deployment") with
        | some rsOwner => (calls1, { controllerType := "Deployment", Name := rsOwner.Name })
        | none => (calls1, { controllerType := "ReplicaSet", Name := owner.Name })
    else if owner.Kind = "Job" then
      (calls, { controllerType := "Job", Name := owner.Name })
    else if owner.Kind = "TFJob" ∨ owner.Kind = "PyTorchJob" ∨ owner.Kind = "XGBoostJob" ∨
        owner.Kind = "MPIJob" ∨ owner.Kind = "MXJob" ∨ owner.Kind = "PaddleJob" then
      (calls, { controllerType := "Operator", Name := pod.Name })
    else (calls, { controllerType := "Operator", Name := pod.Name })

/-- The branch of `MigratePod` shared, up to the client used, by the three scalable
controllers: scale up, delete the pod unless swapping, scale down. -/
def migrateScaled (api : Api) (calls : List ApiCall) (kind : String) (controller : Controller)
    (pod : Pod) (isSwap : Bool) : List ApiCall × Bool :=
  let calls1 := calls ++ [.getScale kind pod.Namespace controller.Name]
  match api.getScale calls kind pod.Namespace controller.Name with
  | none => (calls1, true)
  | some s =>
    let sc := s
    let sc := { sc with Replicas := wrap32 (sc.Replicas + 1) }
    let calls2 := calls1 ++ [.updateScale kind pod.Namespace controller.Name sc]
    if api.updateScale calls1 kind pod.Namespace controller.Name sc then (calls2, true)
    else
      let (calls3, err) := if !isSwap then deletePod api calls2 pod else (calls2, false)
      if err then (calls3, true)
      else
        let sc := { sc with ResourceVersion := "" }
        let sc := { sc with Replicas := wrap32 (sc.Replicas - 1) }
        (calls3 ++ [.updateScale kind pod.Namespace controller.Name sc],
          api.updateScale calls3 kind pod.Namespace controller.Name sc)

/-- `MigratePod`: the calls made so far and whether an error is returned. It panics on a `nil`
`toNode` when the pod has no controller and its deletion succeeded (`toNode.GetName()`). -/
def MigratePod (api : Api) (calls : List ApiCall) (pod : Pod) (fromNode toNode : Option Node)
    (isSwap : Bool) : Run (List ApiCall × Bool) :=
  match fromNode with
  | none => .val (calls, false)
  | some _ =>
    let (calls, controller) := resolveController api calls pod
    if controller.controllerType = "" then
      let (calls1, err) := deletePod api calls pod
      if err then .val (calls1, true)
      else
        match toNode with
        | none => .panic
        | some target => .val (reSchedulePod api calls1 pod target.Name isSwap)
    else if controller.controllerType = "ReplicationController" then
      .val (migrateScaled api calls "ReplicationController" controller pod isSwap)
    else if controller.controllerType = "ReplicaSet" then
      .val (migrateScaled api calls "ReplicaSet" controller pod isSwap)
    else if controller.controllerType = "Deployment" then
      .val (migrateScaled api calls "Deployment" controller pod isSwap)
    else if controller.controllerType = "Job" ∨ controller.controllerType = "Operator" then
      .val (deletePod api calls pod)
    else .val (calls, false)

/-- One of the two final loops of `SwapPods`: delete the pod when one of its owners is a
replication controller or a replica set; an error is only logged. -/
def deleteIfReplicated (api : Api) (calls : List ApiCall) (pod : Pod) : List ApiCall :=
  match pod.OwnerReferences.find?
      (fun owner => owner.Kind = "ReplicationController" ∨ owner.Kind = "ReplicaSet") with
  | some _ => (deletePod api calls pod).1
  | none => calls

/-- `SwapPods`: the calls made so far and whether an error is returned. -/
def SwapPods (api : Api) (calls : List ApiCall) (podA : Pod) (nodeA : Option Node) (podB : Pod)
    (nodeB : Option Node) : Run (List ApiCall × Bool) :=
  (MigratePod api calls podA nodeA nodeB true).bind fun (calls1, err) =>
  if err then .val (calls1, true)
  else
    (MigratePod api calls1 podB nodeB nodeA true).bind fun (calls2, err) =>
    if err then .val (calls2, true)
    else
      let calls3 := deleteIfReplicated api calls2 podB
      let calls4 := deleteIfReplicated api calls3 podA
      .val (calls4, false)

end Executor

/-! ## `BalanceWorkload` (`balance.go`) -/

/-- `deepcopy.Copy(nodeInfos)`. The library copies exported fields only, so the copies have no
`node`; the pods of the copy are only looked up by key. -/
def deepcopyNodeInfos (nodeInfos : List NodeInfo) : List NodeInfo :=
  nodeInfos.map fun n => { n with node := none }

/-- The element `nodeInfos[i]` of a slice; it panics when the index is out of range. -/
def nodeIndex (nodeInfos : List NodeInfo) (i : Int) : Run NodeInfo :=
  if i < 0 then .panic
  else
    match nodeInfos[i.toNat]? with
    | none => .panic
    | some n => .val n

/-- The pair chosen by `BalanceWorkload` for `SwapPods`. -/
structure SwapChoice where
  podA : Pod
  nodeA : Option Node
  podB : Pod
  nodeB : Option Node
  deriving DecidableEq, Repr

/-- The inner loop of `BalanceWorkload` over the pods of the left and right node, with a
budget for its rounds: whether a swap was accepted, the two pod indices and the generation
counter when it ends. `leftLen` and `rightLen` are `len(nodeInfos[leftNodeIndex].Pods)` and
`len(nodeInfos[rightNodeIndex].Pods)`. -/
def podPairLoop (nodeInfos : List NodeInfo) (leftNodeIndex rightNodeIndex : Nat)
    (cpuPodInfos memPodInfos : List PodInfo) (leftLen rightLen : Nat)
    (leftNodeDistance rightNodeDistance : F64) :
    Nat → Int → Nat → Nat → Run (Bool × Nat × Nat × Int)
  | 0, _, _, _ => .outOfFuel
  | fuel + 1, generation, leftPodIndex, rightPodIndex =>
    match cpuPodInfos[leftPodIndex]?, memPodInfos[rightPodIndex]? with
    | some cpuPod, some memPod =>
      if !IsMigratable cpuPod.Pod then
        podPairLoop nodeInfos leftNodeIndex rightNodeIndex cpuPodInfos memPodInfos leftLen
          rightLen leftNodeDistance rightNodeDistance fuel generation (leftPodIndex + 1)
          rightPodIndex
      else if !IsMigratable memPod.Pod then
        podPairLoop nodeInfos leftNodeIndex rightNodeIndex cpuPodInfos memPodInfos leftLen
          rightLen leftNodeDistance rightNodeDistance fuel generation leftPodIndex
          (rightPodIndex + 1)
      else
        let balanceNodeInfos := deepcopyNodeInfos nodeInfos
        (swapIfPossible generation balanceNodeInfos leftNodeIndex rightNodeIndex cpuPod
          memPod).bind fun (isSwapped, _, g) =>
        if isSwapped then .val (true, leftPodIndex, rightPodIndex, g)
        else if F64.lt leftNodeDistance rightNodeDistance then
          if (leftPodIndex : Int) < (leftLen : Int) - 1 then
            podPairLoop nodeInfos leftNodeIndex rightNodeIndex cpuPodInfos memPodInfos leftLen
              rightLen leftNodeDistance rightNodeDistance fuel g (leftPodIndex + 1) rightPodIndex
          else
            podPairLoop nodeInfos leftNodeIndex rightNodeIndex cpuPodInfos memPodInfos leftLen
              rightLen leftNodeDistance rightNodeDistance fuel g 0 (rightPodIndex + 1)
        else
          if (rightPodIndex : Int) < (rightLen : Int) - 1 then
            podPairLoop nodeInfos leftNodeIndex rightNodeIndex cpuPodInfos memPodInfos leftLen
              rightLen leftNodeDistance rightNodeDistance fuel g leftPodIndex (rightPodIndex + 1)
          else
            podPairLoop nodeInfos leftNodeIndex rightNodeIndex cpuPodInfos memPodInfos leftLen
              rightLen leftNodeDistance rightNodeDistance fuel g (leftPodIndex + 1) 0
    | _, _ => .val (false, leftPodIndex, rightPodIndex, generation)

/-- The node-pair search loop of `BalanceWorkload`, with a budget `fuel` for its rounds: the
chosen pair, if any, and the generation counter. `nodeInfos` is the sorted snapshot, whose
pod slices the two pod sorts reorder in place. -/
def nodePairLoop (pivotRatio : F64) :
    Nat → Int → List NodeInfo → Int → Int → Run (Option SwapChoice × Int)
  | 0, _, _, _, _ => .outOfFuel
  | fuel + 1, generation, nodeInfos, leftNodeIndex, rightNodeIndex =>
    (nodeIndex nodeInfos leftNodeIndex).bind fun leftNode =>
    if !F64.lt (GetCpuMemoryRatio leftNode) pivotRatio then .val (none, generation)
    else
      (nodeIndex nodeInfos rightNodeIndex).bind fun rightNode =>
      if !F64.gt (GetCpuMemoryRatio rightNode) pivotRatio then .val (none, generation)
      else
        let leftNodeDistance := GetDistanceFromPivot leftNode pivotRatio
        let rightNodeDistance := GetDistanceFromPivot rightNode pivotRatio
        let (cpuPodInfos, leftSorted) := SortPodsBasedOnCpu leftNode.Pods
        let nodeInfos := nodeInfos.set leftNodeIndex.toNat { leftNode with Pods := leftSorted }
        (nodeIndex nodeInfos rightNodeIndex).bind fun rightNode =>
        let (memPodInfos, rightSorted) := SortPodsBasedOnMemory rightNode.Pods
        let nodeInfos := nodeInfos.set rightNodeIndex.toNat { rightNode with Pods := rightSorted }
        (podPairLoop nodeInfos leftNodeIndex.toNat rightNodeIndex.toNat cpuPodInfos memPodInfos
          leftSorted.length rightSorted.length leftNodeDistance rightNodeDistance
          ((cpuPodInfos.length + 1) * (memPodInfos.length + 1) + 1) generation 0 0).bind
          fun (isSwapped, leftPodIndex, rightPodIndex, g) =>
        if isSwapped then
          match nodeInfos[leftNodeIndex.toNat]?, nodeInfos[rightNodeIndex.toNat]?,
            cpuPodInfos[leftPodIndex]?, memPodInfos[rightPodIndex]? with
          | some nodeA, some nodeB, some podA, some podB =>
            .val (some (SwapChoice.mk podA.Pod nodeA.Node podB.Pod nodeB.Node), g)
          | _, _, _, _ => .panic
        else if F64.lt leftNodeDistance rightNodeDistance then
          (nodeIndex nodeInfos (leftNodeIndex + 1)).bind fun next =>
          if F64.lt (GetCpuMemoryRatio next) pivotRatio then
            nodePairLoop pivotRatio fuel g nodeInfos (leftNodeIndex + 1) rightNodeIndex
          else nodePairLoop pivotRatio fuel g nodeInfos 0 (rightNodeIndex - 1)
        else
          (nodeIndex nodeInfos (rightNodeIndex - 1)).bind fun next =>
          if F64.gt (GetCpuMemoryRatio next) pivotRatio then
            nodePairLoop pivotRatio fuel g nodeInfos leftNodeIndex (rightNodeIndex - 1)
          else
            nodePairLoop pivotRatio fuel g nodeInfos (leftNodeIndex + 1)
              ((nodeInfos.length : Int) - 1)

/-- What a run of `BalanceWorkload` leaves: the pair it selected, the API calls made so far,
whether it returns an error, and the generation counter. -/
structure BalanceOutcome where
  choice : Option SwapChoice
  calls : List Executor.ApiCall
  err : Bool
  generation : Int
  deriving DecidableEq, Repr

/-- `BalanceWorkload`, on the snapshot `nodeInfos` that `GetSystemSnapshot` returned to it;
`fuel` bounds the rounds of the node-pair search. The snapshot reloaded after a swap is only
logged. -/
def BalanceWorkload (api : Executor.Api) (fuel : Nat) (generation : Int)
    (calls : List Executor.ApiCall) (nodeInfos : List NodeInfo) : Run BalanceOutcome :=
  let pivotRatio := GetPivotRatio nodeInfos
  let nodeInfos := SortNodesBasedRatio nodeInfos
  let leftNodeIndex : Int := 0
  let rightNodeIndex : Int := (nodeInfos.length : Int) - 1
  -- the log line reads `nodeInfos[leftNodeIndex]` and `nodeInfos[rightNodeIndex]`
  (nodeIndex nodeInfos leftNodeIndex).bind fun _ =>
  (nodeIndex nodeInfos rightNodeIndex).bind fun _ =>
  (nodePairLoop pivotRatio fuel generation nodeInfos leftNodeIndex rightNodeIndex).bind
    fun (choice, g) =>
  match choice with
  | some c =>
    (Executor.SwapPods api calls c.podA c.nodeA c.podB c.nodeB).bind fun (calls1, err) =>
    .val { choice := choice, calls := calls1, err := err, generation := g }
  | none => .val { choice := none, calls := calls, err := false, generation := g }

/-! ## Scenarios -/

/-- One mebibyte, in bytes. -/
def MiB : Int := 1048576

/-- A pod of namespace `default` with one container requesting `cpu` milli-cores and `mem`
bytes, bound to the node `nodeName` (`""` for a pending pod). -/
def mkPod (name nodeName : String) (cpu mem : Int) (migratable : Bool) : Pod :=
  { Namespace := "default", Name := name, NodeName := nodeName, Key := some ("default/" ++ name),
    Containers := [{ Non0CPUReq := cpu, Non0MemReq := mem }],
    Res := { MilliCPU := cpu, Memory := mem }, Non0CPU := cpu, Non0Mem := mem,
    Migratable := migratable }

/-- The `NodeInfo` built by `GetSystemSnapshot` for a node of the given allocatable CPU and
memory hosting `pods`: `NewNodeInfo()`, `SetNode`, then `AddPod` for each pod. -/
def mkNodeInfo (name : String) (cpu mem : Int) (pods : List Pod) : NodeInfo :=
  pods.foldl (fun n pod => n.AddPod n.Generation pod)
    ((NewNodeInfo 0 []).SetNode 1
      { Name := name, Allocatable := { MilliCPU := cpu, Memory := mem } })

/-- An environment in which every fit predicate holds and no `MigratePod` call fails. -/
def envOk : Env :=
  { PodFitsCurrentNode := fun _ _ => true
    PodFitsAnyOtherNode := fun _ _ => true
    apiMigrate := fun _ _ => false }

/-- Pod X of scenarios S1 and S2: 1500m, 1024 MiB, on node a. -/
def podX : Pod := mkPod "x" "a" 1500 (1024 * MiB) true

/-- Pod Y of scenario S2: 800m, 512 MiB, on node b. -/
def podY : Pod := mkPod "y" "b" 800 (512 * MiB) true

/-- Pod Z of scenario S2: 600m, 512 MiB, on node b. -/
def podZ : Pod := mkPod "z" "b" 600 (512 * MiB) true

/-- The pending pod of scenario S1: 1200m, 1024 MiB. -/
def pendingS1 : PodInfo := { Pod := mkPod "p" "" 1200 (1024 * MiB) true }

/-- The pending pod of scenario S2: 1200m, 3072 MiB. -/
def pendingS2 : PodInfo := { Pod := mkPod "p" "" 1200 (3072 * MiB) true }

/-- Scenario S1: nodes a and b of 2000m / 4096 MiB, X on a. -/
def snapS1 : PState :=
  { nodeInfos := [mkNodeInfo "a" 2000 (4096 * MiB) [podX], mkNodeInfo "b" 2000 (4096 * MiB) []] }

/-- Scenario S2: nodes a and b of 2000m / 4096 MiB, X on a, Y and Z on b. -/
def snapS2 : PState :=
  { nodeInfos :=
      [mkNodeInfo "a" 2000 (4096 * MiB) [podX], mkNodeInfo "b" 2000 (4096 * MiB) [podY, podZ]] }

/-- A running pod on node a: 500m, 1024 MiB. -/
def podR : Pod := mkPod "r" "a" 500 (1024 * MiB) true

/-- Nodes a and b of 2000m / 4096 MiB, R on a. -/
def snapRunning : PState :=
  { nodeInfos := [mkNodeInfo "a" 2000 (4096 * MiB) [podR], mkNodeInfo "b" 2000 (4096 * MiB) []] }

/-- A pending pod of 1200m, 2048 MiB. -/
def pendingChain : PodInfo := { Pod := mkPod "p" "" 1200 (2048 * MiB) true }

/-- Pod E: 800m, 1024 MiB, on node n. -/
def podE : Pod := mkPod "e" "n" 800 (1024 * MiB) true

/-- Pod F: 600m, 512 MiB, on node m. -/
def podF : Pod := mkPod "f" "m" 600 (512 * MiB) true

/-- Three nodes: n (1300m, hosting E), m (900m, hosting F) and k (700m, empty), of 4096 MiB
each. Only F can be placed directly (on k); E would fit on m without F, and the pending pod
`pendingChain` on n without E. -/
def snapChain : PState :=
  { nodeInfos :=
      [mkNodeInfo "n" 1300 (4096 * MiB) [podE], mkNodeInfo "m" 900 (4096 * MiB) [podF],
        mkNodeInfo "k" 700 (4096 * MiB) []] }

/-- A pod that `IsMigratable` rejects: 300m, 512 MiB, on node a. -/
def podPinned : Pod := mkPod "d" "a" 300 (512 * MiB) false

/-- One node a of 800m / 4096 MiB hosting the pinned pod. -/
def snapPinned : PState :=
  { nodeInfos := [mkNodeInfo "a" 800 (4096 * MiB) [podPinned]] }

/-- Two pods of 1000m, 1024 MiB that fill their nodes. -/
def podFullA : PodInfo := { Pod := mkPod "x" "a" 1000 (1024 * MiB) true }

/-- The second of the two pods that fill their nodes. -/
def podFullB : PodInfo := { Pod := mkPod "y" "b" 1000 (1024 * MiB) true }

/-- Two nodes of 1000m / 1024 MiB, each filled by one pod: nothing is available. -/
def snapFull : List NodeInfo :=
  [mkNodeInfo "a" 1000 (1024 * MiB) [podFullA.Pod], mkNodeInfo "b" 1000 (1024 * MiB) [podFullB.Pod]]

/-- Two equal pods of 500m, 1024 MiB. -/
def podTwinA : PodInfo := { Pod := mkPod "x" "a" 500 (1024 * MiB) true }

/-- The second of the two equal pods. -/
def podTwinB : PodInfo := { Pod := mkPod "y" "b" 500 (1024 * MiB) true }

/-- Two equal nodes of 2000m / 4096 MiB, each hosting one of the equal pods. -/
def snapTwin : List NodeInfo :=
  [mkNodeInfo "a" 2000 (4096 * MiB) [podTwinA.Pod], mkNodeInfo "b" 2000 (4096 * MiB) [podTwinB.Pod]]

/-- A CPU-heavy pod on node a: 2000m, 1024 MiB. -/
def podAlpha : PodInfo := { Pod := mkPod "alpha" "a" 2000 (1024 * MiB) true }

/-- A memory-heavy pod on node b: 500m, 4096 MiB. -/
def podBeta : PodInfo := { Pod := mkPod "beta" "b" 500 (4096 * MiB) true }

/-- Scenario S4: nodes a and b of 4000m / 8192 MiB; a hosts alpha and a pod of 1000m,
1024 MiB; b hosts beta and a pod of 500m, 2048 MiB. -/
def snapS4 : List NodeInfo :=
  [mkNodeInfo "a" 4000 (8192 * MiB) [podAlpha.Pod, mkPod "gamma" "a" 1000 (1024 * MiB) true],
    mkNodeInfo "b" 4000 (8192 * MiB) [podBeta.Pod, mkPod "delta" "b" 500 (2048 * MiB) true]]

/-- Scenario S5: pod alpha with one unit of the scalar resource `gpu`. -/
def podAlphaGpu : PodInfo :=
  { Pod := { podAlpha.Pod with Res := { podAlpha.Pod.Res with ScalarResources := [("gpu", 1)] } } }

/-- Scenario S5: as S4, with the `gpu` variant of alpha on a. -/
def snapS5 : List NodeInfo :=
  [mkNodeInfo "a" 4000 (8192 * MiB) [podAlphaGpu.Pod, mkPod "gamma" "a" 1000 (1024 * MiB) true],
    mkNodeInfo "b" 4000 (8192 * MiB) [podBeta.Pod, mkPod "delta" "b" 500 (2048 * MiB) true]]

/-- Pod alpha as a pod whose key cannot be computed: `GetPodKey` returns an error on it. -/
def podAlphaUnkeyed : PodInfo := { Pod := { podAlpha.Pod with Key := none } }

/-- Pod beta as a pod whose key cannot be computed. -/
def podBetaUnkeyed : PodInfo := { Pod := { podBeta.Pod with Key := none } }

/-- Two nodes a and b of 4000m / 8192 MiB, a hosting alpha (2000m, 1024 MiB) and b hosting beta
(500m, 4096 MiB), as `GetSystemSnapshot` builds them. -/
def snapKeyed : List NodeInfo :=
  [mkNodeInfo "a" 4000 (8192 * MiB) [podAlpha.Pod],
    mkNodeInfo "b" 4000 (8192 * MiB) [podBeta.Pod]]

/-- The cluster of `snapKeyed` with two pods whose key cannot be computed. `AddPod` needs no
key, so `GetSystemSnapshot` builds the same nodes. -/
def snapUnkeyed : List NodeInfo :=
  [mkNodeInfo "a" 4000 (8192 * MiB) [podAlphaUnkeyed.Pod],
    mkNodeInfo "b" 4000 (8192 * MiB) [podBetaUnkeyed.Pod]]

/-- The cluster of `snapUnkeyed` with a key on alpha only. -/
def snapHalfKeyed : List NodeInfo :=
  [mkNodeInfo "a" 4000 (8192 * MiB) [podAlpha.Pod],
    mkNodeInfo "b" 4000 (8192 * MiB) [podBetaUnkeyed.Pod]]

/-- The cluster of `snapUnkeyed` after alpha and beta have changed nodes. -/
def snapUnkeyedSwapped : List NodeInfo :=
  [mkNodeInfo "a" 4000 (8192 * MiB) [podBetaUnkeyed.Pod],
    mkNodeInfo "b" 4000 (8192 * MiB) [podAlphaUnkeyed.Pod]]

/-- The kind of each API call of a log, with the name of the object it addresses. -/
def callNames (calls : List Executor.ApiCall) : List (String × String) :=
  calls.map fun c =>
    match c with
    | .getReplicaSet _ n => ("getReplicaSet", n)
    | .getScale _ _ n => ("getScale", n)
    | .updateScale _ _ n _ => ("updateScale", n)
    | .deletePod _ n _ => ("deletePod", n)
    | .createPod _ pod => ("createPod", pod.Name)

/-- A cluster of one node whose available memory is not a whole number of MiB
(1000m, 1.5 MiB): its ratio lies strictly below the pivot ratio. -/
def snapOneSide : List NodeInfo := [mkNodeInfo "a" 1000 (3 * 524288) []]

/-- A `BalanceWorkload` that succeeds and leaves the cluster as it is. -/
def balanceNoop (c : List NodeInfo) : List NodeInfo × Bool := (c, false)

/-- The preferred node-affinity terms of a pod (none when a pointer on the way is `nil`). -/
def Pod.preferredTerms (pod : Pod) : List PreferredSchedulingTerm :=
  ((pod.Affinity.getD {}).NodeAffinity.getD {}).PreferredDuringSchedulingIgnoredDuringExecution

/-- The required node-affinity selector of a pod. -/
def Pod.requiredTerms (pod : Pod) : Option (List NodeSelectorTerm) :=
  ((pod.Affinity.getD {}).NodeAffinity.getD {}).RequiredDuringSchedulingIgnoredDuringExecution

/-- An API server on which every call succeeds; every replica set belongs to the deployment
`web`, and every scale has 3 replicas at resource version 7. -/
def apiOk : Executor.Api :=
  { getReplicaSet := fun _ _ _ => some [{ Kind := "Deployment", Name := "web" }]
    getScale := fun _ _ _ _ => some { ResourceVersion := "7", Replicas := 3 }
    updateScale := fun _ _ _ _ _ => false
    deletePod := fun _ _ _ => false
    createPod := fun _ _ _ => false }

/-- An API server like `apiOk` on which every `UpdateScale` fails. -/
def apiNoScale : Executor.Api := { apiOk with updateScale := fun _ _ _ _ _ => true }

/-- An API server like `apiOk` on which every pod deletion fails. -/
def apiNoDelete : Executor.Api := { apiOk with deletePod := fun _ _ _ => true }

/-- Pod X as a replica of the replica set `web-1` (scenario S6). -/
def podReplica : Pod := { podX with OwnerReferences := [{ Kind := "ReplicaSet", Name := "web-1" }] }

/-- Pod X as a replica of the replication controller `rc-1`. -/
def podRcReplica : Pod :=
  { podX with OwnerReferences := [{ Kind := "ReplicationController", Name := "rc-1" }] }

/-- The node object a. -/
def nodeObjA : Node := { Name := "a" }

/-- The node object b. -/
def nodeObjB : Node := { Name := "b" }

/-- A node with 3 milli-cores and 1.5 MiB available. -/
def nodeFractionalMiB : NodeInfo := { Available := { MilliCPU := 3, Memory := 1572864 } }

/-- A node with 3 milli-cores available and one byte of memory overcommitted. -/
def nodeNegativeByte : NodeInfo := { Available := { MilliCPU := 3, Memory := -1 } }

/-- A node with 1000 milli-cores and 3 MiB available. -/
def nodeThirds : NodeInfo := { Available := { MilliCPU := 1000, Memory := 3145728 } }

/-! ## Sequences of calls on a `NodeInfo` -/

/-- The scalar requests of the pod form a map: no resource name occurs twice. -/
def scalarKeysNodup (pod : Pod) : Bool :=
  decide (pod.Res.ScalarResources.map Prod.fst).Nodup

/-- The first entry of `s` whose key is `k`: the entry a `RemovePod` with key `k` deletes. -/
def firstWithKey (s : List PodInfo) (k : String) : Option PodInfo :=
  match findKeyIdx s k with
  | some i => s[i]?
  | none => none

/-- The calls of the sequence, run from node `n`, are such that every pod passed has a map of
scalar requests, and every `RemovePod` is passed a pod that has a key and whose requests
(the three results of `CalculateResource`) are those of the first pod of `Pods` with that
key. -/
def admissible (generation : Int) (n : NodeInfo) : List NodeOp → Bool
  | [] => true
  | .addPod pod :: rest =>
    scalarKeysNodup pod &&
      admissible (n.AddPod generation pod).Generation (n.AddPod generation pod) rest
  | .removePod pod :: rest =>
    scalarKeysNodup pod &&
    (match GetPodKey pod with
      | some k =>
        (match firstWithKey n.Pods k with
          | some q => decide (CalculateResource q.Pod = CalculateResource pod)
          | none => false)
      | none => false) &&
    (match n.RemovePod generation pod with
      | .val r => admissible (genAfterRemove generation r) r.1 rest
      | _ => false)

/-- The request totals of a node are the sums over its pods, in `int64` arithmetic: the real
requests in `Requested` (an absent scalar resource read as 0), the non-zero requests in
`NonZeroRequested`. -/
def RequestedInv (n : NodeInfo) : Prop :=
  n.Requested.MilliCPU = wrap64 ((n.Pods.map fun p => p.Pod.Res.MilliCPU).sum) ∧
  n.Requested.Memory = wrap64 ((n.Pods.map fun p => p.Pod.Res.Memory).sum) ∧
  (∀ r, n.Requested.ScalarResources.get r =
    wrap64 ((n.Pods.map fun p => p.Pod.Res.ScalarResources.get r).sum)) ∧
  n.NonZeroRequested.MilliCPU = wrap64 ((n.Pods.map fun p => p.Pod.Non0CPU).sum) ∧
  n.NonZeroRequested.Memory = wrap64 ((n.Pods.map fun p => p.Pod.Non0Mem).sum)

/-- A pod with key `default/w` requesting 100 milli-cores. -/
def podDup1 : Pod := mkPod "w" "a" 100 (64 * MiB) true

/-- Another pod with the same key `default/w`, requesting 200 milli-cores. -/
def podDup2 : Pod := mkPod "w" "a" 200 (64 * MiB) true

/-- A pod requesting two units of `gpu` and one of `fpga`. -/
def podScalars : Pod :=
  { mkPod "s" "a" 100 (64 * MiB) true with
    Res := { MilliCPU := 100, Memory := 64 * MiB, ScalarResources := [("gpu", 2), ("fpga", 1)] } }

/-! ## Strategy entry points (`balance.go`, `place.go`) -/

/-- `api.Namespaces`. -/
structure Namespaces where
  Include : List String := []
  Exclude : List String := []
  deriving DecidableEq, Repr

/-- `api.StrategyParameters`, the fields read by the two strategies; `Namespaces` and
`Iterations` (a `*int32`) are pointers. -/
structure StrategyParameters where
  Namespaces : Option Namespaces := none
  Iterations : Option Int := none
  deriving DecidableEq, Repr

/-- `api.DeschedulerStrategy`; `Params` is a `*StrategyParameters`. -/
structure DeschedulerStrategy where
  Params : Option StrategyParameters := none
  deriving DecidableEq, Repr

/-- The dereference `*p` of a pointer, which panics on `nil`. -/
def deref {α : Type} : Option α → Run α
  | some a => .val a
  | none => .panic

/-- The constant `balanceIterations`. -/
def balanceIterations : Int := 10

/-- The constant `migrateIterations`. -/
def migrateIterations : Int := 10

/-- `validateAndParseBalancePodsParams`: whether it returns an error. -/
def validateAndParseBalancePodsParams (params : Option StrategyParameters) : Run Bool :=
  match params with
  | none => .val true
  | some p =>
    (deref p.Iterations).bind fun iterations =>
    if iterations < 0 then .val true else .val false

/-- `BalancePodsOnNodeForDefragmentation`: the iteration count it passes to `BalancePolicy`,
or `none` when it returns without calling it. -/
def BalancePodsOnNodeForDefragmentation (strategy : DeschedulerStrategy) : Run (Option Int) :=
  (validateAndParseBalancePodsParams strategy.Params).bind fun err =>
  if err then .val none
  else
    (deref strategy.Params).bind fun params =>
    (deref params.Iterations).bind fun iterations =>
    .val (some (if iterations = 0 then balanceIterations else iterations))

/-- `validateAndParsePlacePodsParams`: whether it returns an error. -/
def validateAndParsePlacePodsParams (params : Option StrategyParameters) : Run Bool :=
  match params with
  | none => .val false
  | some p =>
    (deref p.Iterations).bind fun iterations =>
    if iterations < 0 then .val true
    else
      match p.Namespaces with
      | some ns => .val (decide (ns.Include.length > 0 ∧ ns.Exclude.length > 0))
      | none => .val false

/-- `PlacePodsOnNodeForDefragmentation`: the iteration count it passes to `PlacePolicy`, or
`none` when it returns without calling it. -/
def PlacePodsOnNodeForDefragmentation (strategy : DeschedulerStrategy) : Run (Option Int) :=
  (validateAndParsePlacePodsParams strategy.Params).bind fun err =>
  if err then .val none
  else
    (deref strategy.Params).bind fun params =>
    (deref params.Iterations).bind fun iterations =>
    .val (some (if iterations = 0 then migrateIterations else iterations))

/-! ## Further scenarios -/

/-- Four empty nodes of 1000 MiB with 1000m, 4000m, 6000m and 8000m: their ratios 1, 4, 6, 8
lie on both sides of the pivot ratio 4.75. -/
def snapCycle : List NodeInfo :=
  [mkNodeInfo "n0" 1000 (1000 * MiB) [], mkNodeInfo "n1" 4000 (1000 * MiB) [],
    mkNodeInfo "n2" 6000 (1000 * MiB) [], mkNodeInfo "n3" 8000 (1000 * MiB) []]

/-- A pending pod of 1000m, 1000 MiB. -/
def pendingDetour : PodInfo := { Pod := mkPod "p" "" 1000 (1000 * MiB) true }

/-- Pod V1: 600m, 900 MiB, on node a. -/
def podV1 : Pod := mkPod "v1" "a" 600 (900 * MiB) true

/-- Pod V2: 900m, 500 MiB, on node b. -/
def podV2 : Pod := mkPod "v2" "b" 900 (500 * MiB) true

/-- Three nodes: a (900m, 900 MiB available, hosting V1), b (100m, 500 MiB available, hosting
V2) and c (950m, 800 MiB, empty). The pending pod `pendingDetour` fits nowhere; V1 fits
nowhere else and no pod can make room for it; V2 fits on a and on c. -/
def snapDetour : PState :=
  { nodeInfos :=
      [mkNodeInfo "a" 1500 (1800 * MiB) [podV1], mkNodeInfo "b" 1000 (1000 * MiB) [podV2],
        mkNodeInfo "c" 950 (800 * MiB) []] }

/-- A pending pod of 1000m, 1024 MiB. -/
def pendingBoth : PodInfo := { Pod := mkPod "p" "" 1000 (1024 * MiB) true }

/-- Pod G0: 600m, 600 MiB, on node a. -/
def podG0 : PodInfo := { Pod := mkPod "g0" "a" 600 (600 * MiB) true }

/-- Pod G1: 100m, 100 MiB, on node a. -/
def podG1 : PodInfo := { Pod := mkPod "g1" "a" 100 (100 * MiB) true }

/-- Node a with 500m, 512 MiB available, hosting G0 and G1: for `pendingBoth` the deficit is
500m and 512 MiB, which G0 alone covers. -/
def nodeBoth : NodeInfo := mkNodeInfo "a" 1200 (1212 * MiB) [podG0.Pod, podG1.Pod]

/-- A pending pod of 1000m, 100 MiB. -/
def pendingCpuOnly : PodInfo := { Pod := mkPod "p" "" 1000 (100 * MiB) true }

/-- Pod H0: 100m, 50 MiB, on node a. -/
def podH0 : PodInfo := { Pod := mkPod "h0" "a" 100 (50 * MiB) true }

/-- Pod H1: 450m, 10 MiB, on node a. -/
def podH1 : PodInfo := { Pod := mkPod "h1" "a" 450 (10 * MiB) true }

/-- Node a with 500m, 4096 MiB available, hosting H0 and H1: for `pendingCpuOnly` the deficit
is 500m of CPU only, which H0 and H1 cover together (550m) and H0 alone does not (100m). -/
def nodeCpuOnly : NodeInfo := mkNodeInfo "a" 1050 (4156 * MiB) [podH0.Pod, podH1.Pod]

/-- Pod `web`: 100m, 64 MiB. -/
def podWeb : PodInfo := { Pod := mkPod "web" "a" 100 (64 * MiB) true }

/-- Pod `web-1`: 200m, 128 MiB. -/
def podWeb1 : PodInfo := { Pod := mkPod "web-1" "a" 200 (128 * MiB) true }

/-- A pending pod of 1200m, 2048 MiB that requests two units of `gpu`. -/
def pendingGpu : PodInfo :=
  { Pod :=
      { mkPod "p" "" 1200 (2048 * MiB) true with
        Res := { MilliCPU := 1200, Memory := 2048 * MiB, ScalarResources := [("gpu", 2)] } } }

/-- A pod of 300m, 512 MiB on node a, without scalar requests. -/
def podPlain : PodInfo := { Pod := mkPod "d" "a" 300 (512 * MiB) true }

/-- One node a of 800m / 4096 MiB hosting `podPlain`. -/
def snapPlain : PState :=
  { nodeInfos := [mkNodeInfo "a" 800 (4096 * MiB) [podPlain.Pod]] }

/-- A pending pod requesting the largest `int64` number of milli-cores. -/
def pendingHuge : PodInfo := { Pod := mkPod "p" "" (2 ^ 63 - 1) (1024 * MiB) true }

/-- A pod of one milli-core, 512 MiB, on node a. -/
def podTiny : PodInfo := { Pod := mkPod "t" "a" 1 (512 * MiB) true }

/-- Node a, overcommitted by one milli-core (allocatable 0m, hosting `podTiny`), with
1024 MiB of memory available. -/
def nodeOvercommitted : NodeInfo := mkNodeInfo "a" 0 (1536 * MiB) [podTiny.Pod]

/-- A pod of 600m, 512 MiB on node a. -/
def podSmallOnA : Pod := mkPod "y" "a" 600 (512 * MiB) true

/-- Nodes a (1000m, hosting the pod of 600m: 400m available) and b (700m, empty), of
4096 MiB each: 1100m are available in the cluster. -/
def snapShort : PState :=
  { nodeInfos :=
      [mkNodeInfo "a" 1000 (4096 * MiB) [podSmallOnA], mkNodeInfo "b" 700 (4096 * MiB) []] }

/-- The pod requesting two `gpu` and one `fpga`, without a UID: `GetPodKey` fails on it. -/
def podNoKey : Pod := { podScalars with Key := none }

/-! ## Statements about the planner -/

/-- The node that the specification of `computeNormalPlacement` asks for: its name differs
from the pod's `spec.nodeName`, it passes `PodFitsCurrentNode`, and its available CPU, memory
and every scalar resource the pod requests (an absent key read as 0) are at least the pod's
request. -/
def specDirectTarget (env : Env) (placePodInfo : PodInfo) (nodeInfo : NodeInfo) : Bool :=
  (match nodeInfo.Node with
    | some nd => decide (nd.Name ≠ placePodInfo.Pod.NodeName)
    | none => false) &&
  env.PodFitsCurrentNode placePodInfo.Pod nodeInfo.Node &&
  decide ((CalculateResource placePodInfo.Pod).2.1 ≤ nodeInfo.Available.MilliCPU) &&
  decide ((CalculateResource placePodInfo.Pod).2.2 ≤ nodeInfo.Available.Memory) &&
  (CalculateResource placePodInfo.Pod).1.ScalarResources.all
    (fun e => decide (e.2 ≤ nodeInfo.Available.ScalarResources.get e.1))

/-- The call moves its pod to a node other than the one named by the pod's
`spec.nodeName`. -/
def MigrateCall.leavesOwnNode (c : MigrateCall) : Bool :=
  match c.toNode with
  | some nd => decide (nd.Name ≠ c.pod.NodeName)
  | none => false

/-- The pods held by the nodes of a snapshot. -/
def snapshotPods (nodeInfos : List NodeInfo) : List PodInfo :=
  nodeInfos.foldr (fun n acc => n.Pods ++ acc) []

/-! ## Statements about the balancer -/

/-- `RemovePod(pod)` finds the pod on the node: `GetPodKey` computes its key and an entry of
`Pods` has that key. -/
def NodeInfo.findsPod (n : NodeInfo) (pod : Pod) : Bool :=
  match GetPodKey pod with
  | none => false
  | some k => n.Pods.any fun p => decide (GetPodKey p.Pod = some k)

/-! ## Node bookkeeping: proofs -/

theorem Run.bind_eq_val {α β : Type} {r : Run α} {f : α → Run β} {b : β}
    (h : r.bind f = .val b) : ∃ a, r = .val a ∧ f a = .val b := by
  cases r with
  | val a => exact ⟨a, rfl, h⟩
  | panic => simp [Run.bind] at h
  | outOfFuel => simp [Run.bind] at h

theorem wrap64_of_isInt64 {x : Int} (h : isInt64 x) : wrap64 x = x := by
  unfold isInt64 at h
  unfold wrap64 Int.bmod
  have h1 : (2 : Int) ^ 63 = 9223372036854775808 := by norm_num
  have h2 : ((2 ^ 64 : Nat) : Int) = 18446744073709551616 := by norm_num
  rw [h1] at h
  rw [h2]
  simp only []
  split <;> omega

theorem add64_sub64_add64 (a z x : Int) : add64 (sub64 a x) (add64 z x) = add64 a z := by
  unfold add64 sub64 wrap64
  rw [Int.bmod_add_bmod_congr, Int.add_bmod_bmod]
  congr 1
  ring

theorem add64_add64_sub64 (a z x : Int) : add64 (add64 a x) (sub64 z x) = add64 a z := by
  unfold add64 sub64 wrap64
  rw [Int.bmod_add_bmod_congr, Int.add_bmod_bmod]
  congr 1
  ring

theorem AvailInv_SetNode (g0 g1 : Int) (node : Node)
    (hc : isInt64 node.Allocatable.MilliCPU) (hm : isInt64 node.Allocatable.Memory) :
    AvailInv ((NewNodeInfo g0 []).SetNode g1 node) := by
  constructor
  · show add64 node.Allocatable.MilliCPU 0 = node.Allocatable.MilliCPU
    unfold add64
    rw [Int.add_zero]
    exact wrap64_of_isInt64 hc
  · show add64 node.Allocatable.Memory 0 = node.Allocatable.Memory
    unfold add64
    rw [Int.add_zero]
    exact wrap64_of_isInt64 hm

theorem AvailInv_AddPod (g : Int) (n : NodeInfo) (pod : Pod) (h : AvailInv n) :
    AvailInv (n.AddPod g pod) := by
  obtain ⟨h1, h2⟩ := h
  constructor
  · show add64 (sub64 n.Available.MilliCPU pod.Non0CPU)
        (add64 n.NonZeroRequested.MilliCPU pod.Non0CPU) = n.Allocatable.MilliCPU
    rw [add64_sub64_add64]; exact h1
  · show add64 (sub64 n.Available.Memory pod.Non0Mem)
        (add64 n.NonZeroRequested.Memory pod.Non0Mem) = n.Allocatable.Memory
    rw [add64_sub64_add64]; exact h2

theorem node_AddPod (g : Int) (n : NodeInfo) (pod : Pod) : (n.AddPod g pod).node = n.node := rfl

theorem RemovePod_spec (g : Int) (n : NodeInfo) (pod : Pod) (h : AvailInv n)
    (hn : n.node.isSome) :
    ∃ r, n.RemovePod g pod = .val r ∧ AvailInv r.1 ∧ r.1.node.isSome := by
  unfold NodeInfo.RemovePod
  cases hk : GetPodKey pod with
  | none => exact ⟨_, rfl, h, hn⟩
  | some k =>
    obtain ⟨h1, h2⟩ := h
    simp only
    cases hi : findKeyIdx n.Pods k with
    | some i =>
      refine ⟨_, rfl, ⟨?_, ?_⟩, hn⟩
      · show add64 (add64 n.Available.MilliCPU pod.Non0CPU)
            (sub64 n.NonZeroRequested.MilliCPU pod.Non0CPU) = n.Allocatable.MilliCPU
        rw [add64_add64_sub64]; exact h1
      · show add64 (add64 n.Available.Memory pod.Non0Mem)
            (sub64 n.NonZeroRequested.Memory pod.Non0Mem) = n.Allocatable.Memory
        rw [add64_add64_sub64]; exact h2
    | none =>
      cases hnd : n.node with
      | none => rw [hnd] at hn; exact absurd hn (by simp)
      | some nd => exact ⟨_, rfl, ⟨h1, h2⟩, by simp [hnd]⟩

theorem runOps_AvailInv (ops : List NodeOp) :
    ∀ (g : Int) (n : NodeInfo), AvailInv n → n.node.isSome →
      ∃ n1 g1, runOps g n ops = .val (n1, g1) ∧ AvailInv n1 := by
  induction ops with
  | nil => intro g n h _; exact ⟨n, g, rfl, h⟩
  | cons op rest ih =>
    intro g n h hn
    cases op with
    | addPod pod =>
      simp only [runOps]
      exact ih _ _ (AvailInv_AddPod g n pod h) (by rw [node_AddPod]; exact hn)
    | removePod pod =>
      obtain ⟨r, hr, hinv, hnode⟩ := RemovePod_spec g n pod h hn
      simp only [runOps, hr]
      exact ih _ _ hinv hnode

/-- C1: on a `NodeInfo` built by `NewNodeInfo()` then `SetNode(node)`, every finite sequence
of `AddPod` and `RemovePod` calls (successful or not) runs to completion and leaves
`Available.MilliCPU + NonZeroRequested.MilliCPU == Allocatable.MilliCPU` and
`Available.Memory + NonZeroRequested.Memory == Allocatable.Memory` (sums in `int64`). -/
theorem C1_available_plus_nonzero_eq_allocatable (g0 g1 g2 : Int) (node : Node)
    (ops : List NodeOp)
    (hc : isInt64 node.Allocatable.MilliCPU) (hm : isInt64 node.Allocatable.Memory) :
    ∃ n g, runOps g2 ((NewNodeInfo g0 []).SetNode g1 node) ops = .val (n, g) ∧
      add64 n.Available.MilliCPU n.NonZeroRequested.MilliCPU = n.Allocatable.MilliCPU ∧
      add64 n.Available.Memory n.NonZeroRequested.Memory = n.Allocatable.Memory :=
  runOps_AvailInv ops g2 _ (AvailInv_SetNode g0 g1 node hc hm) rfl

/-- C1 on a node of 2000m / 4096 MiB: add X, try to remove Y (absent), remove X. -/
theorem C1_available_plus_nonzero_eq_allocatable_witness :
    (isInt64 2000 ∧ isInt64 (4096 * MiB)) ∧
    ∃ n g,
      runOps 2
        ((NewNodeInfo 0 []).SetNode 1
          { Name := "a", Allocatable := { MilliCPU := 2000, Memory := 4096 * MiB } })
        [.addPod podX, .removePod podY, .removePod podX] = .val (n, g) ∧
      add64 n.Available.MilliCPU n.NonZeroRequested.MilliCPU = n.Allocatable.MilliCPU ∧
      add64 n.Available.Memory n.NonZeroRequested.Memory = n.Allocatable.Memory :=
  ⟨by decide,
    C1_available_plus_nonzero_eq_allocatable 0 1 2
      { Name := "a", Allocatable := { MilliCPU := 2000, Memory := 4096 * MiB } }
      [.addPod podX, .removePod podY, .removePod podX] (by decide) (by decide)⟩

/-! ## Floating point: the shape of a rounded value -/

theorem F64.isPow2_pos : ∀ (k n : Nat), F64.isPow2 k n = true → 0 < n := by
  intro k
  induction k with
  | zero => intro n h; simp [F64.isPow2] at h
  | succ k ih =>
    intro n h
    rcases Nat.eq_zero_or_pos n with h0 | h0
    · subst h0
      simp [F64.isPow2] at h
    · exact h0

theorem F64.roundPos_cases (n d : Nat) :
    F64.roundPos n d = .posInf ∨
      ∃ k : Nat, F64.roundPos n d =
        .fin ((F64.roundSig n d (F64.roundExp n d) * 2 ^ (F64.roundExp n d).toNat : Nat) : Int)
          ((2 ^ k : Nat) : Int) := by
  unfold F64.roundPos
  by_cases he : 0 ≤ F64.roundExp n d
  · simp only [he, if_true]
    split
    · exact Or.inl rfl
    · exact Or.inr ⟨0, by simp⟩
  · simp only [he, if_false]
    refine Or.inr ⟨(-F64.roundExp n d).toNat, ?_⟩
    have : (F64.roundExp n d).toNat = 0 := by omega
    rw [this]
    simp

theorem F64.scaleNum_zero (e : Int) : F64.scaleNum 0 e = 0 := by
  unfold F64.scaleNum
  split <;> simp

theorem F64.roundSig_zero (d : Nat) (e : Int) : F64.roundSig 0 d e = 0 := by
  unfold F64.roundSig
  simp [F64.scaleNum_zero]

theorem F64.roundExp_le (n d : Nat) :
    F64.roundExp n d ≤ (F64.bitLen n n : Int) - (F64.bitLen d d : Int) - 52 ∨
      F64.roundExp n d = -1074 := by
  unfold F64.roundExp
  by_cases h : (if F64.scaleNum n ((F64.bitLen n n : Int) - (F64.bitLen d d : Int) - 52) /
        F64.scaleDen d ((F64.bitLen n n : Int) - (F64.bitLen d d : Int) - 52) < 2 ^ 52
      then (F64.bitLen n n : Int) - (F64.bitLen d d : Int) - 52 - 1
      else (F64.bitLen n n : Int) - (F64.bitLen d d : Int) - 52) < -1074
  · right
    simp only [h, if_true]
  · left
    simp only [h, if_false]
    split <;> omega

theorem F64.roundPos_zero (d : Nat) :
    ∃ k : Nat, F64.roundPos 0 d = .fin 0 ((2 ^ k : Nat) : Int) := by
  have he : ¬ 0 ≤ F64.roundExp 0 d := by
    have hb : F64.bitLen 0 0 = 0 := rfl
    rcases F64.roundExp_le 0 d with h | h
    · rw [hb] at h; omega
    · omega
  unfold F64.roundPos
  simp only [he, if_false, F64.roundSig_zero]
  exact ⟨_, rfl⟩

theorem F64.round_spec (num den : Int) :
    (F64.round num den = .posInf ∧ 0 < num) ∨ (F64.round num den = .negInf ∧ num < 0) ∨
      ∃ a b, F64.round num den = .fin a b ∧ 0 < b ∧ (0 < a → 0 < num) ∧ (a < 0 → num < 0) := by
  unfold F64.round
  split
  · rename_i h
    have := F64.isPow2_pos _ _ h.1
    exact Or.inr (Or.inr ⟨num, den, rfl, by omega, fun h => h, fun h => h⟩)
  · by_cases hpos : 0 < num
    · simp only [hpos, if_true]
      rcases F64.roundPos_cases num.toNat den.toNat with h | ⟨k, h⟩
      · exact Or.inl ⟨h, trivial⟩
      · refine Or.inr (Or.inr ⟨_, _, h, ?_, fun _ => trivial, ?_⟩)
        · have : 0 < 2 ^ k := by positivity
          omega
        · intro hneg
          omega
    · simp only [hpos, if_false]
      by_cases hz : num = 0
      · subst hz
        obtain ⟨k, h⟩ := F64.roundPos_zero den.toNat
        have h0 : (-(0 : Int)).toNat = 0 := rfl
        rw [h0, h]
        refine Or.inr (Or.inr ⟨_, _, rfl, ?_, ?_, ?_⟩)
        · have : 0 < 2 ^ k := by positivity
          omega
        · intro h1; simp at h1
        · intro h1; simp at h1
      · have hneg : num < 0 := by omega
        rcases F64.roundPos_cases (-num).toNat den.toNat with h | ⟨k, h⟩
        · rw [h]
          exact Or.inr (Or.inl ⟨rfl, hneg⟩)
        · rw [h]
          refine Or.inr (Or.inr ⟨_, _, rfl, ?_, ?_, fun _ => hneg⟩)
          · have : 0 < 2 ^ k := by positivity
            omega
          · intro h1
            omega

theorem F64.round_ne_nan (num den : Int) : F64.round num den ≠ .nan := by
  rcases F64.round_spec num den with h | h | ⟨a, b, h, _⟩
  · rw [h.1]; simp
  · rw [h.1]; simp
  · rw [h]; simp


theorem F64.bitLen_le : ∀ (k n j : Nat), n < 2 ^ j → F64.bitLen k n ≤ j := by
  intro k
  induction k with
  | zero => intro n j _; simp [F64.bitLen]
  | succ k ih =>
    intro n j h
    simp only [F64.bitLen]
    split
    · omega
    · rename_i hn
      cases j with
      | zero => simp at h; omega
      | succ j =>
        have h2 : n / 2 < 2 ^ j := by
          rw [Nat.pow_succ] at h
          omega
        have := ih (n / 2) j h2
        omega

theorem F64.roundSig_le (n d : Nat) (e : Int) (he : 0 ≤ e) : F64.roundSig n d e ≤ n + 1 := by
  unfold F64.roundSig
  have hn : F64.scaleNum n e = n := by unfold F64.scaleNum; rw [if_pos he]
  rw [hn]
  have hq : n / F64.scaleDen d e ≤ n := Nat.div_le_self _ _
  simp only []
  split
  · omega
  · split
    · omega
    · split <;> omega

theorem F64.roundPos_fin (n d : Nat) (h : n < 2 ^ 200) :
    ∃ a b, F64.roundPos n d = .fin a b := by
  rcases F64.roundPos_cases n d with hc | ⟨k, hc⟩
  · exfalso
    unfold F64.roundPos at hc
    by_cases he : 0 ≤ F64.roundExp n d
    · simp only [he, if_true] at hc
      split at hc
      · rename_i hbig
        have h1 := F64.roundSig_le n d _ he
        have h2 : F64.roundSig n d (F64.roundExp n d) < 2 ^ 201 := by
          have : (2 : Nat) ^ 201 = 2 ^ 200 * 2 := by rw [Nat.pow_succ]
          omega
        have h3 := F64.bitLen_le (F64.roundSig n d (F64.roundExp n d))
          (F64.roundSig n d (F64.roundExp n d)) 201 h2
        have h4 := F64.bitLen_le n n 200 h
        rcases F64.roundExp_le n d with h5 | h5
        · omega
        · omega
      · simp at hc
    · simp only [he, if_false] at hc
      simp at hc
  · exact ⟨_, _, hc⟩

theorem F64.round_fin (num den : Int) (h : num.natAbs < 2 ^ 200) :
    ∃ a b, F64.round num den = .fin a b ∧ 0 < b ∧ (0 < a → 0 < num) ∧ (a < 0 → num < 0) := by
  rcases F64.round_spec num den with hs | hs | hs
  · exfalso
    have hr := hs.1
    unfold F64.round at hr
    split at hr
    · simp at hr
    · simp only [hs.2, if_true] at hr
      obtain ⟨a, b, hf⟩ := F64.roundPos_fin num.toNat den.toNat (by omega)
      rw [hf] at hr
      simp at hr
  · exfalso
    have hr := hs.1
    unfold F64.round at hr
    split at hr
    · simp at hr
    · have hn : ¬ 0 < num := by omega
      simp only [hn, if_false] at hr
      obtain ⟨a, b, hf⟩ := F64.roundPos_fin (-num).toNat den.toNat (by omega)
      rw [hf] at hr
      simp [F64.neg] at hr
  · exact hs

theorem isInt64_natAbs {x : Int} (h : isInt64 x) : x.natAbs < 2 ^ 200 := by
  unfold isInt64 at h
  have h1 : (2 : Int) ^ 63 = 9223372036854775808 := by norm_num
  rw [h1] at h
  have h2 : (2 : Nat) ^ 64 ≤ 2 ^ 200 := Nat.pow_le_pow_right (by decide) (by decide)
  have h3 : (2 : Nat) ^ 64 = 18446744073709551616 := by norm_num
  omega

theorem F64.ofInt_fin (x : Int) (h : isInt64 x) :
    ∃ a b, F64.ofInt x = .fin a b ∧ 0 < b ∧ (0 < a → 0 < x) ∧ (a < 0 → x < 0) :=
  F64.round_fin x 1 (isInt64_natAbs h)

theorem F64.round_fast (num den : Int) (h1 : F64.isPow2 den.toNat den.toNat = true)
    (h2 : F64.bitLen den.toNat den.toNat ≤ 1075) (h3 : num.natAbs < 2 ^ 53) :
    F64.round num den = .fin num den := by
  unfold F64.round
  rw [if_pos ⟨h1, h2, h3⟩]

theorem F64.ofInt_small (x : Int) (h : x.natAbs < 2 ^ 53) : F64.ofInt x = .fin x 1 := by
  unfold F64.ofInt F64.round
  have h1 : F64.isPow2 (1 : Int).toNat (1 : Int).toNat = true := by decide
  have h2 : F64.bitLen (1 : Int).toNat (1 : Int).toNat ≤ 1075 := by decide
  rw [if_pos ⟨h1, h2, h⟩]

theorem F64.toInt64_fin (a b : Int) (h : isInt64 (Int.tdiv a b)) :
    F64.toInt64 (.fin a b) = Int.tdiv a b := by
  simp only [F64.toInt64]
  rw [if_pos h]

/-! ## Floating point: the error of a rounding -/

theorem F64.bitLen_zero (k : Nat) : F64.bitLen k 0 = 0 := by
  cases k <;> simp [F64.bitLen]

theorem F64.bitLen_spec : ∀ (k n : Nat), n ≤ k →
    n < 2 ^ F64.bitLen k n ∧ (0 < n → 2 ^ (F64.bitLen k n - 1) ≤ n) := by
  intro k
  induction k with
  | zero =>
    intro n h
    have : n = 0 := by omega
    subst this
    simp [F64.bitLen]
  | succ k ih =>
    intro n h
    simp only [F64.bitLen]
    split
    · rename_i h0
      subst h0
      simp
    · rename_i h0
      obtain ⟨h1, h2⟩ := ih (n / 2) (by omega)
      have hp : 2 ^ (F64.bitLen k (n / 2) + 1) = 2 * 2 ^ F64.bitLen k (n / 2) := by
        rw [Nat.pow_succ]; omega
      refine ⟨by rw [hp]; omega, fun _ => ?_⟩
      rw [Nat.add_sub_cancel]
      rcases Nat.eq_zero_or_pos (n / 2) with hz | hz
      · rw [hz, F64.bitLen_zero]
        simp
        omega
      · have h3 := h2 hz
        have hb : 0 < F64.bitLen k (n / 2) := by
          by_contra hc
          have : F64.bitLen k (n / 2) = 0 := by omega
          rw [this] at h1
          simp at h1
          omega
        have hp2 : 2 ^ F64.bitLen k (n / 2) = 2 * 2 ^ (F64.bitLen k (n / 2) - 1) := by
          have : F64.bitLen k (n / 2) = (F64.bitLen k (n / 2) - 1) + 1 := by omega
          rw [this, Nat.pow_succ, Nat.add_sub_cancel]
          omega
        rw [hp2]
        omega

theorem F64.bitLen_lt (n : Nat) : n < 2 ^ F64.bitLen n n := (F64.bitLen_spec n n (Nat.le_refl _)).1

theorem F64.bitLen_ge (n : Nat) (h : 0 < n) : 2 ^ (F64.bitLen n n - 1) ≤ n :=
  (F64.bitLen_spec n n (Nat.le_refl _)).2 h

theorem F64.bitLen_pos (n : Nat) (h : 0 < n) : 0 < F64.bitLen n n := by
  by_contra hc
  have h0 : F64.bitLen n n = 0 := by omega
  have := F64.bitLen_lt n
  rw [h0] at this
  simp at this
  omega


theorem F64.scaleDen_pos (d : Nat) (e : Int) (hd : 0 < d) : 0 < F64.scaleDen d e := by
  unfold F64.scaleDen
  split
  · exact Nat.mul_pos hd (by positivity)
  · exact hd

theorem F64.scale_val (n d : Nat) (e : Int) (hd : 0 < d) :
    ((F64.scaleNum n e : ℚ) / (F64.scaleDen d e : ℚ)) = (n : ℚ) / d * (2 : ℚ) ^ (-e) := by
  have hd0 : (d : ℚ) ≠ 0 := by exact_mod_cast (Nat.pos_iff_ne_zero.mp hd)
  unfold F64.scaleNum F64.scaleDen
  split
  · rename_i he
    obtain ⟨k, rfl⟩ := Int.eq_ofNat_of_zero_le he
    simp only [Int.toNat_ofNat, zpow_neg, zpow_natCast]
    push_cast
    field_simp
  · rename_i he
    obtain ⟨k, hk⟩ : ∃ k : Nat, e = -(k : Int) := ⟨(-e).toNat, by omega⟩
    subst hk
    simp only [neg_neg, Int.toNat_ofNat, zpow_natCast]
    push_cast
    field_simp

theorem F64.roundSig_bounds (n d : Nat) (e : Int) (hd : 0 < d) :
    2 * (F64.roundSig n d e * F64.scaleDen d e) ≤ 2 * F64.scaleNum n e + F64.scaleDen d e ∧
    2 * F64.scaleNum n e ≤ 2 * (F64.roundSig n d e * F64.scaleDen d e) + F64.scaleDen d e := by
  have hD := F64.scaleDen_pos d e hd
  unfold F64.roundSig
  generalize F64.scaleNum n e = N at *
  generalize F64.scaleDen d e = D at *
  have h1 := Nat.div_add_mod N D
  have h2 := Nat.mod_lt N hD
  have h3 : (N / D + 1) * D = D * (N / D) + D := by rw [Nat.add_mul, Nat.mul_comm]; omega
  have h4 : N / D * D = D * (N / D) := Nat.mul_comm _ _
  simp only []
  split
  · rw [h4]; omega
  · split
    · rw [h3]; omega
    · split
      · rw [h4]; omega
      · rw [h3]; omega

theorem F64.bitLen_zpow (n : Nat) (hn : 0 < n) :
    (2 : ℚ) ^ ((F64.bitLen n n : Int) - 1) ≤ n ∧ (n : ℚ) < (2 : ℚ) ^ (F64.bitLen n n : Int) := by
  have h1 := F64.bitLen_ge n hn
  have h2 := F64.bitLen_lt n
  have h3 := F64.bitLen_pos n hn
  constructor
  · have : ((F64.bitLen n n : Int) - 1) = ((F64.bitLen n n - 1 : Nat) : Int) := by omega
    rw [this, zpow_natCast]
    exact_mod_cast h1
  · rw [zpow_natCast]
    exact_mod_cast h2

theorem F64.quot_lt_iff (n d : Nat) (e : Int) (hd : 0 < d) (k : Nat) :
    F64.scaleNum n e / F64.scaleDen d e < k ↔ (n : ℚ) / d * (2 : ℚ) ^ (-e) < k := by
  have hD := F64.scaleDen_pos d e hd
  have hDq : (0 : ℚ) < (F64.scaleDen d e : ℚ) := by exact_mod_cast hD
  rw [← F64.scale_val n d e hd, Nat.div_lt_iff_lt_mul hD, div_lt_iff₀ hDq]
  exact_mod_cast Iff.rfl

theorem F64.roundExp_norm (n d : Nat) (hn : 0 < n) (hd : 0 < d) :
    -1074 ≤ F64.roundExp n d ∧
    (n : ℚ) / d * (2 : ℚ) ^ (-(F64.roundExp n d)) < 2 ^ 53 ∧
    (F64.roundExp n d ≠ -1074 →
      (2 : ℚ) ^ 52 ≤ (n : ℚ) / d * (2 : ℚ) ^ (-(F64.roundExp n d))) := by
  obtain ⟨hn1, hn2⟩ := F64.bitLen_zpow n hn
  obtain ⟨hd1, hd2⟩ := F64.bitLen_zpow d hd
  have hdq : (0 : ℚ) < d := by exact_mod_cast hd
  have hnq : (0 : ℚ) < n := by exact_mod_cast hn
  have h2pos : ∀ z : Int, (0 : ℚ) < (2 : ℚ) ^ z := fun z => zpow_pos (by norm_num) z
  have h2ne : (2 : ℚ) ≠ 0 := by norm_num
  -- the quotient at the first exponent lies between 2 ^ 51 and 2 ^ 53
  have hlo : (2 : ℚ) ^ 51 < (n : ℚ) / d *
      (2 : ℚ) ^ (-((F64.bitLen n n : Int) - (F64.bitLen d d : Int) - 52)) := by
    have h1 : (2 : ℚ) ^ ((F64.bitLen n n : Int) - 1) / (2 : ℚ) ^ (F64.bitLen d d : Int) <
        (n : ℚ) / d := by
      rw [div_lt_div_iff₀ (h2pos _) hdq]
      calc (2 : ℚ) ^ ((F64.bitLen n n : Int) - 1) * d
          < (2 : ℚ) ^ ((F64.bitLen n n : Int) - 1) * (2 : ℚ) ^ (F64.bitLen d d : Int) :=
            mul_lt_mul_of_pos_left hd2 (h2pos _)
        _ ≤ n * (2 : ℚ) ^ (F64.bitLen d d : Int) :=
            mul_le_mul_of_nonneg_right hn1 (le_of_lt (h2pos _))
    have h2 : (2 : ℚ) ^ (51 : ℕ) =
        (2 : ℚ) ^ ((F64.bitLen n n : Int) - 1) / (2 : ℚ) ^ (F64.bitLen d d : Int) *
          (2 : ℚ) ^ (-((F64.bitLen n n : Int) - (F64.bitLen d d : Int) - 52)) := by
      rw [← zpow_sub₀ h2ne, ← zpow_add₀ h2ne, ← zpow_natCast]
      congr 1
      push_cast
      ring
    rw [h2]
    exact mul_lt_mul_of_pos_right h1 (h2pos _)
  have hhi : (n : ℚ) / d *
      (2 : ℚ) ^ (-((F64.bitLen n n : Int) - (F64.bitLen d d : Int) - 52)) < (2 : ℚ) ^ 53 := by
    have h1 : (n : ℚ) / d <
        (2 : ℚ) ^ (F64.bitLen n n : Int) / (2 : ℚ) ^ ((F64.bitLen d d : Int) - 1) := by
      rw [div_lt_div_iff₀ hdq (h2pos _)]
      calc (n : ℚ) * (2 : ℚ) ^ ((F64.bitLen d d : Int) - 1)
          ≤ n * d := mul_le_mul_of_nonneg_left hd1 (le_of_lt hnq)
        _ < (2 : ℚ) ^ (F64.bitLen n n : Int) * d := mul_lt_mul_of_pos_right hn2 hdq
    have h2 : (2 : ℚ) ^ (53 : ℕ) =
        (2 : ℚ) ^ (F64.bitLen n n : Int) / (2 : ℚ) ^ ((F64.bitLen d d : Int) - 1) *
          (2 : ℚ) ^ (-((F64.bitLen n n : Int) - (F64.bitLen d d : Int) - 52)) := by
      rw [← zpow_sub₀ h2ne, ← zpow_add₀ h2ne, ← zpow_natCast]
      congr 1
      push_cast
      ring
    rw [h2]
    exact mul_lt_mul_of_pos_right h1 (h2pos _)
  -- one exponent lower doubles the quotient
  have hstep : ∀ z : Int, (2 : ℚ) ^ (-(z - 1)) = 2 * (2 : ℚ) ^ (-z) := by
    intro z
    have : -(z - 1) = -z + 1 := by ring
    rw [this, zpow_add_one₀ h2ne]
    ring
  have hq := F64.quot_lt_iff n d ((F64.bitLen n n : Int) - (F64.bitLen d d : Int) - 52) hd
    (2 ^ 52)
  unfold F64.roundExp
  simp only []
  generalize (F64.bitLen n n : Int) - (F64.bitLen d d : Int) - 52 = e0 at *
  have hmono : ∀ z : Int, z < -1074 →
      (n : ℚ) / d * (2 : ℚ) ^ (-(-1074 : Int)) ≤ (n : ℚ) / d * (2 : ℚ) ^ (-z) := by
    intro z hz
    apply mul_le_mul_of_nonneg_left _ (le_of_lt (div_pos hnq hdq))
    exact zpow_le_zpow_right₀ (by norm_num) (by omega)
  by_cases hc : F64.scaleNum n e0 / F64.scaleDen d e0 < 2 ^ 52
  · have hlt := hq.mp hc
    simp only [hc, if_true]
    have hnorm1 : (n : ℚ) / d * (2 : ℚ) ^ (-(e0 - 1)) < 2 ^ 53 := by
      rw [hstep]
      push_cast at hlt
      nlinarith
    have hnorm2 : (2 : ℚ) ^ 52 ≤ (n : ℚ) / d * (2 : ℚ) ^ (-(e0 - 1)) := by
      rw [hstep]
      nlinarith
    split
    · rename_i hz
      exact ⟨le_refl _, lt_of_le_of_lt (hmono _ hz) hnorm1, fun h => absurd rfl h⟩
    · exact ⟨by omega, hnorm1, fun _ => hnorm2⟩
  · have hge : (2 : ℚ) ^ 52 ≤ (n : ℚ) / d * (2 : ℚ) ^ (-e0) := by
      by_contra hcon
      push_neg at hcon
      apply hc
      apply hq.mpr
      push_cast
      exact hcon
    simp only [hc, if_false]
    split
    · rename_i hz
      exact ⟨le_refl _, lt_of_le_of_lt (hmono _ hz) hhi, fun h => absurd rfl h⟩
    · exact ⟨by omega, hhi, fun _ => hge⟩

theorem F64.isPow2_two_pow : ∀ (k f : Nat), k < f → F64.isPow2 f (2 ^ k) = true := by
  intro k
  induction k with
  | zero =>
    intro f hf
    obtain ⟨g, rfl⟩ : ∃ g, f = g + 1 := ⟨f - 1, by omega⟩
    simp [F64.isPow2]
  | succ k ih =>
    intro f hf
    obtain ⟨g, rfl⟩ : ∃ g, f = g + 1 := ⟨f - 1, by omega⟩
    have h0 : 0 < 2 ^ k := Nat.pow_pos (by decide)
    have h1 : 2 ^ (k + 1) ≠ 1 := by rw [pow_succ]; omega
    have h2 : 2 ^ (k + 1) % 2 = 0 := by rw [pow_succ]; omega
    have h3 : 2 ^ (k + 1) / 2 = 2 ^ k := by rw [pow_succ]; omega
    have h4 : 2 ^ (k + 1) ≠ 0 := by rw [pow_succ]; omega
    simp only [F64.isPow2, h1, h2, h3, if_false]
    rw [if_pos ⟨trivial, h4⟩]
    exact ih g (by omega)

theorem F64.bitLen_two_pow : ∀ (k f : Nat), k < f → F64.bitLen f (2 ^ k) = k + 1 := by
  intro k
  induction k with
  | zero =>
    intro f hf
    obtain ⟨g, rfl⟩ : ∃ g, f = g + 1 := ⟨f - 1, by omega⟩
    simp [F64.bitLen, F64.bitLen_zero]
  | succ k ih =>
    intro f hf
    obtain ⟨g, rfl⟩ : ∃ g, f = g + 1 := ⟨f - 1, by omega⟩
    have h0 : 0 < 2 ^ k := Nat.pow_pos (by decide)
    have h3 : 2 ^ (k + 1) / 2 = 2 ^ k := by rw [pow_succ]; omega
    have h4 : 2 ^ (k + 1) ≠ 0 := by rw [pow_succ]; omega
    simp only [F64.bitLen, h3, h4, if_false]
    rw [ih g (by omega)]

theorem F64.pow2_fast (k : Nat) (hk : k ≤ 1074) :
    F64.isPow2 (((2 ^ k : Nat) : Int)).toNat (((2 ^ k : Nat) : Int)).toNat = true ∧
    F64.bitLen (((2 ^ k : Nat) : Int)).toNat (((2 ^ k : Nat) : Int)).toNat ≤ 1075 := by
  rw [Int.toNat_ofNat]
  have h := Nat.lt_two_pow k
  exact ⟨F64.isPow2_two_pow k _ h, by rw [F64.bitLen_two_pow k _ h]; omega⟩

theorem F64.round_big (num den : Int) (h : 2 ^ 53 ≤ num) :
    F64.round num den = F64.roundPos num.toNat den.toNat := by
  unfold F64.round
  have h1 : ¬ num.natAbs < 2 ^ 53 := by omega
  rw [if_neg (fun hc => h1 hc.2.2), if_pos (by omega)]

theorem F64.roundPos_neg_exp (n d k : Nat) (hk : F64.roundExp n d = -(k : Int)) (hk0 : 0 < k) :
    F64.roundPos n d = .fin (F64.roundSig n d (-(k : Int)) : Int) ((2 ^ k : Nat) : Int) := by
  unfold F64.roundPos
  simp only [hk]
  rw [if_neg (by omega)]
  simp

/-- The exponent of the last place of a quotient between `2 ^ a` and `2 ^ b`. -/
theorem F64.roundExp_range (n d a b : Nat) (hd : 0 < d) (h1 : 2 ^ a * d ≤ n)
    (h2 : n < 2 ^ b * d) (hb : b ≤ 53) :
    ∃ k : Nat, F64.roundExp n d = -(k : Int) ∧ 53 ≤ k + b ∧ k + a ≤ 52 ∧
      n * 2 ^ k < 2 ^ 53 * d := by
  have hn : 0 < n := by
    have : 0 < 2 ^ a * d := Nat.mul_pos (Nat.pow_pos (by decide)) hd
    omega
  obtain ⟨he, hlt, hge⟩ := F64.roundExp_norm n d hn hd
  have hdq : (0 : ℚ) < d := by exact_mod_cast hd
  have h2pos : ∀ z : Int, (0 : ℚ) < (2 : ℚ) ^ z := fun z => zpow_pos (by norm_num) z
  have h2ne : (2 : ℚ) ≠ 0 := by norm_num
  have hx1 : (2 : ℚ) ^ (a : Int) ≤ (n : ℚ) / d := by
    rw [le_div_iff₀ hdq, zpow_natCast]
    exact_mod_cast h1
  have hx2 : (n : ℚ) / d < (2 : ℚ) ^ (b : Int) := by
    rw [div_lt_iff₀ hdq, zpow_natCast]
    exact_mod_cast h2
  generalize F64.roundExp n d = e at *
  have h3 : (a : Int) - e < 53 := by
    have : (2 : ℚ) ^ ((a : Int) - e) < (2 : ℚ) ^ ((53 : ℕ) : Int) := by
      rw [zpow_natCast]
      calc (2 : ℚ) ^ ((a : Int) - e) = (2 : ℚ) ^ (a : Int) * (2 : ℚ) ^ (-e) := by
            rw [← zpow_add₀ h2ne]; congr 1
        _ ≤ (n : ℚ) / d * (2 : ℚ) ^ (-e) := mul_le_mul_of_nonneg_right hx1 (le_of_lt (h2pos _))
        _ < 2 ^ 53 := hlt
    have := (zpow_lt_zpow_iff_right₀ (by norm_num : (1 : ℚ) < 2)).mp this
    push_cast at this
    exact this
  have hne : e ≠ -1074 := by omega
  have h4 : (52 : Int) < (b : Int) - e := by
    have : (2 : ℚ) ^ ((52 : ℕ) : Int) < (2 : ℚ) ^ ((b : Int) - e) := by
      rw [zpow_natCast]
      calc (2 : ℚ) ^ 52 ≤ (n : ℚ) / d * (2 : ℚ) ^ (-e) := hge hne
        _ < (2 : ℚ) ^ (b : Int) * (2 : ℚ) ^ (-e) := mul_lt_mul_of_pos_right hx2 (h2pos _)
        _ = (2 : ℚ) ^ ((b : Int) - e) := by rw [← zpow_add₀ h2ne]; congr 1
    have := (zpow_lt_zpow_iff_right₀ (by norm_num : (1 : ℚ) < 2)).mp this
    push_cast at this
    exact this
  have hk : (((-e).toNat : Nat) : Int) = -e := Int.toNat_of_nonneg (by omega)
  refine ⟨(-e).toNat, by omega, by omega, by omega, ?_⟩
  have h5 : (n : ℚ) * (2 : ℚ) ^ (-e).toNat < 2 ^ 53 * d := by
    have h6 : (2 : ℚ) ^ (-e) = (2 : ℚ) ^ (-e).toNat := by
      rw [← zpow_natCast, hk]
    rw [h6, div_mul_eq_mul_div, div_lt_iff₀ hdq] at hlt
    exact hlt
  exact_mod_cast h5

/-- The exponent of the last place of a quotient between `2 ^ a` and `2 ^ b`, of either sign. -/
theorem F64.roundExp_bounds (n d a b : Nat) (hd : 0 < d) (h1 : 2 ^ a * d ≤ n)
    (h2 : n < 2 ^ b * d) :
    (a : Int) - 52 ≤ F64.roundExp n d ∧ F64.roundExp n d ≤ (b : Int) - 53 := by
  have hn : 0 < n := by
    have : 0 < 2 ^ a * d := Nat.mul_pos (Nat.pow_pos (by decide)) hd
    omega
  obtain ⟨he, hlt, hge⟩ := F64.roundExp_norm n d hn hd
  have hdq : (0 : ℚ) < d := by exact_mod_cast hd
  have h2pos : ∀ z : Int, (0 : ℚ) < (2 : ℚ) ^ z := fun z => zpow_pos (by norm_num) z
  have h2ne : (2 : ℚ) ≠ 0 := by norm_num
  have hx1 : (2 : ℚ) ^ (a : Int) ≤ (n : ℚ) / d := by
    rw [le_div_iff₀ hdq, zpow_natCast]
    exact_mod_cast h1
  have hx2 : (n : ℚ) / d < (2 : ℚ) ^ (b : Int) := by
    rw [div_lt_iff₀ hdq, zpow_natCast]
    exact_mod_cast h2
  generalize F64.roundExp n d = e at *
  have h3 : (a : Int) - e < 53 := by
    have : (2 : ℚ) ^ ((a : Int) - e) < (2 : ℚ) ^ ((53 : ℕ) : Int) := by
      rw [zpow_natCast]
      calc (2 : ℚ) ^ ((a : Int) - e) = (2 : ℚ) ^ (a : Int) * (2 : ℚ) ^ (-e) := by
            rw [← zpow_add₀ h2ne]; congr 1
        _ ≤ (n : ℚ) / d * (2 : ℚ) ^ (-e) := mul_le_mul_of_nonneg_right hx1 (le_of_lt (h2pos _))
        _ < 2 ^ 53 := hlt
    have := (zpow_lt_zpow_iff_right₀ (by norm_num : (1 : ℚ) < 2)).mp this
    push_cast at this
    exact this
  refine ⟨by omega, ?_⟩
  by_cases hne : e = -1074
  · omega
  · have h4 : (52 : Int) < (b : Int) - e := by
      have : (2 : ℚ) ^ ((52 : ℕ) : Int) < (2 : ℚ) ^ ((b : Int) - e) := by
        rw [zpow_natCast]
        calc (2 : ℚ) ^ 52 ≤ (n : ℚ) / d * (2 : ℚ) ^ (-e) := hge hne
          _ < (2 : ℚ) ^ (b : Int) * (2 : ℚ) ^ (-e) := mul_lt_mul_of_pos_right hx2 (h2pos _)
          _ = (2 : ℚ) ^ ((b : Int) - e) := by rw [← zpow_add₀ h2ne]; congr 1
      have := (zpow_lt_zpow_iff_right₀ (by norm_num : (1 : ℚ) < 2)).mp this
      push_cast at this
      exact this
    omega

/-- The rounded significand of a normal number has 53 binary digits, or is `2 ^ 53`. -/
theorem F64.roundSig_normal (n d : Nat) (hn : 0 < n) (hd : 0 < d)
    (he : F64.roundExp n d ≠ -1074) :
    2 ^ 52 ≤ F64.roundSig n d (F64.roundExp n d) ∧
      F64.roundSig n d (F64.roundExp n d) ≤ 2 ^ 53 := by
  obtain ⟨_, hlt, hge⟩ := F64.roundExp_norm n d hn hd
  have hge := hge he
  obtain ⟨hb1, hb2⟩ := F64.roundSig_bounds n d (F64.roundExp n d) hd
  have hD := F64.scaleDen_pos d (F64.roundExp n d) hd
  have hDq : (0 : ℚ) < (F64.scaleDen d (F64.roundExp n d) : ℚ) := by exact_mod_cast hD
  rw [← F64.scale_val n d _ hd] at hlt hge
  rw [div_lt_iff₀ hDq] at hlt
  rw [le_div_iff₀ hDq] at hge
  have hlt1 : F64.scaleNum n (F64.roundExp n d) < 2 ^ 53 * F64.scaleDen d (F64.roundExp n d) := by
    exact_mod_cast hlt
  have hge1 : 2 ^ 52 * F64.scaleDen d (F64.roundExp n d) ≤ F64.scaleNum n (F64.roundExp n d) := by
    exact_mod_cast hge
  generalize F64.scaleNum n (F64.roundExp n d) = N at *
  generalize F64.scaleDen d (F64.roundExp n d) = D at *
  generalize F64.roundSig n d (F64.roundExp n d) = q at *
  constructor
  · by_contra hc
    have hq : q ≤ 2 ^ 52 - 1 := by omega
    have := Nat.mul_le_mul_right D hq
    omega
  · by_contra hc
    have hq : 2 ^ 53 + 1 ≤ q := by omega
    have := Nat.mul_le_mul_right D hq
    omega

theorem F64.round_neg_big (num den : Int) (h : num ≤ -(2 ^ 53)) :
    F64.round num den = F64.neg (F64.roundPos (-num).toNat den.toNat) := by
  unfold F64.round
  have h1 : ¬ num.natAbs < 2 ^ 53 := by omega
  rw [if_neg (fun hc => h1 hc.2.2), if_neg (by omega)]

/-- The `float64` nearest to a quotient between `2 ^ 53` and `2 ^ 65` is an integer in that
range. -/
theorem F64.roundPos_large (n d : Nat) (hd : 0 < d) (h1 : 2 ^ 53 * d ≤ n)
    (h2 : n < 2 ^ 65 * d) :
    ∃ M : Nat, F64.roundPos n d = .fin (M : Int) 1 ∧ 2 ^ 53 ≤ M ∧ M ≤ 2 ^ 65 := by
  have hn : 0 < n := by
    have : 0 < 2 ^ 53 * d := Nat.mul_pos (Nat.pow_pos (by decide)) hd
    omega
  obtain ⟨he1, he2⟩ := F64.roundExp_bounds n d 53 65 hd h1 h2
  obtain ⟨hq1, hq2⟩ := F64.roundSig_normal n d hn hd (by omega)
  unfold F64.roundPos
  simp only []
  generalize F64.roundExp n d = e at *
  generalize F64.roundSig n d e = q at *
  obtain ⟨k, rfl⟩ : ∃ k : Nat, e = (k : Int) := ⟨e.toNat, (Int.toNat_of_nonneg (by omega)).symm⟩
  rw [if_pos (by omega)]
  have hbl : F64.bitLen q q ≤ 54 := F64.bitLen_le q q 54 (by omega)
  rw [if_neg (by simp only [Int.toNat_ofNat]; omega)]
  simp only [Int.toNat_ofNat]
  have hk1 : 2 ^ 1 ≤ 2 ^ k := Nat.pow_le_pow_right (by decide) (by omega)
  have hk2 : 2 ^ k ≤ 2 ^ 12 := Nat.pow_le_pow_right (by decide) (by omega)
  refine ⟨q * 2 ^ k, rfl, ?_, ?_⟩
  · calc 2 ^ 53 = 2 ^ 52 * 2 ^ 1 := by norm_num
      _ ≤ q * 2 ^ k := Nat.mul_le_mul hq1 hk1
  · calc q * 2 ^ k ≤ 2 ^ 53 * 2 ^ 12 := Nat.mul_le_mul hq2 hk2
      _ = 2 ^ 65 := by norm_num

/-- The `float64` nearest to a quotient between `2 ^ 33` and `2 ^ 46` is a fraction that is at
least 1. -/
theorem F64.roundPos_mid (n d : Nat) (hd : 0 < d) (h1 : 2 ^ 33 * d ≤ n)
    (h2 : n < 2 ^ 46 * d) :
    ∃ q k : Nat, F64.roundPos n d = .fin (q : Int) ((2 ^ k : Nat) : Int) ∧ 2 ^ k ≤ q := by
  have hn : 0 < n := by
    have : 0 < 2 ^ 33 * d := Nat.mul_pos (Nat.pow_pos (by decide)) hd
    omega
  obtain ⟨he1, he2⟩ := F64.roundExp_bounds n d 33 46 hd h1 h2
  obtain ⟨hq1, _⟩ := F64.roundSig_normal n d hn hd (by omega)
  obtain ⟨k, hk⟩ : ∃ k : Nat, F64.roundExp n d = -(k : Int) :=
    ⟨(-F64.roundExp n d).toNat, by omega⟩
  rw [hk] at hq1
  refine ⟨_, k, F64.roundPos_neg_exp n d k hk (by omega), ?_⟩
  have hk2 : 2 ^ k ≤ 2 ^ 19 := Nat.pow_le_pow_right (by decide) (by omega)
  omega

/-! ## Balancer: proofs -/

theorem SMap.mem_of_get? {m : SMap} {k : String} {v : Int} (h : m.get? k = some v) :
    (k, v) ∈ m := by
  induction m with
  | nil => simp [SMap.get?] at h
  | cons e rest ih =>
    obtain ⟨k', v'⟩ := e
    simp only [SMap.get?] at h
    by_cases hk : k' = k
    · simp only [hk, if_true, Option.some.injEq] at h
      subst hk; subst h
      exact List.mem_cons_self _ _
    · simp only [hk, if_false] at h
      exact List.mem_cons_of_mem _ (ih h)

theorem scalarsCovered_get? {resA resB : SMap} (h : scalarsCovered resA resB = true)
    {k : String} {v : Int} (hk : resA.get? k = some v) : resB.get? k = some v := by
  unfold scalarsCovered at h
  rw [List.all_eq_true] at h
  have := h (k, v) (SMap.mem_of_get? hk)
  simpa using this

theorem scalars_eq_of_covered {resA resB : SMap} (hAB : scalarsCovered resA resB = true)
    (hBA : scalarsCovered resB resA = true) (k : String) : resA.get? k = resB.get? k := by
  cases hA : resA.get? k with
  | some v => exact (scalarsCovered_get? hAB hA).symm
  | none =>
    cases hB : resB.get? k with
    | none => rfl
    | some w =>
      have := scalarsCovered_get? hBA hB
      rw [hA] at this
      exact absurd this (by simp)

/-- C9: `swapIfPossible` returns `true` only if the scalar-resource maps of the two pods have
the same keys with equal quantities; whenever the two maps differ it returns `false` and
leaves the snapshot (and the generation counter) untouched. -/
theorem C9_swap_requires_equal_scalar_footprints (generation : Int) (nodeInfos : List NodeInfo)
    (iA iB : Nat) (podA podB : PodInfo) :
    (∀ ns g, swapIfPossible generation nodeInfos iA iB podA podB = .val (true, ns, g) →
      ∀ k, (CalculateResource podA.Pod).1.ScalarResources.get? k =
        (CalculateResource podB.Pod).1.ScalarResources.get? k) ∧
    ((∃ k, (CalculateResource podA.Pod).1.ScalarResources.get? k ≠
        (CalculateResource podB.Pod).1.ScalarResources.get? k) →
      swapIfPossible generation nodeInfos iA iB podA podB = .val (false, nodeInfos, generation)) := by
  constructor
  · intro ns g h k
    unfold swapIfPossible at h
    simp only [] at h
    split at h
    · simp at h
    · rename_i hsat
      simp only [Bool.not_eq_true', Bool.not_eq_false, Bool.and_eq_true] at hsat
      exact scalars_eq_of_covered hsat.1 hsat.2 k
  · rintro ⟨k, hk⟩
    unfold swapIfPossible
    simp only []
    split
    · rfl
    · rename_i hsat
      simp only [Bool.not_eq_true', Bool.not_eq_false, Bool.and_eq_true] at hsat
      exact absurd (scalars_eq_of_covered hsat.1 hsat.2 k) hk

/-- C9 on scenario S5 (alpha has `gpu = 1`, beta has no scalar resource): the swap is refused
and the snapshot is left as it was. -/
theorem C9_swap_requires_equal_scalar_footprints_witness :
    swapIfPossible 10 snapS5 0 1 podAlphaGpu podBeta = .val (false, snapS5, 10) :=
  (C9_swap_requires_equal_scalar_footprints 10 snapS5 0 1 podAlphaGpu podBeta).2
    ⟨"gpu", by decide⟩

set_option maxRecDepth 100000 in
/-- When nothing is available in the cluster the pivot ratio is `0 / 0`: on two full nodes
the entropy is `NaN` before and after the tentative swap, the test
`entropyAfterSwap >= entropyBeforeSwap` is false and `swapIfPossible` returns `true` with an
entropy that is not less than before. `BalanceWorkload` does not call `swapIfPossible` on such
a snapshot: its loop condition compares with the pivot ratio and fails. -/
theorem swapIfPossible_accepts_nan_entropy :
    snapFull.map (fun n => n.Pods) = [[podFullA], [podFullB]] ∧
    GetSystemEntropy snapFull = F64.nan ∧
    (swapIfPossible 10 snapFull 0 1 podFullA podFullB).get?.map
      (fun r => (r.1, F64.lt (GetSystemEntropy r.2.1) (GetSystemEntropy snapFull))) =
      some (true, false) := by
  decide

set_option maxRecDepth 100000 in
/-- C8 fails on two equal nodes hosting equal pods: the tentative swap leaves the entropy
unchanged, `swapIfPossible` returns `false`, and after the call node a has lost its pod while
node b holds the pod of node a instead of its own; the available CPU of the nodes changed
from 1500m each to 2000m and 1500m. -/
theorem C8_rejected_swap_not_reverted :
    scalarsCovered (CalculateResource podTwinA.Pod).1.ScalarResources
      (CalculateResource podTwinB.Pod).1.ScalarResources = true ∧
    scalarsCovered (CalculateResource podTwinB.Pod).1.ScalarResources
      (CalculateResource podTwinA.Pod).1.ScalarResources = true ∧
    podNames snapTwin = [["x"], ["y"]] ∧
    snapTwin.map (fun n => n.Available.MilliCPU) = [1500, 1500] ∧
    (swapIfPossible 10 snapTwin 0 1 podTwinA podTwinB).get?.map
      (fun r => (r.1, podNames r.2.1, r.2.1.map (fun n => n.Available.MilliCPU))) =
      some (false, [[], ["x"]], [2000, 1500]) := by
  decide

set_option maxRecDepth 100000 in
/-- C10 fails both ways: with `iterations = 3`, `BalancePolicy` makes no `BalanceWorkload`
call on scenario S4, where `isSchedulingDone` does not hold, and makes three calls on a
cluster where `isSchedulingDone` holds from the start and throughout. -/
theorem C10_loop_runs_while_scheduling_done :
    isSchedulingDone snapS4 (GetPivotRatio snapS4) = false ∧
    (BalancePolicy id balanceNoop snapS4 3).2.1 = 0 ∧
    isSchedulingDone snapOneSide (GetPivotRatio snapOneSide) = true ∧
    (BalancePolicy id balanceNoop snapOneSide 3).2.1 = 3 := by
  decide

set_option maxRecDepth 100000 in
/-- C2 fails on both paths. Single-pod path: for the pending pod of 1200m the planner recurses
from E (on n) to F (on m), migrates F and returns F with target m; with F removed m has 900m
available. Multi-pod path: on a single node of 800m it returns the only pod of the node with
that node as target; with the pod removed the node has 800m available. -/
theorem C2_target_lacks_room :
    (CalculateResource pendingChain.Pod).2.1 = 1200 ∧
    placeSummary (PlacePod envOk 10 pendingChain snapChain) =
      .val ((["f"], some 1, true), ["f"]) ∧
    (removePodAt 0 snapChain.nodeInfos 1 podF).get?.map
      (fun r => r.1.map (fun n => n.Available.MilliCPU)) = some [500, 900, 700] ∧
    placeSummary (PlacePod envOk 10 pendingChain snapPinned) =
      .val ((["d"], some 0, true), []) ∧
    (removePodAt 0 snapPinned.nodeInfos 0 podPinned).get?.map
      (fun r => r.1.map (fun n => n.Available.MilliCPU)) = some [800] := by
  decide

set_option maxRecDepth 100000 in
/-- C3 on scenario S1: the snapshot passes the eligibility check, node b passes
`PodFitsCurrentNode` and has room for the pending pod, `computeNormalPlacement` finds b with
no `fromNode`, and `PlacePod` panics where the claim has it return `ok = true` with target b:
`placeCapacity` evaluates `fromNode.Node().GetName()` for its log line with a nil `fromNode`,
ahead of its own test `fromNode != nil`. -/
theorem C3_direct_placement_of_pending_pod_panics :
    pendingS1.Pod.NodeName = "" ∧
    checkPlacementElibility envOk pendingS1 snapS1.nodeInfos = true ∧
    snapS1.nodeInfos.map (fun n => hasRoom pendingS1 n) = [false, true] ∧
    computeNormalPlacement envOk pendingS1 snapS1.nodeInfos = .val (none, some 1, true) ∧
    PlacePod envOk 10 pendingS1 snapS1 = .panic := by
  decide

set_option maxRecDepth 100000 in
/-- C4 on a cluster short of CPU: nodes a (1000m, hosting y of 600m) and b (700m, empty) have
1100m available and the pending pod requests 1200m; the eligibility check fails and the
single-pod path declines without a call, but `PlacePod` returns `([y], a, true)` after a
`MigratePod` call that moves y from a to b, where the claim has `(nil, nil, false)` and no
call. On scenario S2 (1100m available, 1200m requested) `PlacePod` returns the pods Z and Y
with target b and `ok = true`. -/
theorem C4_plan_for_cluster_short_of_cpu :
    totalAvailableCpu snapShort.nodeInfos = 1100 ∧
    (CalculateResource pendingS1.Pod).2.1 = 1200 ∧
    checkPlacementElibility envOk pendingS1 snapShort.nodeInfos = false ∧
    (placeCapacity envOk 10 pendingS1 snapShort).get?.map
      (fun r => (r.1.1.isSome, r.1.2.1, r.1.2.2, r.2.calls.length)) =
        some (false, none, false, 0) ∧
    placeSummary (PlacePod envOk 10 pendingS1 snapShort) =
      .val ((["y"], some 0, true), ["y"]) ∧
    (PlacePod envOk 10 pendingS1 snapShort).get?.map
      (fun r => r.2.calls.map fun c =>
        (c.pod.Name, c.fromNode.map (fun nd => nd.Name), c.toNode.map (fun nd => nd.Name),
          c.isSwap)) = some [("y", some "a", some "b", false)] ∧
    totalAvailableCpu snapS2.nodeInfos = 1100 ∧
    (CalculateResource pendingS2.Pod).2.1 = 1200 ∧
    placeSummary (PlacePod envOk 10 pendingS2 snapS2) =
      .val ((["z", "y"], some 1, true), []) :=
  ⟨by decide, by decide, by decide, by decide, by decide, by decide, by decide, by decide,
    by decide⟩

set_option maxRecDepth 100000 in
/-- C5 fails on the multi-pod path: the only pod of the node is not migratable and is
returned in `migrated`. -/
theorem C5_unmigratable_pod_returned :
    (PlacePod envOk 10 pendingChain snapPinned).get?.map
      (fun r => (r.1.1.map (fun p => (p.Pod.Name, IsMigratable p.Pod)), r.1.2.2)) =
      some ([("d", false)], true) := by
  decide

set_option maxRecDepth 100000 in
/-- C6 fails for a running pod: R runs on node a and fits node b; `PlacePod` migrates it and
returns node a, the node named by `R.Spec.NodeName`, as target. -/
theorem C6_counterexample_running_pod :
    podR.NodeName = "a" ∧
    snapRunning.nodeInfos.map (fun n => n.GetName) = [.val "a", .val "b"] ∧
    placeSummary (PlacePod envOk 10 { Pod := podR } snapRunning) =
      .val ((["r"], some 0, true), ["r"]) := by
  decide

/-! ### Totals and the pivot ratio under a swap -/

theorem foldl_add64_eq (f : NodeInfo → Int) (l : List NodeInfo) :
    ∀ a : Int, l.foldl (fun acc n => add64 acc (f n)) (wrap64 a) = wrap64 (a + (l.map f).sum) := by
  induction l with
  | nil => intro a; simp
  | cons x rest ih =>
    intro a
    have h1 : add64 (wrap64 a) (f x) = wrap64 (a + f x) := by
      unfold add64 wrap64
      exact Int.bmod_add_bmod_congr
    simp only [List.foldl_cons, List.map_cons, List.sum_cons, h1, ih, Int.add_assoc]

theorem wrap64_zero : wrap64 0 = 0 := by decide

theorem totalAvailableCpu_eq (l : List NodeInfo) :
    totalAvailableCpu l = wrap64 ((l.map fun n => n.Available.MilliCPU).sum) := by
  have := foldl_add64_eq (fun n => n.Available.MilliCPU) l 0
  rw [wrap64_zero, Int.zero_add] at this
  exact this

theorem totalAvailableMem_eq (l : List NodeInfo) :
    totalAvailableMem l = wrap64 ((l.map fun n => n.Available.Memory).sum) := by
  have := foldl_add64_eq (fun n => n.Available.Memory) l 0
  rw [wrap64_zero, Int.zero_add] at this
  exact this

theorem sum_map_set (f : NodeInfo → Int) (l : List NodeInfo) :
    ∀ (i : Nat) (n n1 : NodeInfo), l[i]? = some n →
      ((l.set i n1).map f).sum = (l.map f).sum - f n + f n1 := by
  induction l with
  | nil => intro i n n1 h; simp at h
  | cons x rest ih =>
    intro i n n1 h
    cases i with
    | zero =>
      simp only [List.getElem?_cons_zero, Option.some.injEq] at h
      subst h
      simp only [List.set_cons_zero, List.map_cons, List.sum_cons]
      omega
    | succ i =>
      simp only [List.getElem?_cons_succ] at h
      simp only [List.set_cons_succ, List.map_cons, List.sum_cons, ih i n n1 h]
      omega

theorem wrap64_sum_set (f : NodeInfo → Int) (l : List NodeInfo) (i : Nat) (n n1 : NodeInfo)
    (d : Int) (h : l[i]? = some n) (hf : f n1 = add64 (f n) d) :
    wrap64 (((l.set i n1).map f).sum) = wrap64 (wrap64 ((l.map f).sum) + d) := by
  rw [sum_map_set f l i n n1 h, hf]
  unfold add64 wrap64
  rw [Int.add_bmod_bmod, Int.bmod_add_bmod_congr]
  congr 1
  omega

theorem sub64_eq_add64_neg (a x : Int) : sub64 a x = add64 a (-x) := by
  unfold sub64 add64
  rw [Int.sub_eq_add_neg]

theorem RemovePod_available (g : Int) (n n1 : NodeInfo) (pod : Pod) (e : Option RemoveErr)
    (h : n.RemovePod g pod = .val (n1, e)) :
    (e = none →
      n1.Available.MilliCPU = add64 n.Available.MilliCPU (CalculateResource pod).2.1 ∧
      n1.Available.Memory = add64 n.Available.Memory (CalculateResource pod).2.2) ∧
    (e ≠ none → n1.Available = n.Available) := by
  unfold NodeInfo.RemovePod at h
  split at h
  · simp only [Run.val.injEq, Prod.mk.injEq] at h
    obtain ⟨h1, h2⟩ := h
    subst h1; subst h2
    exact ⟨fun h => by simp at h, fun _ => rfl⟩
  · simp only [] at h
    split at h
    · simp only [Run.val.injEq, Prod.mk.injEq] at h
      obtain ⟨h1, h2⟩ := h
      subst h1; subst h2
      exact ⟨fun _ => ⟨rfl, rfl⟩, fun h => absurd rfl h⟩
    · split at h
      · simp at h
      · simp only [Run.val.injEq, Prod.mk.injEq] at h
        obtain ⟨h1, h2⟩ := h
        subst h1; subst h2
        exact ⟨fun h => by simp at h, fun _ => rfl⟩

/-- The two totals read by `GetPivotRatio`. -/
theorem GetPivotRatio_congr (l1 l2 : List NodeInfo)
    (hc : totalAvailableCpu l1 = totalAvailableCpu l2)
    (hm : totalAvailableMem l1 = totalAvailableMem l2) :
    GetPivotRatio l1 = GetPivotRatio l2 := by
  unfold GetPivotRatio
  rw [hc, hm]

theorem removePodAt_totals (g : Int) (l l1 : List NodeInfo) (i : Nat) (pod : Pod) (g1 : Int)
    (e : Option RemoveErr) (h : removePodAt g l i pod = .val (l1, g1, e)) :
    (e = none →
      totalAvailableCpu l1 = wrap64 (totalAvailableCpu l + (CalculateResource pod).2.1) ∧
      totalAvailableMem l1 = wrap64 (totalAvailableMem l + (CalculateResource pod).2.2)) ∧
    (e ≠ none → totalAvailableCpu l1 = totalAvailableCpu l ∧
      totalAvailableMem l1 = totalAvailableMem l) := by
  unfold removePodAt at h
  split at h
  · simp at h
  · rename_i n hn
    split at h
    · rename_i r hr
      simp only [Run.val.injEq, Prod.mk.injEq] at h
      obtain ⟨h1, _, h3⟩ := h
      obtain ⟨n1, e1⟩ := r
      simp only at h1 h3
      subst h1; subst h3
      obtain ⟨hok, herr⟩ := RemovePod_available g n n1 pod e1 hr
      constructor
      · intro he
        obtain ⟨hcpu, hmem⟩ := hok he
        rw [totalAvailableCpu_eq, totalAvailableCpu_eq, totalAvailableMem_eq, totalAvailableMem_eq]
        exact ⟨wrap64_sum_set (fun n => n.Available.MilliCPU) l i n n1 _ hn hcpu,
          wrap64_sum_set (fun n => n.Available.Memory) l i n n1 _ hn hmem⟩
      · intro he
        have hav := herr he
        rw [totalAvailableCpu_eq, totalAvailableCpu_eq, totalAvailableMem_eq, totalAvailableMem_eq,
          sum_map_set (fun n => n.Available.MilliCPU) l i n n1 hn,
          sum_map_set (fun n => n.Available.Memory) l i n n1 hn, hav]
        constructor <;> (congr 1; omega)
    · simp at h
    · simp at h

theorem addPodAt_totals (g : Int) (l l1 : List NodeInfo) (i : Nat) (pod : Pod) (g1 : Int)
    (h : addPodAt g l i pod = .val (l1, g1)) :
    totalAvailableCpu l1 = wrap64 (totalAvailableCpu l + -(CalculateResource pod).2.1) ∧
    totalAvailableMem l1 = wrap64 (totalAvailableMem l + -(CalculateResource pod).2.2) := by
  unfold addPodAt at h
  split at h
  · simp at h
  · rename_i n hn
    simp only [Run.val.injEq, Prod.mk.injEq] at h
    obtain ⟨h1, _⟩ := h
    subst h1
    rw [totalAvailableCpu_eq, totalAvailableCpu_eq, totalAvailableMem_eq, totalAvailableMem_eq]
    exact ⟨wrap64_sum_set (fun n => n.Available.MilliCPU) l i n _ _ hn
        (sub64_eq_add64_neg _ _),
      wrap64_sum_set (fun n => n.Available.Memory) l i n _ _ hn (sub64_eq_add64_neg _ _)⟩

theorem wrap64_swap_cancel (t a b : Int) (ht : wrap64 t = t) :
    wrap64 (wrap64 (wrap64 (wrap64 (t + a) + b) + -b) + -a) = t := by
  have step : ∀ x y : Int, wrap64 (wrap64 x + y) = wrap64 (x + y) := by
    intro x y
    unfold wrap64
    exact Int.bmod_add_bmod_congr
  rw [step (t + a) b, step (t + a + b) (-b), step (t + a + b + -b) (-a)]
  have : t + a + b + -b + -a = t := by omega
  rw [this, ht]

theorem wrap64_totalAvailableCpu (l : List NodeInfo) :
    wrap64 (totalAvailableCpu l) = totalAvailableCpu l := by
  rw [totalAvailableCpu_eq]
  unfold wrap64
  exact Int.bmod_bmod

theorem wrap64_totalAvailableMem (l : List NodeInfo) :
    wrap64 (totalAvailableMem l) = totalAvailableMem l := by
  rw [totalAvailableMem_eq]
  unfold wrap64
  exact Int.bmod_bmod

/-! ### The entropy is a number when the pivot ratio is finite -/

theorem F64.round_class (num den : Int) :
    F64.round num den = .posInf ∨ F64.round num den = .negInf ∨
      ∃ a b, F64.round num den = .fin a b ∧ 0 < b := by
  rcases F64.round_spec num den with h | h | ⟨a, b, h, hb, _⟩
  · exact Or.inl h.1
  · exact Or.inr (Or.inl h.1)
  · exact Or.inr (Or.inr ⟨a, b, h, hb⟩)

theorem F64.ofInt_MB : F64.ofInt MB = .fin 1048576 1 := by decide

theorem toMBf_small (x : Int) (h : x.natAbs < 2 ^ 53) : toMBf x = .fin x 1048576 := by
  unfold toMBf
  rw [F64.ofInt_small x h, F64.ofInt_MB]
  simp only [F64.div]
  rw [if_neg (by decide), if_pos (by decide)]
  unfold F64.round
  simp only [Int.mul_one, Int.one_mul]
  rw [if_pos ⟨by decide, by decide, h⟩]

theorem toMBf_ne_nan (x : Int) : toMBf x ≠ .nan := by
  unfold toMBf
  rw [F64.ofInt_MB]
  unfold F64.ofInt
  rcases F64.round_class x 1 with h | h | ⟨a, b, h, _⟩
  · rw [h]; simp [F64.div]
  · rw [h]; simp [F64.div]
  · rw [h]
    simp only [F64.div]
    rw [if_neg (by decide), if_pos (by decide)]
    exact F64.round_ne_nan _ _

/-- The ratio of a node whose available CPU is an `int64` is a fraction with a positive
denominator or an infinity. -/
theorem GetCpuMemoryRatio_class (n : NodeInfo) (hcpu : isInt64 n.Available.MilliCPU) :
    GetCpuMemoryRatio n = .posInf ∨ GetCpuMemoryRatio n = .negInf ∨
      ∃ a b, GetCpuMemoryRatio n = .fin a b ∧ 0 < b := by
  unfold GetCpuMemoryRatio
  split
  · exact F64.round_class _ _
  · rename_i hmb
    split
    · exact F64.round_class _ _
    · obtain ⟨a, b, ha, hb, _, _⟩ := F64.ofInt_fin _ hcpu
      rw [ha]
      cases hm : toMBf n.Available.Memory with
      | nan => exact absurd hm (toMBf_ne_nan _)
      | posInf => exact Or.inr (Or.inr ⟨0, 1, rfl, by decide⟩)
      | negInf => exact Or.inr (Or.inr ⟨0, 1, rfl, by decide⟩)
      | fin c d =>
        have hc : c ≠ 0 := by
          intro h0
          apply hmb
          rw [hm, h0]
          have hz : isInt64 (Int.tdiv 0 d) := by
            rw [Int.zero_tdiv]
            decide
          rw [F64.toInt64_fin 0 d hz, Int.zero_tdiv]
        simp only [F64.div]
        rw [if_neg hc]
        split
        · exact F64.round_class _ _
        · exact F64.round_class _ _

theorem distance_NN (p q : Int) (n : NodeInfo) (hcpu : isInt64 n.Available.MilliCPU) :
    F64.abs (F64.sub (.fin p q) (GetCpuMemoryRatio n)) = .posInf ∨
      ∃ a b, F64.abs (F64.sub (.fin p q) (GetCpuMemoryRatio n)) = .fin a b ∧ 0 ≤ a ∧ 0 < b := by
  rcases GetCpuMemoryRatio_class n hcpu with h | h | ⟨c, d, h, hd⟩
  · rw [h]; exact Or.inl rfl
  · rw [h]; exact Or.inl rfl
  · rw [h]
    simp only [F64.sub, F64.neg, F64.add]
    rcases F64.round_class (p * d + -c * q) (q * d) with hr | hr | ⟨a, b, hr, hb⟩
    · rw [hr]; exact Or.inl rfl
    · rw [hr]; exact Or.inl rfl
    · rw [hr]
      refine Or.inr ⟨_, b, rfl, ?_, hb⟩
      split <;> omega

theorem add_NN (x y : F64) (hx : x = .posInf ∨ ∃ a b, x = .fin a b ∧ 0 ≤ a ∧ 0 < b)
    (hy : y = .posInf ∨ ∃ a b, y = .fin a b ∧ 0 ≤ a ∧ 0 < b) :
    F64.add x y = .posInf ∨ ∃ a b, F64.add x y = .fin a b ∧ 0 ≤ a ∧ 0 < b := by
  rcases hx with rfl | ⟨a, b, rfl, ha, hb⟩ <;> rcases hy with rfl | ⟨c, d, rfl, hc, hd⟩
  · exact Or.inl rfl
  · exact Or.inl rfl
  · exact Or.inl rfl
  · simp only [F64.add]
    have hnum : 0 ≤ a * d + c * b := by positivity
    rcases F64.round_spec (a * d + c * b) (b * d) with h | h | ⟨a1, b1, h, hb1, _, hneg⟩
    · exact Or.inl h.1
    · exact absurd h.2 (by omega)
    · refine Or.inr ⟨a1, b1, h, ?_, hb1⟩
      by_contra hlt
      have := hneg (by omega)
      omega

theorem entropySum_NN (p q : Int) (l : List NodeInfo)
    (hl : ∀ n ∈ l, isInt64 n.Available.MilliCPU) :
    ∀ acc : F64, (acc = .posInf ∨ ∃ a b, acc = .fin a b ∧ 0 ≤ a ∧ 0 < b) →
      (entropySum (.fin p q) acc l = .posInf ∨
        ∃ a b, entropySum (.fin p q) acc l = .fin a b ∧ 0 ≤ a ∧ 0 < b) := by
  induction l with
  | nil => intro acc h; exact h
  | cons n rest ih =>
    intro acc h
    unfold entropySum
    rw [List.foldl_cons]
    exact ih (fun m hm => hl m (List.mem_cons_of_mem _ hm)) _
      (add_NN _ _ h (distance_NN p q n (hl n (List.mem_cons_self _ _))))

/-- A value that two comparisons hold against is finite. -/
theorem F64.fin_of_between (x y z : F64) (h1 : F64.lt x y = true) (h2 : F64.gt z y = true) :
    ∃ p q, y = .fin p q := by
  cases y with
  | nan => cases x <;> simp [F64.lt] at h1
  | posInf => cases z <;> simp [F64.gt, F64.lt] at h2
  | negInf => cases x <;> simp [F64.lt] at h1
  | fin p q => exact ⟨p, q, rfl⟩

theorem F64.nan_add (x : F64) : F64.add .nan x = .nan := by
  cases x <;> rfl

theorem F64.add_nan (x : F64) : F64.add x .nan = .nan := by
  cases x <;> rfl

theorem entropySum_nan_acc (pivot : F64) (l : List NodeInfo) :
    entropySum pivot .nan l = .nan := by
  induction l with
  | nil => rfl
  | cons n rest ih =>
    unfold entropySum at ih ⊢
    rw [List.foldl_cons, F64.nan_add]
    exact ih

theorem entropySum_nan_pivot (acc : F64) (n : NodeInfo) (rest : List NodeInfo) :
    entropySum .nan acc (n :: rest) = .nan := by
  unfold entropySum
  rw [List.foldl_cons]
  have : F64.add acc (F64.abs (F64.sub F64.nan (GetCpuMemoryRatio n))) = .nan := by
    have h1 : F64.sub F64.nan (GetCpuMemoryRatio n) = .nan := F64.nan_add _
    rw [h1]
    exact F64.add_nan acc
  rw [this]
  exact entropySum_nan_acc _ rest

theorem F64.lt_of_not_ge (x y : F64) (hx : x = .posInf ∨ ∃ a b, x = .fin a b)
    (hy : y = .posInf ∨ ∃ a b, y = .fin a b) (h : F64.ge x y = false) : F64.lt x y = true := by
  rcases hx with rfl | ⟨a, b, rfl⟩ <;> rcases hy with rfl | ⟨c, d, rfl⟩
  · simp [F64.ge, F64.le] at h
  · simp [F64.ge, F64.le] at h
  · rfl
  · simp only [F64.ge, F64.le, decide_eq_false_iff_not, not_le] at h
    simp only [F64.lt, decide_eq_true_eq]
    exact h

theorem findKeyIdx_of_mem (s : List PodInfo) (p : PodInfo) (k : String) (hp : p ∈ s)
    (hk : GetPodKey p.Pod = some k) : ∃ i, findKeyIdx s k = some i := by
  induction s with
  | nil => simp at hp
  | cons q rest ih =>
    simp only [findKeyIdx]
    by_cases hq : GetPodKey q.Pod = some k
    · exact ⟨0, by rw [if_pos hq]⟩
    · rw [if_neg hq]
      rcases List.mem_cons.mp hp with rfl | hmem
      · exact absurd hk hq
      · obtain ⟨i, hi⟩ := ih hmem
        exact ⟨i + 1, by rw [hi]; rfl⟩

theorem RemovePod_present (g : Int) (n n1 : NodeInfo) (p : PodInfo) (e : Option RemoveErr)
    (hp : p ∈ n.Pods) (hk : (GetPodKey p.Pod).isSome)
    (h : n.RemovePod g p.Pod = .val (n1, e)) : e = none := by
  obtain ⟨k, hk⟩ := Option.isSome_iff_exists.mp hk
  obtain ⟨i, hi⟩ := findKeyIdx_of_mem n.Pods p k hp hk
  unfold NodeInfo.RemovePod at h
  rw [hk] at h
  simp only [hi] at h
  simp only [Run.val.injEq, Prod.mk.injEq] at h
  exact h.2.symm

theorem removePodAt_present (g : Int) (l l1 : List NodeInfo) (i : Nat) (n : NodeInfo)
    (p : PodInfo) (g1 : Int) (e : Option RemoveErr) (hn : l[i]? = some n) (hp : p ∈ n.Pods)
    (hk : (GetPodKey p.Pod).isSome) (h : removePodAt g l i p.Pod = .val (l1, g1, e)) :
    e = none := by
  unfold removePodAt at h
  rw [hn] at h
  simp only [] at h
  split at h
  · rename_i r hr
    simp only [Run.val.injEq, Prod.mk.injEq] at h
    obtain ⟨n1, e1⟩ := r
    rw [← h.2.2]
    exact RemovePod_present g n n1 p e1 hp hk hr
  · simp at h
  · simp at h

/-! ## Placement planner: proofs -/

theorem checkPlacementElibility_false_of_cpu (env : Env) (podInfo : PodInfo)
    (nodeInfos : List NodeInfo)
    (h : totalAvailableCpu nodeInfos < (CalculateResource podInfo.Pod).2.1) :
    checkPlacementElibility env podInfo nodeInfos = false := by
  unfold checkPlacementElibility
  unfold totalAvailableCpu at h
  simp only [CalculateResource] at h ⊢
  have : decide (List.foldl (fun acc n => add64 acc n.Available.MilliCPU) 0 nodeInfos ≥
      podInfo.Pod.Non0CPU) = false := by
    simp only [ge_iff_le, decide_eq_false_iff_not, not_le]
    exact h
  rw [this]
  simp

/-- When the `Available.MilliCPU` of the nodes sum to less than the non-zero CPU request of
the pod, the single-pod path `placeCapacity` returns `(nil, nil, false)` without a
`MigratePod` call and without touching the snapshot. -/
theorem placeCapacity_declines_when_cpu_short (env : Env) (fuel : Nat) (podInfo : PodInfo)
    (st : PState)
    (h : totalAvailableCpu st.nodeInfos < (CalculateResource podInfo.Pod).2.1) :
    placeCapacity env (fuel + 1) podInfo st = .val ((none, none, false), st) := by
  simp [placeCapacity, checkPlacementElibility_false_of_cpu env podInfo st.nodeInfos h]

theorem findFromNode_none (nodeName : String) (l : List NodeInfo)
    (h : ∀ n ∈ l, ∃ nm, n.GetName = .val nm ∧ nm ≠ nodeName) (i : Nat) :
    findFromNode nodeName l i none = .val none := by
  induction l generalizing i with
  | nil => rfl
  | cons n rest ih =>
    obtain ⟨nm, hnm, hne⟩ := h n (List.mem_cons_self _ _)
    simp only [findFromNode, hnm, hne, if_false]
    exact ih (fun m hm => h m (List.mem_cons_of_mem _ hm)) (i + 1)

theorem findToNode_first (env : Env) (placePodInfo : PodInfo) (l : List NodeInfo)
    (hnamed : ∀ n ∈ l, ∃ nm, n.GetName = .val nm ∧ nm ≠ placePodInfo.Pod.NodeName)
    (i : Nat) (n : NodeInfo) (hi : l[i]? = some n)
    (hfit : env.PodFitsCurrentNode placePodInfo.Pod n.Node = true ∧ hasRoom placePodInfo n = true)
    (hfirst : ∀ j, j < i → ∀ m, l[j]? = some m →
      ¬ (env.PodFitsCurrentNode placePodInfo.Pod m.Node = true ∧ hasRoom placePodInfo m = true))
    (k : Nat) :
    findToNode env placePodInfo l k = .val (some (k + i)) := by
  induction l generalizing i k with
  | nil => simp at hi
  | cons m rest ih =>
    obtain ⟨nm, hnm, hne⟩ := hnamed m (List.mem_cons_self _ _)
    cases i with
    | zero =>
      simp only [List.getElem?_cons_zero, Option.some.injEq] at hi
      subst hi
      simp only [findToNode, hnm]
      rw [if_neg, if_pos hfit.2]
      · rfl
      · rintro (h | h)
        · exact hne h.symm
        · rw [hfit.1] at h; exact absurd h (by simp)
    | succ i =>
      simp only [List.getElem?_cons_succ] at hi
      have hm := hfirst 0 (Nat.succ_pos i) m (by simp)
      have hrest := ih (fun x hx => hnamed x (List.mem_cons_of_mem _ hx)) i hi
        (fun j hj x hx => hfirst (j + 1) (Nat.succ_lt_succ hj) x (by simpa using hx)) (k + 1)
      simp only [findToNode, hnm]
      have hk : k + 1 + i = k + (i + 1) := by omega
      by_cases hc : placePodInfo.Pod.NodeName = nm ∨
          env.PodFitsCurrentNode placePodInfo.Pod m.Node = false
      · rw [if_pos hc, hrest, hk]
      · rw [if_neg hc]
        have hf : env.PodFitsCurrentNode placePodInfo.Pod m.Node = true := by
          cases hv : env.PodFitsCurrentNode placePodInfo.Pod m.Node with
          | true => rfl
          | false => exact absurd (Or.inr hv) hc
        have hr : hasRoom placePodInfo m = false := by
          cases hv : hasRoom placePodInfo m with
          | false => rfl
          | true => exact absurd ⟨hf, hv⟩ hm
        rw [hr]
        simp only [Bool.false_eq_true, if_false]
        rw [hrest, hk]

/-- For a pending pod (empty `spec.nodeName`) and a snapshot of named nodes that passes the
eligibility check and has a node which passes `PodFitsCurrentNode` and has room for the pod,
`computeNormalPlacement` reports a direct placement on the first such node, with no
`fromNode`, and `PlacePod` panics on the nil `fromNode`. -/
theorem PlacePod_panics_on_pending_direct_fit (env : Env) (fuel : Nat) (podInfo : PodInfo)
    (st : PState)
    (hpending : podInfo.Pod.NodeName = "")
    (hnamed : ∀ n ∈ st.nodeInfos, ∃ nm, n.GetName = .val nm ∧ nm ≠ "")
    (helig : checkPlacementElibility env podInfo st.nodeInfos = true)
    (i : Nat) (n : NodeInfo) (hi : st.nodeInfos[i]? = some n)
    (hfit : env.PodFitsCurrentNode podInfo.Pod n.Node = true ∧ hasRoom podInfo n = true)
    (hfirst : ∀ j, j < i → ∀ m, st.nodeInfos[j]? = some m →
      ¬ (env.PodFitsCurrentNode podInfo.Pod m.Node = true ∧ hasRoom podInfo m = true)) :
    computeNormalPlacement env podInfo st.nodeInfos = .val (none, some i, true) ∧
    PlacePod env (fuel + 1) podInfo st = .panic := by
  have hnamed1 : ∀ n ∈ st.nodeInfos, ∃ nm, n.GetName = .val nm ∧ nm ≠ podInfo.Pod.NodeName := by
    rw [hpending]; exact hnamed
  have hfrom := findFromNode_none podInfo.Pod.NodeName st.nodeInfos hnamed1 0
  have hto := findToNode_first env podInfo st.nodeInfos hnamed1 i n hi hfit hfirst 0
  rw [Nat.zero_add] at hto
  have hnormal : computeNormalPlacement env podInfo st.nodeInfos = .val (none, some i, true) := by
    unfold computeNormalPlacement
    rw [hfrom, hto]
    rfl
  refine ⟨hnormal, ?_⟩
  have hs : placeCapacity env (fuel + 1) podInfo st = .panic := by
    simp [placeCapacity, helig, hnormal, Run.bind, ptrNode, nodeAt]
  simp [PlacePod, hs, Run.bind]

theorem findNamed_valid (nodeName : String) (l : List NodeInfo) (i j : Nat)
    (h : findNamed nodeName l i = .val (some j)) : i ≤ j ∧ ∃ n, l[j - i]? = some n := by
  induction l generalizing i with
  | nil => simp [findNamed] at h
  | cons m rest ih =>
    simp only [findNamed] at h
    split at h
    · split at h
      · simp only [Run.val.injEq, Option.some.injEq] at h
        subst h
        exact ⟨Nat.le_refl _, m, by simp⟩
      · obtain ⟨hle, n, hn⟩ := ih (i + 1) h
        refine ⟨by omega, n, ?_⟩
        have : j - i = (j - (i + 1)) + 1 := by omega
        rw [this, List.getElem?_cons_succ]
        exact hn
    · simp at h
    · simp at h

theorem nodeAt_eq_some {nodeInfos : List NodeInfo} {p : Option Nat} {n : NodeInfo}
    (h : nodeAt nodeInfos p = some n) : ∃ t, p = some t ∧ nodeInfos[t]? = some n := by
  cases p with
  | none => simp [nodeAt] at h
  | some t => exact ⟨t, rfl, by simpa [nodeAt] using h⟩

theorem firstMultipleEligible_valid (placePodInfo : PodInfo) (nodeInfos : List NodeInfo)
    (names : List String) (idx : Option Nat) (pods : List PodInfo)
    (h : firstMultipleEligible placePodInfo nodeInfos names = .val (some (idx, pods))) :
    ∃ t n, idx = some t ∧ nodeInfos[t]? = some n := by
  induction names with
  | nil => simp [firstMultipleEligible] at h
  | cons name rest ih =>
    simp only [firstMultipleEligible] at h
    obtain ⟨found, _, h⟩ := Run.bind_eq_val h
    split at h
    · simp at h
    · rename_i nodeInfo hnode
      split at h
      · exact ih h
      · obtain ⟨ps, _, h⟩ := Run.bind_eq_val h
        simp only [Run.val.injEq, Option.some.injEq, Prod.mk.injEq] at h
        obtain ⟨t, ht, hn⟩ := nodeAt_eq_some hnode
        exact ⟨t, nodeInfo, by rw [← h.1, ht], hn⟩

theorem placeCapacity_target_valid (env : Env) (fuel : Nat) :
    ∀ (placePodInfo : PodInfo) (st : PState) (pod : Option PodInfo) (target : Option Nat)
      (st1 : PState),
      placeCapacity env fuel placePodInfo st = .val ((pod, target, true), st1) →
      ∃ t n, target = some t ∧ st.nodeInfos[t]? = some n := by
  induction fuel with
  | zero => intro _ _ _ _ _ h; simp [placeCapacity] at h
  | succ fuel ih =>
    intro placePodInfo st pod target st1 h
    simp only [placeCapacity] at h
    split at h
    · obtain ⟨⟨fromNode, toNode, direct⟩, _, h⟩ := Run.bind_eq_val h
      simp only [] at h
      split at h
      · cases fromNode with
        | none => simp [ptrNode, nodeAt] at h
        | some i =>
          cases hx : nodeAt st.nodeInfos (some i) with
          | none => simp [ptrNode, hx] at h
          | some n =>
            obtain ⟨t, ht, hnt⟩ := nodeAt_eq_some hx
            split at h
            · split at h
              · simp at h
              · obtain ⟨⟨ns, g, e⟩, _, h⟩ := Run.bind_eq_val h
                simp only [Run.val.injEq, Prod.mk.injEq] at h
                exact ⟨t, n, by rw [← h.1.2.1, ht], hnt⟩
            · simp at h
      · obtain ⟨names, _, h⟩ := Run.bind_eq_val h
        obtain ⟨e, _, h⟩ := Run.bind_eq_val h
        split at h
        · exact ih _ _ _ _ _ h
        · simp at h
    · simp at h

theorem placeCapacityWithMultipleMigration_target_valid (env : Env) (fuel : Nat)
    (placePodInfo : PodInfo) (st : PState) (pods : List PodInfo) (target : Option Nat)
    (st1 : PState)
    (h : placeCapacityWithMultipleMigration env fuel placePodInfo st =
      .val ((pods, target, true), st1)) :
    ∃ t n, target = some t ∧ st.nodeInfos[t]? = some n := by
  cases fuel with
  | zero => simp [placeCapacityWithMultipleMigration] at h
  | succ fuel =>
    simp only [placeCapacityWithMultipleMigration] at h
    split at h
    · obtain ⟨⟨fromNode, toNode, direct⟩, _, h⟩ := Run.bind_eq_val h
      simp only [] at h
      split at h
      · split at h
        · simp at h
        · obtain ⟨found, hfound, h⟩ := Run.bind_eq_val h
          split at h
          · rename_i i
            simp only [Run.val.injEq, Prod.mk.injEq] at h
            obtain ⟨_, n, hn⟩ := findNamed_valid _ _ _ _ hfound
            exact ⟨i, n, h.1.2.1.symm, by simpa using hn⟩
          · simp at h
      · obtain ⟨names, _, h⟩ := Run.bind_eq_val h
        obtain ⟨c, hc, h⟩ := Run.bind_eq_val h
        split at h
        · rename_i nodeInfo ps
          obtain ⟨st2, _, h⟩ := Run.bind_eq_val h
          simp only [Run.val.injEq, Prod.mk.injEq] at h
          obtain ⟨t, n, ht, hn⟩ := firstMultipleEligible_valid _ _ _ _ _ hc
          exact ⟨t, n, by rw [← h.1.2.1, ht], hn⟩
        · simp at h
    · simp at h

theorem placeCapacity_false_nodeInfos (env : Env) (fuel : Nat) :
    ∀ (placePodInfo : PodInfo) (st : PState) (pod : Option PodInfo) (target : Option Nat)
      (st1 : PState),
      placeCapacity env fuel placePodInfo st = .val ((pod, target, false), st1) →
      st1.nodeInfos = st.nodeInfos := by
  induction fuel with
  | zero => intro _ _ _ _ _ h; simp [placeCapacity] at h
  | succ fuel ih =>
    intro placePodInfo st pod target st1 h
    simp only [placeCapacity] at h
    split at h
    · obtain ⟨⟨fromNode, toNode, direct⟩, _, h⟩ := Run.bind_eq_val h
      simp only [] at h
      split at h
      · cases fromNode with
        | none => simp [ptrNode, nodeAt] at h
        | some i =>
          split at h
          · split at h
            · simp only [Run.val.injEq, Prod.mk.injEq] at h
              rw [← h.2]
            · obtain ⟨⟨ns, g, e⟩, _, h⟩ := Run.bind_eq_val h
              simp at h
          · simp at h
      · obtain ⟨names, _, h⟩ := Run.bind_eq_val h
        obtain ⟨e, _, h⟩ := Run.bind_eq_val h
        split at h
        · exact ih _ _ _ _ _ h
        · simp only [Run.val.injEq, Prod.mk.injEq] at h
          rw [← h.2]
    · simp only [Run.val.injEq, Prod.mk.injEq] at h
      rw [← h.2]

theorem PlacePod_target_valid (env : Env) (fuel : Nat) (podInfo : PodInfo) (st : PState)
    (migrated : List PodInfo) (target : Option Nat) (st1 : PState)
    (h : PlacePod env fuel podInfo st = .val ((migrated, target, true), st1)) :
    ∃ t n, target = some t ∧ st.nodeInfos[t]? = some n := by
  unfold PlacePod at h
  obtain ⟨⟨r, st0⟩, hr, h⟩ := Run.bind_eq_val h
  simp only [] at h
  obtain ⟨pod, tgt, ok⟩ := r
  cases ok with
  | true =>
    simp only [if_true, Run.val.injEq, Prod.mk.injEq] at h
    obtain ⟨t, n, ht, hn⟩ := placeCapacity_target_valid env fuel _ _ _ _ _ hr
    exact ⟨t, n, by rw [← h.1.2.1, ht], hn⟩
  | false =>
    simp only [Bool.false_eq_true, if_false] at h
    have hsame := placeCapacity_false_nodeInfos env fuel _ _ _ _ _ hr
    obtain ⟨⟨m, st2⟩, hm, h⟩ := Run.bind_eq_val h
    simp only [] at h
    obtain ⟨ps, tgt2, ok2⟩ := m
    cases ok2 with
    | true =>
      simp only [if_true, Run.val.injEq, Prod.mk.injEq] at h
      obtain ⟨t, n, ht, hn⟩ :=
        placeCapacityWithMultipleMigration_target_valid env fuel _ _ _ _ _ hm
      rw [hsame] at hn
      exact ⟨t, n, by rw [← h.1.2.1, ht], hn⟩
    | false => simp at h

/-! ## Node bookkeeping: removal of an absent pod -/

theorem findKeyIdx_none (s : List PodInfo) (k : String)
    (h : ∀ p ∈ s, GetPodKey p.Pod ≠ some k) : findKeyIdx s k = none := by
  induction s with
  | nil => rfl
  | cons q rest ih =>
    simp only [findKeyIdx]
    rw [if_neg (h q (List.mem_cons_self _ _)),
      ih (fun p hp => h p (List.mem_cons_of_mem _ hp))]
    rfl

/-- C17: on a `NodeInfo` with a node set, `RemovePod` of a pod whose key is the key of no entry
of `Pods` returns an error and leaves `Requested`, `NonZeroRequested`, `Allocatable`,
`Available`, `Pods` and `Generation` as they were. -/
theorem C17_remove_absent_pod_changes_nothing (generation : Int) (n : NodeInfo) (pod : Pod)
    (nd : Node) (hnode : n.node = some nd)
    (habsent : ∀ k, GetPodKey pod = some k → ∀ p ∈ n.Pods, GetPodKey p.Pod ≠ some k) :
    ∃ n1 e, n.RemovePod generation pod = .val (n1, some e) ∧
      n1.Requested = n.Requested ∧ n1.NonZeroRequested = n.NonZeroRequested ∧
      n1.Allocatable = n.Allocatable ∧ n1.Available = n.Available ∧ n1.Pods = n.Pods ∧
      n1.Generation = n.Generation := by
  unfold NodeInfo.RemovePod
  cases hk : GetPodKey pod with
  | none => exact ⟨n, .noKey, rfl, rfl, rfl, rfl, rfl, rfl, rfl⟩
  | some k =>
    simp only [findKeyIdx_none n.Pods k (habsent k hk), hnode]
    exact ⟨_, _, rfl, rfl, rfl, rfl, rfl, rfl, rfl⟩

set_option maxRecDepth 100000 in
/-- C17 on node a of scenario S1 (hosting X) and the absent pod Y. -/
theorem C17_remove_absent_pod_changes_nothing_witness :
    ∃ n1 e, (mkNodeInfo "a" 2000 (4096 * MiB) [podX]).RemovePod 7 podY = .val (n1, some e) ∧
      n1.Requested = (mkNodeInfo "a" 2000 (4096 * MiB) [podX]).Requested ∧
      n1.NonZeroRequested = (mkNodeInfo "a" 2000 (4096 * MiB) [podX]).NonZeroRequested ∧
      n1.Allocatable = (mkNodeInfo "a" 2000 (4096 * MiB) [podX]).Allocatable ∧
      n1.Available = (mkNodeInfo "a" 2000 (4096 * MiB) [podX]).Available ∧
      n1.Pods = (mkNodeInfo "a" 2000 (4096 * MiB) [podX]).Pods ∧
      n1.Generation = (mkNodeInfo "a" 2000 (4096 * MiB) [podX]).Generation :=
  C17_remove_absent_pod_changes_nothing 7 (mkNodeInfo "a" 2000 (4096 * MiB) [podX]) podY
    { Name := "a", Allocatable := { MilliCPU := 2000, Memory := 4096 * MiB } } (by decide)
    (by
      intro k hk p hp
      have hk' : k = "default/y" := by
        have : GetPodKey podY = some "default/y" := by decide
        rw [this] at hk
        exact (Option.some.inj hk).symm
      subst hk'
      have hp' : p = { Pod := podX } := by
        have : (mkNodeInfo "a" 2000 (4096 * MiB) [podX]).Pods = [{ Pod := podX }] := by decide
        rw [this] at hp
        simpa using hp
      subst hp'
      decide)

/-! ## Metrics: the ratio of a node -/

set_option maxRecDepth 100000 in
/-- C20, as stated, fails in two ways. With 3 milli-cores and 1.5 MiB available the integer
MiB count is 1, yet the ratio is `3 / 1.5 = 2`, not `3 / 1 = 3`. With one byte overcommitted
the floor of the MiB count is `-1`, yet the code truncates it to 0 and returns 1000000. -/
theorem C20_counterexample_fractional_mib :
    nodeFractionalMiB.Available.Memory / 1048576 = 1 ∧
    F64.le (GetCpuMemoryRatio nodeFractionalMiB) (F64.ofInt 2) = true ∧
    F64.ge (GetCpuMemoryRatio nodeFractionalMiB) (F64.ofInt 2) = true ∧
    F64.lt (GetCpuMemoryRatio nodeFractionalMiB) (F64.div (F64.ofInt 3) (F64.ofInt 1)) = true ∧
    nodeNegativeByte.Available.Memory / 1048576 = -1 ∧
    GetCpuMemoryRatio nodeNegativeByte = F64.ofInt 1000000 ∧
    F64.ofInt 1000000 = F64.fin 1000000 1 := by
  decide

theorem tdiv_le_self_of_nonneg {x : Int} (hx : 0 ≤ x) : Int.tdiv x 1048576 ≤ x := by
  rw [Int.tdiv_eq_ediv hx (by decide)]
  exact Int.ediv_le_self _ hx

theorem tdiv_isInt64 {x : Int} (h : isInt64 x) : isInt64 (Int.tdiv x 1048576) := by
  unfold isInt64 at *
  have h1 : (2 : Int) ^ 63 = 9223372036854775808 := by norm_num
  rw [h1] at h ⊢
  rcases Int.le_total 0 x with hx | hx
  · have := Int.tdiv_nonneg hx (by decide : (0 : Int) ≤ 1048576)
    have := tdiv_le_self_of_nonneg hx
    omega
  · have hneg : Int.tdiv x 1048576 = -(Int.tdiv (-x) 1048576) := by
      rw [Int.neg_tdiv, Int.neg_neg]
    have h0 : (0 : Int) ≤ -x := by omega
    have := Int.tdiv_nonneg h0 (by decide : (0 : Int) ≤ 1048576)
    have := tdiv_le_self_of_nonneg h0
    omega

/-- The MiB value of an `int64` byte count of at least `2 ^ 53` in magnitude does not convert
to the integer 0. -/
theorem toMBf_large (x : Int) (hx : isInt64 x) (h : 2 ^ 53 ≤ x.natAbs) :
    F64.toInt64 (toMBf x) ≠ 0 := by
  have h63 : (2 : Int) ^ 63 = 9223372036854775808 := by norm_num
  unfold isInt64 at hx
  rw [h63] at hx
  have hone : (1 : Int).toNat = 1 := rfl
  have hmb : (1048576 : Int).toNat = 2 ^ 20 := by decide
  have htd : ∀ q k : Nat, 2 ^ k ≤ q → 1 ≤ Int.tdiv (q : Int) ((2 ^ k : Nat) : Int) := by
    intro q k hqk
    have hpos : (0 : Int) < ((2 ^ k : Nat) : Int) := by
      have : 0 < 2 ^ k := Nat.pow_pos (by decide)
      omega
    rw [Int.tdiv_eq_ediv (by omega) (by omega), Int.le_ediv_iff_mul_le hpos]
    omega
  unfold toMBf
  rw [F64.ofInt_MB]
  unfold F64.ofInt
  rcases Int.le_total 0 x with h0 | h0
  · rw [F64.round_big x 1 (by omega)]
    obtain ⟨M, hM, hM1, hM2⟩ := F64.roundPos_large x.toNat 1 (by decide) (by omega) (by omega)
    rw [hone, hM]
    simp only [F64.div]
    rw [if_neg (by decide), if_pos (by decide), Int.mul_one, Int.one_mul]
    rw [F64.round_big _ _ (by omega)]
    simp only [Int.toNat_ofNat]
    obtain ⟨q, k, hq, hqk⟩ := F64.roundPos_mid M (2 ^ 20) (by decide) (by omega) (by omega)
    rw [hmb, hq]
    have := htd q k hqk
    simp only [F64.toInt64]
    split <;> omega
  · rw [F64.round_neg_big x 1 (by omega)]
    obtain ⟨M, hM, hM1, hM2⟩ := F64.roundPos_large (-x).toNat 1 (by decide) (by omega)
      (by omega)
    rw [hone, hM]
    simp only [F64.neg, F64.div]
    rw [if_neg (by decide), if_pos (by decide), Int.mul_one, Int.one_mul]
    rw [F64.round_neg_big _ _ (by omega)]
    simp only [Int.neg_neg, Int.toNat_ofNat]
    obtain ⟨q, k, hq, hqk⟩ := F64.roundPos_mid M (2 ^ 20) (by decide) (by omega) (by omega)
    rw [hmb, hq]
    have := htd q k hqk
    simp only [F64.neg, F64.toInt64, Int.neg_tdiv]
    split <;> omega

theorem tdiv_MB_ne_zero (x : Int) (h : 2 ^ 20 ≤ x.natAbs) : Int.tdiv x 1048576 ≠ 0 := by
  rcases Int.le_total 0 x with h0 | h0
  · have h1 : 1 ≤ Int.tdiv x 1048576 := by
      rw [Int.tdiv_eq_ediv h0 (by decide), Int.le_ediv_iff_mul_le (by decide)]
      omega
    omega
  · have hneg : Int.tdiv x 1048576 = -(Int.tdiv (-x) 1048576) := by
      rw [Int.neg_tdiv, Int.neg_neg]
    have h1 : 1 ≤ Int.tdiv (-x) 1048576 := by
      rw [Int.tdiv_eq_ediv (by omega) (by decide), Int.le_ediv_iff_mul_le (by decide)]
      omega
    omega

/-- C20, amended: for a node whose `Available.Memory` is an `int64`, with `m` the MiB count of
`Available.Memory` truncated toward zero, `GetCpuMemoryRatio` is 1000000 if `m = 0`; otherwise
0 if `Available.MilliCPU = 0`; otherwise the `float64` quotient of `Available.MilliCPU` by the
`float64` MiB value of `Available.Memory`, a fraction and not the integer `m`. Below `2 ^ 53`
bytes in magnitude (where a `float64` holds a byte count exactly) that MiB value is
`Available.Memory / 1048576` itself, and when `Available.MilliCPU` is below `2 ^ 53` in
magnitude too, the ratio is the `float64` nearest to `MilliCPU * 1048576 / Memory`. -/
theorem C20_ratio_by_cases (n : NodeInfo) (hmem : isInt64 n.Available.Memory) :
    GetCpuMemoryRatio n =
      (if Int.tdiv n.Available.Memory 1048576 = 0 then F64.ofInt 1000000
      else if n.Available.MilliCPU = 0 then F64.ofInt 0
      else F64.div (F64.ofInt n.Available.MilliCPU) (toMBf n.Available.Memory)) ∧
    (-(2 ^ 53) < n.Available.Memory ∧ n.Available.Memory < 2 ^ 53 →
      toMBf n.Available.Memory = F64.fin n.Available.Memory 1048576 ∧
      (-(2 ^ 53) < n.Available.MilliCPU ∧ n.Available.MilliCPU < 2 ^ 53 →
        Int.tdiv n.Available.Memory 1048576 ≠ 0 → n.Available.MilliCPU ≠ 0 →
        GetCpuMemoryRatio n =
          if 0 < n.Available.Memory then
            F64.round (n.Available.MilliCPU * 1048576) n.Available.Memory
          else F64.round (-(n.Available.MilliCPU * 1048576)) (-n.Available.Memory))) := by
  have hzero : F64.toInt64 (toMBf n.Available.Memory) = 0 ↔
      Int.tdiv n.Available.Memory 1048576 = 0 := by
    by_cases hs : n.Available.Memory.natAbs < 2 ^ 53
    · rw [toMBf_small _ hs, F64.toInt64_fin _ _ (tdiv_isInt64 hmem)]
    · have h1 := toMBf_large _ hmem (by omega)
      have h2 : Int.tdiv n.Available.Memory 1048576 ≠ 0 :=
        tdiv_MB_ne_zero _ (by omega)
      exact ⟨fun h => absurd h h1, fun h => absurd h h2⟩
  have h1 : GetCpuMemoryRatio n =
      (if Int.tdiv n.Available.Memory 1048576 = 0 then F64.ofInt 1000000
      else if n.Available.MilliCPU = 0 then F64.ofInt 0
      else F64.div (F64.ofInt n.Available.MilliCPU) (toMBf n.Available.Memory)) := by
    unfold GetCpuMemoryRatio
    by_cases hz : Int.tdiv n.Available.Memory 1048576 = 0
    · rw [if_pos (hzero.mpr hz), if_pos hz]
    · rw [if_neg (fun h => hz (hzero.mp h)), if_neg hz]
  refine ⟨h1, ?_⟩
  intro hm53
  have hsmall : n.Available.Memory.natAbs < 2 ^ 53 := by omega
  refine ⟨toMBf_small _ hsmall, ?_⟩
  intro hcpu hm hc
  rw [h1, if_neg hm, if_neg hc, F64.ofInt_small _ (by omega), toMBf_small _ hsmall]
  have hne : n.Available.Memory ≠ 0 := by
    intro h0
    apply hm
    rw [h0]
    decide
  simp only [F64.div, hne, if_false, Int.one_mul]

set_option maxRecDepth 100000 in
/-- C20, amended, on the node with 1000 milli-cores and 3 MiB available: the ratio is the
`float64` nearest to `1000 / 3`, which is `5864062014805333 / 2 ^ 44`
(333.3333333333333), below `1000 / 3`. -/
theorem C20_ratio_by_cases_witness :
    isInt64 nodeThirds.Available.Memory ∧
    (-(2 ^ 53) < nodeThirds.Available.Memory ∧ nodeThirds.Available.Memory < 2 ^ 53) ∧
    GetCpuMemoryRatio nodeThirds =
      F64.div (F64.ofInt 1000) (F64.fin 3145728 1048576) ∧
    GetCpuMemoryRatio nodeThirds = F64.round (1000 * 1048576) 3145728 ∧
    GetCpuMemoryRatio nodeThirds = F64.fin 5864062014805333 17592186044416 ∧
    (5864062014805333 : Int) * 3 < 1000 * 17592186044416 := by
  have h := C20_ratio_by_cases nodeThirds (by decide)
  have h3 := h.2 (by decide)
  have h2 := h3.2 (by decide) (by decide) (by decide)
  refine ⟨by decide, by decide, ?_, ?_, by decide, by decide⟩
  · have h1 := h.1
    rw [if_neg (by decide), if_neg (by decide), h3.1] at h1
    exact h1
  · rw [if_pos (by decide)] at h2
    exact h2

/-! ## Pod ordering -/

set_option maxRecDepth 100000 in
/-- C16 fails on the pods X (1500m, 1024 MiB), Z (600m, 512 MiB), Y (800m, 512 MiB): both
functions return the pods in the order they were given, which is sorted neither by CPU nor by
memory; it is the slice passed in that ends up sorted. -/
theorem C16_sort_returns_unsorted_copy :
    (SortPodsBasedOnCpu [{ Pod := podX }, { Pod := podZ }, { Pod := podY }]).1.map
      (fun p => getCpuRequests p.Pod) = [1500, 600, 800] ∧
    (SortPodsBasedOnCpu [{ Pod := podX }, { Pod := podZ }, { Pod := podY }]).2.map
      (fun p => getCpuRequests p.Pod) = [600, 800, 1500] ∧
    (SortPodsBasedOnMemory [{ Pod := podX }, { Pod := podZ }, { Pod := podY }]).1.map
      (fun p => getMemoryRequests p.Pod) = [1024 * MiB, 512 * MiB, 512 * MiB] ∧
    (SortPodsBasedOnMemory [{ Pod := podX }, { Pod := podZ }, { Pod := podY }]).2.map
      (fun p => getMemoryRequests p.Pod) = [512 * MiB, 512 * MiB, 1024 * MiB] := by
  decide

/-! ## Migration executor: proofs -/

set_option maxRecDepth 100000 in
/-- C12, as stated, fails for a pod owned by a replica set: the first API call of
`MigratePod` is the `Get` of the replica set that resolves its deployment, so the calls are
not a prefix of `GetScale, UpdateScale, Delete, UpdateScale`. -/
theorem C12_counterexample_replica_set_get :
    Executor.MigratePod apiOk [] podReplica (some nodeObjA) (some nodeObjB) false =
      .val
        ([.getReplicaSet "default" "web-1",
          .getScale "Deployment" "default" "web",
          .updateScale "Deployment" "default" "web" { ResourceVersion := "7", Replicas := 4 },
          .deletePod "default" "x" 0,
          .updateScale "Deployment" "default" "web" { ResourceVersion := "", Replicas := 3 }],
        false) := by
  decide

theorem Executor.wrap32_succ_pred (r : Int) (h : Executor.isInt32 r) :
    Executor.wrap32 (Executor.wrap32 (r + 1) - 1) = r := by
  unfold Executor.isInt32 at h
  have h1 : (2 : Int) ^ 31 = 2147483648 := by norm_num
  rw [h1] at h
  unfold Executor.wrap32
  rw [Int.bmod_sub_bmod_congr]
  have h2 : r + 1 - 1 = r := by omega
  rw [h2]
  unfold Int.bmod
  have h3 : ((2 ^ 32 : Nat) : Int) = 4294967296 := by norm_num
  rw [h3]
  simp only []
  split <;> omega

/-- The outcomes of the scale protocol run by `migrateScaled` after the calls `c0`: it stops
at the first failing call. -/
theorem Executor.migrateScaled_cases (api : Executor.Api) (c0 : List Executor.ApiCall)
    (kind : String) (controller : Executor.Controller) (pod : Pod) (isSwap : Bool) :
    (api.getScale c0 kind pod.Namespace controller.Name = none ∧
      Executor.migrateScaled api c0 kind controller pod isSwap =
        (c0 ++ [.getScale kind pod.Namespace controller.Name], true)) ∨
    ∃ s : Executor.Scale, api.getScale c0 kind pod.Namespace controller.Name = some s ∧
      ∃ get up del down : Executor.ApiCall,
        get = .getScale kind pod.Namespace controller.Name ∧
        up = .updateScale kind pod.Namespace controller.Name
          { s with Replicas := Executor.wrap32 (s.Replicas + 1) } ∧
        del = .deletePod pod.Namespace pod.Name 0 ∧
        down = .updateScale kind pod.Namespace controller.Name
          { ResourceVersion := "",
            Replicas := Executor.wrap32 (Executor.wrap32 (s.Replicas + 1) - 1) } ∧
        ((api.updateScale (c0 ++ [get]) kind pod.Namespace controller.Name
              { s with Replicas := Executor.wrap32 (s.Replicas + 1) } = true ∧
            Executor.migrateScaled api c0 kind controller pod isSwap = (c0 ++ [get, up], true)) ∨
          (api.updateScale (c0 ++ [get]) kind pod.Namespace controller.Name
              { s with Replicas := Executor.wrap32 (s.Replicas + 1) } = false ∧
            isSwap = false ∧
            api.deletePod (c0 ++ [get, up]) pod.Namespace pod.Name = true ∧
            Executor.migrateScaled api c0 kind controller pod isSwap =
              (c0 ++ [get, up, del], true)) ∨
          (api.updateScale (c0 ++ [get]) kind pod.Namespace controller.Name
              { s with Replicas := Executor.wrap32 (s.Replicas + 1) } = false ∧
            isSwap = false ∧
            api.deletePod (c0 ++ [get, up]) pod.Namespace pod.Name = false ∧
            Executor.migrateScaled api c0 kind controller pod isSwap =
              (c0 ++ [get, up, del, down],
                api.updateScale (c0 ++ [get, up, del]) kind pod.Namespace controller.Name
                  { ResourceVersion := "",
                    Replicas := Executor.wrap32 (Executor.wrap32 (s.Replicas + 1) - 1) })) ∨
          (api.updateScale (c0 ++ [get]) kind pod.Namespace controller.Name
              { s with Replicas := Executor.wrap32 (s.Replicas + 1) } = false ∧
            isSwap = true ∧
            Executor.migrateScaled api c0 kind controller pod isSwap =
              (c0 ++ [get, up, down],
                api.updateScale (c0 ++ [get, up]) kind pod.Namespace controller.Name
                  { ResourceVersion := "",
                    Replicas := Executor.wrap32 (Executor.wrap32 (s.Replicas + 1) - 1) }))) := by
  unfold Executor.migrateScaled
  cases hg : api.getScale c0 kind pod.Namespace controller.Name with
  | none => exact Or.inl ⟨rfl, rfl⟩
  | some s =>
    refine Or.inr ⟨s, rfl, _, _, _, _, rfl, rfl, rfl, rfl, ?_⟩
    simp only []
    cases hu : api.updateScale (c0 ++ [Executor.ApiCall.getScale kind pod.Namespace controller.Name])
        kind pod.Namespace controller.Name
        { s with Replicas := Executor.wrap32 (s.Replicas + 1) } with
    | true => exact Or.inl ⟨rfl, by simp⟩
    | false =>
      refine Or.inr ?_
      cases isSwap with
      | true => exact Or.inr (Or.inr ⟨rfl, rfl, by simp⟩)
      | false =>
        cases hd : api.deletePod
            (c0 ++ [Executor.ApiCall.getScale kind pod.Namespace controller.Name,
              Executor.ApiCall.updateScale kind pod.Namespace controller.Name
                { s with Replicas := Executor.wrap32 (s.Replicas + 1) }])
            pod.Namespace pod.Name with
        | true => exact Or.inl ⟨rfl, rfl, rfl, by simp [Executor.deletePod, hd]⟩
        | false => exact Or.inr (Or.inl ⟨rfl, rfl, rfl, by simp [Executor.deletePod, hd]⟩)

/-- The controller found by `MigratePod` for a pod whose first owner reference is a
replication controller or a replica set, and the calls made to find it. -/
theorem Executor.resolveController_scaled (api : Executor.Api) (calls : List Executor.ApiCall)
    (pod : Pod) (owner : OwnerReference) (rest : List OwnerReference)
    (hown : pod.OwnerReferences = owner :: rest)
    (hkind : owner.Kind = "ReplicationController" ∨ owner.Kind = "ReplicaSet") :
    ∃ kind name,
      (kind = "ReplicationController" ∨ kind = "ReplicaSet" ∨ kind = "Deployment") ∧
      Executor.resolveController api calls pod =
        (calls ++ (if owner.Kind = "ReplicaSet" then
            [Executor.ApiCall.getReplicaSet pod.Namespace owner.Name] else []),
          { controllerType := kind, Name := name }) := by
  unfold Executor.resolveController
  rw [hown]
  simp only []
  rcases hkind with h | h
  · rw [h]
    exact ⟨"ReplicationController", owner.Name, Or.inl rfl, by simp⟩
  · rw [h]
    simp only [show ("ReplicaSet" : String) ≠ "ReplicationController" by decide, if_false,
      if_true]
    cases api.getReplicaSet calls pod.Namespace owner.Name with
    | none => exact ⟨"ReplicaSet", owner.Name, Or.inr (Or.inl rfl), rfl⟩
    | some rsOwners =>
      simp only []
      cases List.find? (fun rsOwner => decide (rsOwner.Kind = "Deployment")) rsOwners with
      | none => exact ⟨"ReplicaSet", owner.Name, Or.inr (Or.inl rfl), rfl⟩
      | some rsOwner => exact ⟨"Deployment", rsOwner.Name, Or.inr (Or.inr rfl), rfl⟩

/-- C12, amended: for a pod whose first owner reference is a replication controller or a
replica set and a non-nil `fromNode`, `MigratePod` first issues, for a replica set, the `Get`
that resolves its deployment, and then a prefix of `GetScale`, `UpdateScale` (replicas
`r + 1`), `Delete` of the pod (only when `isSwap` is false), `UpdateScale` (replicas `r`,
resource version cleared) on the resolved controller: it stops at the first failing call and
returns its error, `r` is the replica count read by `GetScale`, and when `isSwap` is true
only the `Delete` is left out, the scale-down being written right after the scale-up. -/
theorem C12_scale_protocol (api : Executor.Api) (calls : List Executor.ApiCall) (pod : Pod)
    (owner : OwnerReference) (rest : List OwnerReference) (fromNode : Node)
    (toNode : Option Node) (isSwap : Bool)
    (hown : pod.OwnerReferences = owner :: rest)
    (hkind : owner.Kind = "ReplicationController" ∨ owner.Kind = "ReplicaSet") :
    ∃ (kind name : String) (c0 : List Executor.ApiCall),
      (kind = "ReplicationController" ∨ kind = "ReplicaSet" ∨ kind = "Deployment") ∧
      c0 = calls ++ (if owner.Kind = "ReplicaSet" then
        [Executor.ApiCall.getReplicaSet pod.Namespace owner.Name] else []) ∧
      ((api.getScale c0 kind pod.Namespace name = none ∧
          Executor.MigratePod api calls pod (some fromNode) toNode isSwap =
            .val (c0 ++ [.getScale kind pod.Namespace name], true)) ∨
        ∃ r : Executor.Scale, api.getScale c0 kind pod.Namespace name = some r ∧
          (Executor.isInt32 r.Replicas →
            Executor.wrap32 (Executor.wrap32 (r.Replicas + 1) - 1) = r.Replicas) ∧
          ∃ get up del down : Executor.ApiCall,
            get = .getScale kind pod.Namespace name ∧
            up = .updateScale kind pod.Namespace name
              { r with Replicas := Executor.wrap32 (r.Replicas + 1) } ∧
            del = .deletePod pod.Namespace pod.Name 0 ∧
            down = .updateScale kind pod.Namespace name
              { ResourceVersion := "",
                Replicas := Executor.wrap32 (Executor.wrap32 (r.Replicas + 1) - 1) } ∧
            ((api.updateScale (c0 ++ [get]) kind pod.Namespace name
                  { r with Replicas := Executor.wrap32 (r.Replicas + 1) } = true ∧
                Executor.MigratePod api calls pod (some fromNode) toNode isSwap =
                  .val (c0 ++ [get, up], true)) ∨
              (api.updateScale (c0 ++ [get]) kind pod.Namespace name
                  { r with Replicas := Executor.wrap32 (r.Replicas + 1) } = false ∧
                isSwap = false ∧
                api.deletePod (c0 ++ [get, up]) pod.Namespace pod.Name = true ∧
                Executor.MigratePod api calls pod (some fromNode) toNode isSwap =
                  .val (c0 ++ [get, up, del], true)) ∨
              (api.updateScale (c0 ++ [get]) kind pod.Namespace name
                  { r with Replicas := Executor.wrap32 (r.Replicas + 1) } = false ∧
                isSwap = false ∧
                api.deletePod (c0 ++ [get, up]) pod.Namespace pod.Name = false ∧
                Executor.MigratePod api calls pod (some fromNode) toNode isSwap =
                  .val (c0 ++ [get, up, del, down],
                    api.updateScale (c0 ++ [get, up, del]) kind pod.Namespace name
                      { ResourceVersion := "",
                        Replicas :=
                          Executor.wrap32 (Executor.wrap32 (r.Replicas + 1) - 1) })) ∨
              (api.updateScale (c0 ++ [get]) kind pod.Namespace name
                  { r with Replicas := Executor.wrap32 (r.Replicas + 1) } = false ∧
                isSwap = true ∧
                Executor.MigratePod api calls pod (some fromNode) toNode isSwap =
                  .val (c0 ++ [get, up, down],
                    api.updateScale (c0 ++ [get, up]) kind pod.Namespace name
                      { ResourceVersion := "",
                        Replicas :=
                          Executor.wrap32 (Executor.wrap32 (r.Replicas + 1) - 1) })))) := by
  obtain ⟨kind, name, hk, hres⟩ :=
    Executor.resolveController_scaled api calls pod owner rest hown hkind
  refine ⟨kind, name, _, hk, rfl, ?_⟩
  have hrun : Executor.MigratePod api calls pod (some fromNode) toNode isSwap =
      .val (Executor.migrateScaled api
        (calls ++ (if owner.Kind = "ReplicaSet" then
          [Executor.ApiCall.getReplicaSet pod.Namespace owner.Name] else []))
        kind { controllerType := kind, Name := name } pod isSwap) := by
    unfold Executor.MigratePod
    simp only [hres]
    rcases hk with h | h | h <;> subst h <;> simp
  rw [hrun]
  rcases Executor.migrateScaled_cases api
      (calls ++ (if owner.Kind = "ReplicaSet" then
        [Executor.ApiCall.getReplicaSet pod.Namespace owner.Name] else []))
      kind { controllerType := kind, Name := name } pod isSwap with h | ⟨s, hs, h⟩
  · exact Or.inl ⟨h.1, by rw [h.2]⟩
  · refine Or.inr ⟨s, hs, Executor.wrap32_succ_pred s.Replicas, ?_⟩
    obtain ⟨get, up, del, down, hget, hup, hdel, hdown, hcases⟩ := h
    refine ⟨get, up, del, down, hget, hup, hdel, hdown, ?_⟩
    rcases hcases with h | h | h | h
    · exact Or.inl ⟨h.1, by rw [h.2]⟩
    · exact Or.inr (Or.inl ⟨h.1, h.2.1, h.2.2.1, by rw [h.2.2.2]⟩)
    · exact Or.inr (Or.inr (Or.inl ⟨h.1, h.2.1, h.2.2.1, by rw [h.2.2.2]⟩))
    · exact Or.inr (Or.inr (Or.inr ⟨h.1, h.2.1, by rw [h.2.2]⟩))

set_option maxRecDepth 100000 in
/-- C12, amended, on a replica of the replica set `web-1` of the deployment `web` (3
replicas), moved in a swap on an API server where every call succeeds: the replica set is
read, the scale of the deployment is read, written with 4 replicas and written back with 3
replicas; the pod is not deleted. -/
theorem C12_scale_protocol_witness :
    Executor.MigratePod apiOk [] podReplica (some nodeObjA) (some nodeObjB) true =
      .val
        ([.getReplicaSet "default" "web-1",
          .getScale "Deployment" "default" "web",
          .updateScale "Deployment" "default" "web" { ResourceVersion := "7", Replicas := 4 },
          .updateScale "Deployment" "default" "web" { ResourceVersion := "", Replicas := 3 }],
        false) ∧
    ∃ (kind name : String) (c0 : List Executor.ApiCall),
      (kind = "ReplicationController" ∨ kind = "ReplicaSet" ∨ kind = "Deployment") ∧
      c0 = ([] : List Executor.ApiCall) ++ (if ({ Kind := "ReplicaSet", Name := "web-1" } : OwnerReference).Kind = "ReplicaSet" then
        [Executor.ApiCall.getReplicaSet podReplica.Namespace ({ Kind := "ReplicaSet", Name := "web-1" } : OwnerReference).Name] else []) ∧
      ((apiOk.getScale c0 kind podReplica.Namespace name = none ∧
          Executor.MigratePod apiOk ([] : List Executor.ApiCall) podReplica (some nodeObjA)
                    (some nodeObjB) true =
            .val (c0 ++ [.getScale kind podReplica.Namespace name], true)) ∨
        ∃ r : Executor.Scale, apiOk.getScale c0 kind podReplica.Namespace name = some r ∧
          (Executor.isInt32 r.Replicas →
            Executor.wrap32 (Executor.wrap32 (r.Replicas + 1) - 1) = r.Replicas) ∧
          ∃ get up del down : Executor.ApiCall,
            get = .getScale kind podReplica.Namespace name ∧
            up = .updateScale kind podReplica.Namespace name
              { r with Replicas := Executor.wrap32 (r.Replicas + 1) } ∧
            del = .deletePod podReplica.Namespace podReplica.Name 0 ∧
            down = .updateScale kind podReplica.Namespace name
              { ResourceVersion := "",
                Replicas := Executor.wrap32 (Executor.wrap32 (r.Replicas + 1) - 1) } ∧
            ((apiOk.updateScale (c0 ++ [get]) kind podReplica.Namespace name
                  { r with Replicas := Executor.wrap32 (r.Replicas + 1) } = true ∧
                Executor.MigratePod apiOk ([] : List Executor.ApiCall) podReplica (some nodeObjA)
                    (some nodeObjB) true =
                  .val (c0 ++ [get, up], true)) ∨
              (apiOk.updateScale (c0 ++ [get]) kind podReplica.Namespace name
                  { r with Replicas := Executor.wrap32 (r.Replicas + 1) } = false ∧
                true = false ∧
                apiOk.deletePod (c0 ++ [get, up]) podReplica.Namespace podReplica.Name = true ∧
                Executor.MigratePod apiOk ([] : List Executor.ApiCall) podReplica (some nodeObjA)
                    (some nodeObjB) true =
                  .val (c0 ++ [get, up, del], true)) ∨
              (apiOk.updateScale (c0 ++ [get]) kind podReplica.Namespace name
                  { r with Replicas := Executor.wrap32 (r.Replicas + 1) } = false ∧
                true = false ∧
                apiOk.deletePod (c0 ++ [get, up]) podReplica.Namespace podReplica.Name = false ∧
                Executor.MigratePod apiOk ([] : List Executor.ApiCall) podReplica (some nodeObjA)
                    (some nodeObjB) true =
                  .val (c0 ++ [get, up, del, down],
                    apiOk.updateScale (c0 ++ [get, up, del]) kind podReplica.Namespace name
                      { ResourceVersion := "",
                        Replicas :=
                          Executor.wrap32 (Executor.wrap32 (r.Replicas + 1) - 1) })) ∨
              (apiOk.updateScale (c0 ++ [get]) kind podReplica.Namespace name
                  { r with Replicas := Executor.wrap32 (r.Replicas + 1) } = false ∧
                true = true ∧
                Executor.MigratePod apiOk ([] : List Executor.ApiCall) podReplica (some nodeObjA)
                    (some nodeObjB) true =
                  .val (c0 ++ [get, up, down],
                    apiOk.updateScale (c0 ++ [get, up]) kind podReplica.Namespace name
                      { ResourceVersion := "",
                        Replicas :=
                          Executor.wrap32 (Executor.wrap32 (r.Replicas + 1) - 1) })))) :=
  ⟨by decide,
    C12_scale_protocol apiOk [] podReplica { Kind := "ReplicaSet", Name := "web-1" } []
      nodeObjA (some nodeObjB) true rfl (Or.inr rfl)⟩

/-- C13: `SwapPods` runs `MigratePod(podA, nodeA, nodeB, true)` first. If it fails, its error
is returned and no further call is made. Otherwise `MigratePod(podB, nodeB, nodeA, true)`
runs; if it fails, its error is returned and no further call is made (nothing is undone for
`podA`). If both succeed, `SwapPods` returns `nil` and the only further calls are pod
deletions. -/
theorem C13_swap_order_and_errors (api : Executor.Api) (calls : List Executor.ApiCall)
    (podA podB : Pod) (nodeA nodeB : Option Node) :
    (∀ c1, Executor.MigratePod api calls podA nodeA nodeB true = .val (c1, true) →
      Executor.SwapPods api calls podA nodeA podB nodeB = .val (c1, true)) ∧
    (∀ c1 c2, Executor.MigratePod api calls podA nodeA nodeB true = .val (c1, false) →
      Executor.MigratePod api c1 podB nodeB nodeA true = .val (c2, true) →
      Executor.SwapPods api calls podA nodeA podB nodeB = .val (c2, true)) ∧
    (∀ c1 c2, Executor.MigratePod api calls podA nodeA nodeB true = .val (c1, false) →
      Executor.MigratePod api c1 podB nodeB nodeA true = .val (c2, false) →
      ∃ extra, Executor.SwapPods api calls podA nodeA podB nodeB = .val (c2 ++ extra, false) ∧
        ∀ c ∈ extra, c = .deletePod podA.Namespace podA.Name 0 ∨
          c = .deletePod podB.Namespace podB.Name 0) := by
  refine ⟨?_, ?_, ?_⟩
  · intro c1 h
    simp [Executor.SwapPods, h, Run.bind]
  · intro c1 c2 h1 h2
    simp [Executor.SwapPods, h1, h2, Run.bind]
  · intro c1 c2 h1 h2
    refine ⟨(Executor.deleteIfReplicated api
        (Executor.deleteIfReplicated api c2 podB) podA).drop c2.length, ?_, ?_⟩
    · simp only [Executor.SwapPods, h1, h2, Run.bind, Bool.false_eq_true, if_false]
      congr 2
      unfold Executor.deleteIfReplicated Executor.deletePod
      split <;> split <;> simp
    · intro c hc
      unfold Executor.deleteIfReplicated Executor.deletePod at hc
      split at hc <;> split at hc <;> simp at hc
      · rcases hc with rfl | rfl
        · exact Or.inr rfl
        · exact Or.inl rfl
      · exact Or.inl hc
      · exact Or.inr hc

set_option maxRecDepth 100000 in
/-- C13 when every pod deletion fails: the migration of alpha fails at its `Delete`, which
stays the only call; beta is not touched. -/
theorem C13_swap_order_and_errors_witness :
    Executor.SwapPods apiNoDelete [] podAlpha.Pod (some nodeObjA) podBeta.Pod (some nodeObjB) =
      .val ([.deletePod "default" "alpha" 0], true) :=
  (C13_swap_order_and_errors apiNoDelete [] podAlpha.Pod podBeta.Pod (some nodeObjA)
    (some nodeObjB)).1 [.deletePod "default" "alpha" 0] (by decide)

/-- The match-expression list of the last preferred term after `SetNewPreferredPodAffinity`,
and the terms before it. -/
theorem preferredTerms_SetNewPreferredPodAffinity (pod : Pod) (toNode : String) :
    (SetNewPreferredPodAffinity pod toNode).preferredTerms =
      (match pod.preferredTerms.getLast? with
      | none =>
        [{ Weight := 1, Preference := { MatchExpressions := [hostNameRequirement toNode] } }]
      | some last =>
        pod.preferredTerms.dropLast ++
          [{ last with
              Preference :=
                { last.Preference with
                  MatchExpressions :=
                    last.Preference.MatchExpressions ++ [hostNameRequirement toNode] } }]) ∧
    (SetNewPreferredPodAffinity pod toNode).requiredTerms = pod.requiredTerms ∧
    { SetNewPreferredPodAffinity pod toNode with Affinity := pod.Affinity } = pod := by
  refine ⟨?_, rfl, rfl⟩
  unfold SetNewPreferredPodAffinity Pod.preferredTerms
  simp only [Option.getD_some]
  cases hl : ((pod.Affinity.getD {}).NodeAffinity.getD
      {}).PreferredDuringSchedulingIgnoredDuringExecution with
  | nil => simp [appendToLastPreferred]
  | cons t ts =>
    have hne : (t :: ts).length ≠ 0 := by simp
    simp only [hne, if_false]
    unfold appendToLastPreferred
    cases hlast : (t :: ts).getLast? with
    | none => simp at hlast
    | some last => rfl

/-- C14: for a pod with no owner reference, a non-nil `fromNode` and a non-nil `toNode`,
`MigratePod` deletes the pod with grace period 0; if the deletion fails it returns the error
and creates nothing; otherwise it creates, in the same namespace, a pod that equals the
original except that `resourceVersion`, `UID` and `spec.nodeName` are empty, the status is
reset and, exactly when `isSwap` is true, the match-expression with key
`kubernetes.io/hostname`, operator `In` and the single value `toNode.Name` is appended to the
last preferred node-affinity term (a term of weight 1 being created when there is none). -/
theorem C14_bare_pod_delete_then_create (api : Executor.Api) (calls : List Executor.ApiCall)
    (pod : Pod) (fromNode toNode : Node) (isSwap : Bool) (hown : pod.OwnerReferences = []) :
    (api.deletePod calls pod.Namespace pod.Name = true →
      Executor.MigratePod api calls pod (some fromNode) (some toNode) isSwap =
        .val (calls ++ [.deletePod pod.Namespace pod.Name 0], true)) ∧
    (api.deletePod calls pod.Namespace pod.Name = false →
      ∃ created : Pod,
        Executor.MigratePod api calls pod (some fromNode) (some toNode) isSwap =
          .val (calls ++ [.deletePod pod.Namespace pod.Name 0, .createPod pod.Namespace created],
            api.createPod (calls ++ [.deletePod pod.Namespace pod.Name 0]) pod.Namespace
              created) ∧
        created.ResourceVersion = "" ∧ created.UID = "" ∧ created.NodeName = "" ∧
        created.Status = {} ∧
        { created with
          ResourceVersion := pod.ResourceVersion, UID := pod.UID, NodeName := pod.NodeName,
          Status := pod.Status, Affinity := pod.Affinity } = pod ∧
        (isSwap = false → created.Affinity = pod.Affinity) ∧
        (isSwap = true →
          created.requiredTerms = pod.requiredTerms ∧
          created.preferredTerms =
            (match pod.preferredTerms.getLast? with
            | none =>
              [{ Weight := 1,
                 Preference :=
                   { MatchExpressions :=
                      [{ Key := "kubernetes.io/hostname", Operator := "In",
                         Values := [toNode.Name] }] } }]
            | some last =>
              pod.preferredTerms.dropLast ++
                [{ last with
                    Preference :=
                      { last.Preference with
                        MatchExpressions :=
                          last.Preference.MatchExpressions ++
                            [{ Key := "kubernetes.io/hostname", Operator := "In",
                               Values := [toNode.Name] }] } }]))) := by
  have hres : Executor.resolveController api calls pod = (calls, {}) := by
    unfold Executor.resolveController
    rw [hown]
  constructor
  · intro hdel
    unfold Executor.MigratePod
    simp [hres, Executor.deletePod, hdel]
  · intro hdel
    have hrun : Executor.MigratePod api calls pod (some fromNode) (some toNode) isSwap =
        .val (Executor.reSchedulePod api
          (calls ++ [Executor.ApiCall.deletePod pod.Namespace pod.Name 0]) pod toNode.Name
          isSwap) := by
      unfold Executor.MigratePod
      simp [hres, Executor.deletePod, hdel]
    rw [hrun]
    cases isSwap with
    | false =>
      exact ⟨{ pod with ResourceVersion := "", UID := "", NodeName := "", Status := {} },
        by unfold Executor.reSchedulePod; simp only [List.append_assoc, List.singleton_append]; rfl,
        rfl, rfl, rfl, rfl, rfl, fun _ => rfl, fun h => by simp at h⟩
    | true =>
      obtain ⟨hpref, hreq, hsame⟩ := preferredTerms_SetNewPreferredPodAffinity
        { pod with ResourceVersion := "", UID := "", NodeName := "" } toNode.Name
      exact ⟨{ SetNewPreferredPodAffinity
          { pod with ResourceVersion := "", UID := "", NodeName := "" } toNode.Name with
          Status := {} },
        by unfold Executor.reSchedulePod; simp only [List.append_assoc, List.singleton_append]; rfl,
        rfl, rfl, rfl, rfl, rfl, fun h => by simp at h, fun _ => ⟨hreq, hpref⟩⟩

set_option maxRecDepth 100000 in
/-- C14 on pod alpha, which has no affinity, moved to node b in a swap on an API server where
every call succeeds: a `Delete` with grace period 0, then the `Create` of the copy whose only
preferred term has weight 1 and the one match-expression `kubernetes.io/hostname In [b]`. -/
theorem C14_bare_pod_delete_then_create_witness :
    podAlpha.Pod.OwnerReferences = [] ∧
    apiOk.deletePod [] podAlpha.Pod.Namespace podAlpha.Pod.Name = false ∧
    ∃ created : Pod,
      Executor.MigratePod apiOk [] podAlpha.Pod (some nodeObjA) (some nodeObjB) true =
        .val ([.deletePod "default" "alpha" 0, .createPod "default" created], false) ∧
      created.ResourceVersion = "" ∧ created.UID = "" ∧ created.NodeName = "" ∧
      created.Status = {} ∧
      { created with
        ResourceVersion := podAlpha.Pod.ResourceVersion, UID := podAlpha.Pod.UID,
        NodeName := podAlpha.Pod.NodeName, Status := podAlpha.Pod.Status,
        Affinity := podAlpha.Pod.Affinity } = podAlpha.Pod ∧
      created.requiredTerms = none ∧
      created.preferredTerms =
        [{ Weight := 1,
           Preference :=
             { MatchExpressions :=
                [{ Key := "kubernetes.io/hostname", Operator := "In", Values := ["b"] }] } }] := by
  obtain ⟨created, hrun, h1, h2, h3, h4, h5, _, h7⟩ :=
    (C14_bare_pod_delete_then_create apiOk [] podAlpha.Pod nodeObjA nodeObjB true
      (by decide)).2 (by decide)
  exact ⟨by decide, by decide, created, hrun, h1, h2, h3, h4, h5, (h7 rfl).1, (h7 rfl).2⟩

/-! ## `BalanceWorkload` on a balanced cluster -/

theorem insertRev_length {α : Type} (less : α → α → Bool) (x : α) (r : List α) :
    (insertRev less x r).length = r.length + 1 := by
  induction r with
  | nil => rfl
  | cons y r ih =>
    simp only [insertRev]
    split
    · simp [ih]
    · simp

theorem mem_insertRev {α : Type} (less : α → α → Bool) (x y : α) (r : List α)
    (h : y ∈ insertRev less x r) : y = x ∨ y ∈ r := by
  induction r with
  | nil => simpa [insertRev] using h
  | cons z r ih =>
    simp only [insertRev] at h
    split at h
    · rcases List.mem_cons.mp h with h | h
      · exact Or.inr (h ▸ List.mem_cons_self _ _)
      · rcases ih h with h | h
        · exact Or.inl h
        · exact Or.inr (List.mem_cons_of_mem _ h)
    · rcases List.mem_cons.mp h with h | h
      · exact Or.inl h
      · exact Or.inr h

theorem sortSlice_fold_length {α : Type} (less : α → α → Bool) (l : List α) :
    ∀ acc : List α,
      (l.foldl (fun r x => insertRev less x r) acc).length = acc.length + l.length := by
  induction l with
  | nil => intro acc; rfl
  | cons x rest ih =>
    intro acc
    rw [List.foldl_cons, ih, insertRev_length, List.length_cons]
    omega

theorem sortSlice_fold_mem {α : Type} (less : α → α → Bool) (l : List α) :
    ∀ (acc : List α) (y : α), y ∈ l.foldl (fun r x => insertRev less x r) acc →
      y ∈ acc ∨ y ∈ l := by
  induction l with
  | nil => intro acc y h; exact Or.inl h
  | cons x rest ih =>
    intro acc y h
    rw [List.foldl_cons] at h
    rcases ih _ y h with h | h
    · rcases mem_insertRev less x y acc h with h | h
      · exact Or.inr (h ▸ List.mem_cons_self _ _)
      · exact Or.inl h
    · exact Or.inr (List.mem_cons_of_mem _ h)

theorem sortSlice_length {α : Type} (less : α → α → Bool) (l : List α) :
    (sortSlice less l).length = l.length := by
  unfold sortSlice
  rw [List.length_reverse, sortSlice_fold_length]
  simp

theorem mem_of_mem_sortSlice {α : Type} (less : α → α → Bool) (l : List α) (y : α)
    (h : y ∈ sortSlice less l) : y ∈ l := by
  unfold sortSlice at h
  rw [List.mem_reverse] at h
  rcases sortSlice_fold_mem less l [] y h with h | h
  · simp at h
  · exact h

theorem nodeIndex_of_lt (l : List NodeInfo) (i : Nat) (h : i < l.length) :
    ∃ n, nodeIndex l (i : Int) = .val n ∧ n ∈ l := by
  unfold nodeIndex
  have hneg : ¬ ((i : Int) < 0) := by omega
  rw [if_neg hneg, Int.toNat_ofNat, List.getElem?_eq_getElem h]
  exact ⟨l[i], rfl, List.getElem_mem h⟩

/-- The two counters of `isSchedulingDone`: a counter that reaches the number of nodes has
counted every node. -/
theorem schedulingCounts_all (pivotRatio : F64) (l : List NodeInfo) :
    ∀ c : Nat × Nat,
      let r := l.foldl
        (fun (c : Nat × Nat) n =>
          let v := F64.sub pivotRatio (GetCpuMemoryRatio n)
          if F64.gt v (F64.ofInt 0) then (c.1 + 1, c.2)
          else if F64.lt v (F64.ofInt 0) then (c.1, c.2 + 1)
          else c) c
      r.1 ≤ c.1 + l.length ∧ r.2 ≤ c.2 + l.length ∧
      (r.1 = c.1 + l.length → ∀ n ∈ l,
        F64.gt (F64.sub pivotRatio (GetCpuMemoryRatio n)) (F64.ofInt 0) = true) ∧
      (r.2 = c.2 + l.length → ∀ n ∈ l,
        F64.lt (F64.sub pivotRatio (GetCpuMemoryRatio n)) (F64.ofInt 0) = true) := by
  induction l with
  | nil => intro c; simp
  | cons x rest ih =>
    intro c
    simp only [List.foldl_cons, List.length_cons]
    by_cases hgt : F64.gt (F64.sub pivotRatio (GetCpuMemoryRatio x)) (F64.ofInt 0) = true
    · rw [if_pos hgt]
      obtain ⟨h1, h2, h3, h4⟩ := ih (c.1 + 1, c.2)
      simp only at h1 h2 h3 h4
      refine ⟨by omega, by omega, ?_, ?_⟩
      · intro heq n hn
        rcases List.mem_cons.mp hn with rfl | hn
        · exact hgt
        · exact h3 (by omega) n hn
      · intro heq
        omega
    · rw [if_neg hgt]
      by_cases hlt : F64.lt (F64.sub pivotRatio (GetCpuMemoryRatio x)) (F64.ofInt 0) = true
      · rw [if_pos hlt]
        obtain ⟨h1, h2, h3, h4⟩ := ih (c.1, c.2 + 1)
        simp only at h1 h2 h3 h4
        refine ⟨by omega, by omega, ?_, ?_⟩
        · intro heq
          omega
        · intro heq n hn
          rcases List.mem_cons.mp hn with rfl | hn
          · exact hlt
          · exact h4 (by omega) n hn
      · rw [if_neg hlt]
        obtain ⟨h1, h2, h3, h4⟩ := ih c
        simp only at h1 h2 h3 h4
        refine ⟨by omega, by omega, ?_, ?_⟩
        · intro heq
          omega
        · intro heq
          omega

theorem isSchedulingDone_sides (l : List NodeInfo) (pivotRatio : F64)
    (h : isSchedulingDone l pivotRatio = true) :
    (∀ n ∈ l, F64.gt (F64.sub pivotRatio (GetCpuMemoryRatio n)) (F64.ofInt 0) = true) ∨
    (∀ n ∈ l, F64.lt (F64.sub pivotRatio (GetCpuMemoryRatio n)) (F64.ofInt 0) = true) := by
  unfold isSchedulingDone at h
  obtain ⟨_, _, h3, h4⟩ := schedulingCounts_all pivotRatio l (0, 0)
  simp only [Nat.zero_add] at h3 h4
  simp only [Bool.or_eq_true, beq_iff_eq] at h
  rcases h with h | h
  · exact Or.inl (h3 h)
  · exact Or.inr (h4 h)

theorem F64.ofInt_zero : F64.ofInt 0 = .fin 0 1 := by decide

theorem F64.gt_eq_false_of_sub_pos (p r : F64)
    (h : F64.gt (F64.sub p r) (.fin 0 1) = true) : F64.gt r p = false := by
  cases p with
  | nan => cases r <;> simp [F64.gt, F64.sub, F64.neg, F64.add, F64.lt] at h
  | posInf => cases r <;> simp [F64.gt, F64.lt]
  | negInf => cases r <;> simp [F64.gt, F64.sub, F64.neg, F64.add, F64.lt] at h ⊢
  | fin c d =>
    cases r with
    | nan => simp [F64.gt, F64.sub, F64.neg, F64.add, F64.lt] at h
    | posInf => simp [F64.gt, F64.sub, F64.neg, F64.add, F64.lt] at h
    | negInf => simp [F64.gt, F64.lt]
    | fin a b =>
      simp only [F64.gt, F64.sub, F64.neg, F64.add] at h
      simp only [F64.gt, F64.lt, decide_eq_false_iff_not]
      have hnum : 0 < c * b + -a * d := by
        rcases F64.round_spec (c * b + -a * d) (d * b) with hr | hr | ⟨a1, b1, hr, _, hpos, _⟩
        · exact hr.2
        · rw [hr.1] at h; simp [F64.lt] at h
        · rw [hr] at h
          simp only [F64.lt, decide_eq_true_eq] at h
          exact hpos (by omega)
      rw [Int.neg_mul] at hnum
      generalize c * b = u at hnum ⊢
      generalize a * d = w at hnum ⊢
      omega

theorem F64.lt_eq_false_of_sub_neg (p r : F64)
    (h : F64.lt (F64.sub p r) (.fin 0 1) = true) : F64.lt r p = false := by
  cases p with
  | nan => cases r <;> simp [F64.sub, F64.neg, F64.add, F64.lt] at h
  | posInf => cases r <;> simp [F64.sub, F64.neg, F64.add, F64.lt] at h ⊢
  | negInf => cases r <;> simp [F64.lt]
  | fin c d =>
    cases r with
    | nan => simp [F64.sub, F64.neg, F64.add, F64.lt] at h
    | posInf => simp [F64.lt]
    | negInf => simp [F64.sub, F64.neg, F64.add, F64.lt] at h
    | fin a b =>
      simp only [F64.sub, F64.neg, F64.add] at h
      simp only [F64.lt, decide_eq_false_iff_not]
      have hnum : c * b + -a * d < 0 := by
        rcases F64.round_spec (c * b + -a * d) (d * b) with hr | hr | ⟨a1, b1, hr, _, _, hneg⟩
        · rw [hr.1] at h; simp [F64.lt] at h
        · exact hr.2
        · rw [hr] at h
          simp only [F64.lt, decide_eq_true_eq] at h
          exact hneg (by omega)
      rw [Int.neg_mul] at hnum
      generalize c * b = u at hnum ⊢
      generalize a * d = w at hnum ⊢
      omega

theorem not_gt_of_sub_pos (pivotRatio : F64) (n : NodeInfo)
    (h : F64.gt (F64.sub pivotRatio (GetCpuMemoryRatio n)) (F64.ofInt 0) = true) :
    F64.gt (GetCpuMemoryRatio n) pivotRatio = false := by
  rw [F64.ofInt_zero] at h
  exact F64.gt_eq_false_of_sub_pos _ _ h

theorem not_lt_of_sub_neg (pivotRatio : F64) (n : NodeInfo)
    (h : F64.lt (F64.sub pivotRatio (GetCpuMemoryRatio n)) (F64.ofInt 0) = true) :
    F64.lt (GetCpuMemoryRatio n) pivotRatio = false := by
  rw [F64.ofInt_zero] at h
  exact F64.lt_eq_false_of_sub_neg _ _ h

/-- On a non-empty snapshot for which `isSchedulingDone(snapshot, GetPivotRatio(snapshot))`
holds, `BalanceWorkload` selects no pod pair, makes no API call and returns `nil`. -/
theorem BalanceWorkload_noop_when_done (api : Executor.Api) (fuel : Nat) (generation : Int)
    (calls : List Executor.ApiCall) (nodeInfos : List NodeInfo) (hne : nodeInfos ≠ [])
    (hdone : isSchedulingDone nodeInfos (GetPivotRatio nodeInfos) = true) :
    BalanceWorkload api (fuel + 1) generation calls nodeInfos =
      .val { choice := none, calls := calls, err := false, generation := generation } := by
  have hlen : (SortNodesBasedRatio nodeInfos).length = nodeInfos.length :=
    sortSlice_length _ _
  have hpos : 0 < nodeInfos.length := List.length_pos.mpr hne
  have hmem : ∀ n ∈ SortNodesBasedRatio nodeInfos, n ∈ nodeInfos :=
    fun n hn => mem_of_mem_sortSlice _ _ n hn
  obtain ⟨n0, hn0, hn0mem⟩ := nodeIndex_of_lt (SortNodesBasedRatio nodeInfos) 0 (by omega)
  obtain ⟨n1, hn1, hn1mem⟩ := nodeIndex_of_lt (SortNodesBasedRatio nodeInfos)
    ((SortNodesBasedRatio nodeInfos).length - 1) (by omega)
  have hcast : (((SortNodesBasedRatio nodeInfos).length - 1 : Nat) : Int) =
      ((SortNodesBasedRatio nodeInfos).length : Int) - 1 := by omega
  rw [hcast] at hn1
  have hn0' : nodeIndex (SortNodesBasedRatio nodeInfos) 0 = .val n0 := hn0
  have hloop : nodePairLoop (GetPivotRatio nodeInfos) (fuel + 1) generation
      (SortNodesBasedRatio nodeInfos) 0 (((SortNodesBasedRatio nodeInfos).length : Int) - 1) =
      .val (none, generation) := by
    simp only [nodePairLoop, hn0', hn1, Run.bind]
    rcases isSchedulingDone_sides nodeInfos _ hdone with hall | hall
    · have hgt := not_gt_of_sub_pos _ n1 (hall n1 (hmem n1 hn1mem))
      rw [hgt]
      split <;> rfl
    · have hlt := not_lt_of_sub_neg _ n0 (hall n0 (hmem n0 hn0mem))
      rw [hlt]
      rfl
  unfold BalanceWorkload
  simp only [hn0', hn1, hloop, Run.bind]

set_option maxRecDepth 100000 in
/-- C11 fails on the empty snapshot: `isSchedulingDone` holds for it, and `BalanceWorkload`
panics on `nodeInfos[leftNodeIndex]` instead of returning `nil`. On a non-empty snapshot for
which `isSchedulingDone` holds (here a single node) it selects no pair, calls nothing and
returns `nil`. -/
theorem C11_balance_panics_on_empty_snapshot :
    isSchedulingDone [] (GetPivotRatio []) = true ∧
    BalanceWorkload apiOk 10 0 [] [] = .panic ∧
    isSchedulingDone snapOneSide (GetPivotRatio snapOneSide) = true ∧
    BalanceWorkload apiOk 10 0 [] snapOneSide =
      .val { choice := none, calls := [], err := false, generation := 0 } := by
  decide

/-! ## Cantor pairing: proofs -/

theorem isqrtBits_spec : ∀ (k n acc : Nat), acc * acc ≤ n → n < (acc + 2 ^ k) * (acc + 2 ^ k) →
    isqrtBits k n acc * isqrtBits k n acc ≤ n ∧
    n < (isqrtBits k n acc + 1) * (isqrtBits k n acc + 1) := by
  intro k
  induction k with
  | zero => intro n acc h1 h2; simpa [isqrtBits] using ⟨h1, h2⟩
  | succ k ih =>
    intro n acc h1 h2
    simp only [isqrtBits]
    split
    · rename_i h
      apply ih _ _ h
      have : acc + 2 ^ k + 2 ^ k = acc + 2 ^ (k + 1) := by rw [pow_succ]; omega
      rw [this]; exact h2
    · rename_i h
      exact ih _ _ h1 (by omega)

theorem F64.sqrtSticky_spec (M : Nat) :
    ∃ r, r * r ≤ M ∧ M < (r + 1) * (r + 1) ∧ 2 * r ≤ F64.sqrtSticky M ∧
      F64.sqrtSticky M ≤ 2 * r + 1 := by
  have h := isqrtBits_spec (F64.bitLen M M / 2 + 1) M 0 (by simp) (by
    have h1 := F64.bitLen_lt M
    have h2 : 2 ^ F64.bitLen M M ≤ 2 ^ (2 * (F64.bitLen M M / 2 + 1)) :=
      Nat.pow_le_pow_right (by decide) (by omega)
    have h3 : (0 + 2 ^ (F64.bitLen M M / 2 + 1)) * (0 + 2 ^ (F64.bitLen M M / 2 + 1)) =
        2 ^ (2 * (F64.bitLen M M / 2 + 1)) := by
      rw [Nat.zero_add, ← pow_add]
      congr 1
      omega
    omega)
  refine ⟨isqrtBits (F64.bitLen M M / 2 + 1) M 0, h.1, h.2, ?_, ?_⟩
  · unfold F64.sqrtSticky
    simp only []
    split <;> omega
  · unfold F64.sqrtSticky
    simp only []
    split <;> omega

theorem wrap64_small {x : Int} (h0 : 0 ≤ x) (h1 : x < 2 ^ 62) : wrap64 x = x :=
  wrap64_of_isInt64 ⟨by omega, by omega⟩

theorem triangle_half (s : Int) (h0 : 0 ≤ s) (h1 : s < 2 ^ 25) :
    ∃ q : Int, s * (s + 1) = 2 * q ∧ 0 ≤ q ∧ q < 2 ^ 50 := by
  obtain ⟨r, hr⟩ := Int.even_mul_succ_self s
  refine ⟨r, by omega, ?_, ?_⟩
  · have : 0 ≤ s * (s + 1) := Int.mul_nonneg h0 (by omega)
    omega
  · have : s * (s + 1) ≤ (2 ^ 25 - 1) * 2 ^ 25 := by
      apply Int.mul_le_mul <;> omega
    omega

/-- On the numbers from an odd square `(2 * s + 1) ^ 2` to 8 below the next odd square the
expression of `depair` gives `s`, for `s < 2 ^ 25`: the rounded square root stays below
`2 * s + 3`. -/
theorem floorHalfSqrtPred_odd_square_nat (s m : Nat) (hs : s < 2 ^ 25)
    (hlo : (2 * s + 1) * (2 * s + 1) ≤ m) (hhi : m + 8 ≤ (2 * s + 3) * (2 * s + 3)) :
    floorHalfSqrtPred (m : Int) = (s : Int) := by
  have hss : s * s < 2 ^ 25 * 2 ^ 25 := Nat.mul_lt_mul'' hs hs
  have hexp1 : (2 * s + 1) * (2 * s + 1) = 4 * (s * s) + 4 * s + 1 := by ring
  have hexp3 : (2 * s + 3) * (2 * s + 3) = 4 * (s * s) + 12 * s + 9 := by ring
  have hm53 : m < 2 ^ 53 := by omega
  have hm0 : 0 < m := by omega
  unfold floorHalfSqrtPred
  rw [F64.ofInt_small (m : Int) (by simpa using hm53)]
  have hone : F64.ofInt 1 = .fin 1 1 := by decide
  have htwo : F64.ofInt 2 = .fin 2 1 := by decide
  rw [hone, htwo]
  -- the square root is the rounding of a fraction over 2 ^ 55
  have hsq : F64.sqrt (.fin (m : Int) 1) =
      F64.round (F64.sqrtSticky (m * 4 ^ 54) : Int) ((2 ^ 55 : Nat) : Int) := by
    simp only [F64.sqrt]
    rw [if_neg (by omega), if_neg (by omega)]
    simp only [Int.toNat_ofNat, Int.toNat_one, Nat.mul_one]
    norm_num
  rw [hsq]
  obtain ⟨r, hr1, hr2, hN1, hN2⟩ := F64.sqrtSticky_spec (m * 4 ^ 54)
  generalize F64.sqrtSticky (m * 4 ^ 54) = N at *
  -- the integer root lies between the two odd numbers, well below the upper one
  have hrlo : (2 * s + 1) * 2 ^ 54 ≤ r := by
    by_contra hc
    have hc1 : r + 1 ≤ (2 * s + 1) * 2 ^ 54 := by omega
    have h1 := Nat.mul_le_mul hc1 hc1
    have h2 : (2 * s + 1) * 2 ^ 54 * ((2 * s + 1) * 2 ^ 54) =
        (2 * s + 1) * (2 * s + 1) * 4 ^ 54 := by ring
    have h3 := Nat.mul_le_mul_right (4 ^ 54) hlo
    omega
  have hrT : r ≤ (2 * s + 3) * 2 ^ 54 := by
    by_contra hc
    have hc1 : (2 * s + 3) * 2 ^ 54 + 1 ≤ r := by omega
    have h1 := Nat.mul_le_mul hc1 hc1
    have h2 : ((2 * s + 3) * 2 ^ 54 + 1) * ((2 * s + 3) * 2 ^ 54 + 1) =
        (2 * s + 3) * (2 * s + 3) * 4 ^ 54 + 2 * ((2 * s + 3) * 2 ^ 54) + 1 := by ring
    have h3 := Nat.mul_le_mul_right (4 ^ 54) hhi
    omega
  have hrhi : r + 2 ^ 29 ≤ (2 * s + 3) * 2 ^ 54 := by
    by_contra hc
    have hc1 : (2 * s + 3) * 2 ^ 54 + 1 ≤ r + 2 ^ 29 := by omega
    have h1 := Nat.mul_le_mul hc1 hc1
    have h2 : ((2 * s + 3) * 2 ^ 54 + 1) * ((2 * s + 3) * 2 ^ 54 + 1) =
        (2 * s + 3) * (2 * s + 3) * 4 ^ 54 + 2 * ((2 * s + 3) * 2 ^ 54) + 1 := by ring
    have h4 : (r + 2 ^ 29) * (r + 2 ^ 29) = r * r + 2 ^ 30 * r + 2 ^ 58 := by ring
    have h3 := Nat.mul_le_mul_right (4 ^ 54) hhi
    have h5 : (m + 8) * 4 ^ 54 = m * 4 ^ 54 + 8 * 4 ^ 54 := by ring
    omega
  have hNlo : (2 * s + 1) * 2 ^ 55 ≤ N := by omega
  have hNhi : N + 2 ^ 30 ≤ (2 * s + 3) * 2 ^ 55 + 1 := by omega
  rw [F64.round_big _ _ (by omega)]
  simp only [Int.toNat_ofNat]
  obtain ⟨k, hk, hk1, hk2, hk3⟩ := F64.roundExp_range N (2 ^ 55) 0 27 (by norm_num)
    (by omega) (by omega) (by omega)
  rw [F64.roundPos_neg_exp N (2 ^ 55) k hk (by omega)]
  obtain ⟨hb1, hb2⟩ := F64.roundSig_bounds N (2 ^ 55) (-(k : Int)) (by norm_num)
  have hsn : F64.scaleNum N (-(k : Int)) = N * 2 ^ k := by
    unfold F64.scaleNum
    rw [if_neg (by omega)]
    simp
  have hsd : F64.scaleDen (2 ^ 55) (-(k : Int)) = 2 ^ 55 := by
    unfold F64.scaleDen
    rw [if_neg (by omega)]
  rw [hsn, hsd] at hb1 hb2
  generalize F64.roundSig N (2 ^ 55) (-(k : Int)) = q1 at *
  have hB1 : 2 ^ 26 ≤ 2 ^ k := Nat.pow_le_pow_right (by decide) (by omega)
  have hB2 : 2 ^ k ≤ 2 ^ 52 := Nat.pow_le_pow_right (by decide) (by omega)
  have hpow := F64.pow2_fast k (by omega)
  have hpow1 := F64.pow2_fast (k + 1) (by omega)
  have hBB : 2 ^ (k + 1) = 2 ^ k * 2 := pow_succ 2 k
  rw [hBB] at hpow1
  generalize 2 ^ k = B at *
  have hq53 : q1 ≤ 2 ^ 53 := by omega
  have hqlo : (2 * s + 1) * B ≤ q1 := by
    have h1 := Nat.mul_le_mul_right B hNlo
    have h2 : (2 * s + 1) * 2 ^ 55 * B = 2 ^ 56 * (s * B) + 2 ^ 55 * B := by ring
    have h3 : (2 * s + 1) * B = 2 * (s * B) + B := by ring
    omega
  have hqhi : q1 + 1 ≤ (2 * s + 3) * B := by
    have h1 := Nat.mul_le_mul_right B hNhi
    have h2 : (N + 2 ^ 30) * B = N * B + 2 ^ 30 * B := by ring
    have h3 : ((2 * s + 3) * 2 ^ 55 + 1) * B = 2 ^ 56 * (s * B) + 3 * 2 ^ 55 * B + B := by ring
    have h4 : (2 * s + 3) * B = 2 * (s * B) + 3 * B := by ring
    omega
  have hexpB : (2 * s + 1) * B = 2 * (s * B) + B := by ring
  have hexpB3 : (2 * s + 3) * B = 2 * (s * B) + 3 * B := by ring
  -- subtracting 1 and halving are exact
  have hsub : F64.sub (.fin (q1 : Int) (B : Int)) (.fin 1 1) = .fin ((q1 : Int) - B) B := by
    simp only [F64.sub, F64.neg, F64.add, Int.mul_one]
    have : (q1 : Int) + -1 * (B : Int) = (q1 : Int) - B := by ring
    rw [this]
    exact F64.round_fast _ _ hpow.1 hpow.2 (by omega)
  rw [hsub]
  have hdiv : F64.div (.fin ((q1 : Int) - B) B) (.fin 2 1) =
      .fin ((q1 : Int) - B) ((B * 2 : Nat) : Int) := by
    simp only [F64.div]
    rw [if_neg (by decide), if_pos (by decide), Int.mul_one]
    have : (B : Int) * 2 = ((B * 2 : Nat) : Int) := by push_cast; rfl
    rw [this]
    exact F64.round_fast _ _ hpow1.1 hpow1.2 (by omega)
  rw [hdiv]
  simp only [F64.floor]
  have hfl : ((q1 : Int) - B) / ((B * 2 : Nat) : Int) = (s : Int) := by
    have hpos : (0 : Int) < ((B * 2 : Nat) : Int) := by omega
    apply le_antisymm
    · have : ((q1 : Int) - B) / ((B * 2 : Nat) : Int) < (s : Int) + 1 := by
        rw [Int.ediv_lt_iff_lt_mul hpos]
        have h1 : ((s : Int) + 1) * ((B * 2 : Nat) : Int) = 2 * ((s * B : Nat) : Int) + 2 * B := by
          push_cast; ring
        rw [h1]
        omega
      omega
    · rw [Int.le_ediv_iff_mul_le hpos]
      have h1 : (s : Int) * ((B * 2 : Nat) : Int) = 2 * ((s * B : Nat) : Int) := by
        push_cast; ring
      rw [h1]
      omega
  rw [hfl]
  have hs64 : isInt64 (Int.tdiv (s : Int) 1) := by
    rw [Int.tdiv_one]
    exact ⟨by omega, by omega⟩
  rw [F64.toInt64_fin _ _ hs64, Int.tdiv_one]

theorem floorHalfSqrtPred_odd_square (s q b : Int) (h0 : 0 ≤ s) (h1 : s < 2 ^ 25)
    (hq : s * (s + 1) = 2 * q) (hb0 : 0 ≤ b) (hb : b ≤ s) :
    floorHalfSqrtPred (8 * (q + b) + 1) = s := by
  have hq0 : 0 ≤ s * (s + 1) := Int.mul_nonneg h0 (by omega)
  obtain ⟨n, hn⟩ : ∃ n : Nat, (n : Int) = s := ⟨s.toNat, Int.toNat_of_nonneg h0⟩
  obtain ⟨m, hm⟩ : ∃ m : Nat, (m : Int) = 8 * (q + b) + 1 :=
    ⟨(8 * (q + b) + 1).toNat, Int.toNat_of_nonneg (by omega)⟩
  have hexp : (2 * s + 1) * (2 * s + 1) = 4 * (s * (s + 1)) + 1 := by ring
  have hexp3 : (2 * s + 3) * (2 * s + 3) = 4 * (s * (s + 1)) + 8 * s + 9 := by ring
  have hlo : (2 * n + 1) * (2 * n + 1) ≤ m := by
    have : (((2 * n + 1) * (2 * n + 1) : Nat) : Int) ≤ (m : Int) := by
      push_cast
      rw [hn, hm, hexp]
      omega
    exact_mod_cast this
  have hhi : m + 8 ≤ (2 * n + 3) * (2 * n + 3) := by
    have : ((m + 8 : Nat) : Int) ≤ (((2 * n + 3) * (2 * n + 3) : Nat) : Int) := by
      push_cast
      rw [hn, hm, hexp3]
      omega
    exact_mod_cast this
  have hn25 : n < 2 ^ 25 := by
    have : (n : Int) < 2 ^ 25 := by rw [hn]; exact h1
    exact_mod_cast this
  rw [← hm, ← hn]
  exact floorHalfSqrtPred_odd_square_nat n m hn25 hlo hhi

theorem depair_triangle (a b q : Int) (ha : 0 ≤ a) (hb : 0 ≤ b) (hs : a + b < 2 ^ 25)
    (hq : (a + b) * (a + b + 1) = 2 * q) : depair (q + b) = [a, b] := by
  have hq0 : 0 ≤ (a + b) * (a + b + 1) := Int.mul_nonneg (by omega) (by omega)
  have hq1 : (a + b) * (a + b + 1) ≤ (2 ^ 25 - 1) * 2 ^ 25 := by
    apply Int.mul_le_mul <;> omega
  have h8 : mul64 8 (q + b) = 8 * (q + b) := wrap64_small (by omega) (by omega)
  have h81 : add64 (8 * (q + b)) 1 = 8 * (q + b) + 1 := wrap64_small (by omega) (by omega)
  have ht := floorHalfSqrtPred_odd_square (a + b) q b (by omega) hs hq hb (by omega)
  have h3 : add64 (a + b) 3 = a + b + 3 := wrap64_small (by omega) (by omega)
  have h1 : add64 (a + b) 1 = a + b + 1 := wrap64_small (by omega) (by omega)
  have hexp : (a + b) * (a + b + 3) = 2 * q + 2 * (a + b) := by
    have : (a + b) * (a + b + 3) = (a + b) * (a + b + 1) + 2 * (a + b) := by ring
    omega
  have hm3 : mul64 (a + b) (a + b + 3) = 2 * q + 2 * (a + b) := by
    unfold mul64; rw [hexp]; exact wrap64_small (by omega) (by omega)
  have hm1 : mul64 (a + b) (a + b + 1) = 2 * q := by
    unfold mul64; rw [hq]; exact wrap64_small (by omega) (by omega)
  have hd3 : Int.tdiv (2 * q + 2 * (a + b)) 2 = q + (a + b) := by
    rw [Int.tdiv_eq_ediv (by omega) (by decide)]; omega
  have hd1 : Int.tdiv (2 * q) 2 = q := by
    rw [Int.tdiv_eq_ediv (by omega) (by decide)]; omega
  have hx : sub64 (q + (a + b)) (q + b) = a := by
    unfold sub64
    have : q + (a + b) - (q + b) = a := by omega
    rw [this]; exact wrap64_small ha (by omega)
  have hy : sub64 (q + b) q = b := by
    unfold sub64
    have : q + b - q = b := by omega
    rw [this]; exact wrap64_small hb (by omega)
  unfold depair
  simp only [h8, h81, ht, h3, h1, hm3, hm1, hd3, hd1, hx, hy]

theorem Pair_result (a b q : Int) (ha : 0 ≤ a) (hb : 0 ≤ b) (hs : a + b < 2 ^ 25)
    (hq : (a + b) * (a + b + 1) = 2 * q) : Pair a b = q + b := by
  have hq0 : 0 ≤ (a + b) * (a + b + 1) := Int.mul_nonneg (by omega) (by omega)
  have hq1 : (a + b) * (a + b + 1) ≤ (2 ^ 25 - 1) * 2 ^ 25 := by
    apply Int.mul_le_mul <;> omega
  have h0 : add64 a b = a + b := wrap64_small (by omega) (by omega)
  have h1 : add64 (a + b) 1 = a + b + 1 := wrap64_small (by omega) (by omega)
  have hm1 : mul64 (a + b) (a + b + 1) = 2 * q := by
    unfold mul64; rw [hq]; exact wrap64_small (by omega) (by omega)
  have hres : F64.toInt64 (F64.add (F64.mul (F64.fin 1 2) (F64.ofInt (2 * q)))
      (F64.ofInt b)) = q + b := by
    rw [F64.ofInt_small (2 * q) (by omega), F64.ofInt_small b (by omega)]
    simp only [F64.mul, Int.one_mul, Int.mul_one]
    rw [F64.round_fast (2 * q) 2 (by decide) (by decide) (by omega)]
    simp only [F64.add, Int.mul_one]
    rw [F64.round_fast (2 * q + b * 2) 2 (by decide) (by decide) (by omega)]
    have : Int.tdiv (2 * q + b * 2) 2 = q + b := by
      rw [Int.tdiv_eq_ediv (by omega) (by decide)]; omega
    have h64 : isInt64 (Int.tdiv (2 * q + b * 2) 2) := by
      rw [this]
      exact ⟨by omega, by omega⟩
    rw [F64.toInt64_fin _ _ h64, this]
  unfold Pair
  rw [if_pos (Or.inl (by omega))]
  simp only [h0, h1, hm1, hres, depair_triangle a b q ha hb hs hq, if_true]

set_option maxRecDepth 1000000 in
/-- C15, as stated, fails past the range of the machine integers: for `a = 2 ^ 32`, `b = 0`
the product `(a + b) * (a + b + 1)` wraps to `2 ^ 32`, the round trip through `depair` does not
give back the input, and `Pair` returns the failure value `-1`. -/
theorem C15_counterexample_overflow :
    (0 : Int) ≤ 4294967296 ∧ Pair 4294967296 0 = -1 ∧
    Pair 4294967296 0 ≠ (4294967296 + 0) * (4294967296 + 0 + 1) / 2 + 0 := by
  decide

/-- C15, amended: for non-negative `a` and `b` with `a + b < 2 ^ 25`, `Pair a b` is
`(a + b) * (a + b + 1) / 2 + b`, is not the failure value `-1`, `depair` gives back `[a, b]`,
and `Pair` takes a different value on every other such pair. -/
theorem C15_pair_roundtrip_in_range (a b : Int) (ha : 0 ≤ a) (hb : 0 ≤ b)
    (hs : a + b < 2 ^ 25) :
    Pair a b = (a + b) * (a + b + 1) / 2 + b ∧ Pair a b ≠ -1 ∧
    depair (Pair a b) = [a, b] ∧
    ∀ c d : Int, 0 ≤ c → 0 ≤ d → c + d < 2 ^ 25 → Pair a b = Pair c d → a = c ∧ b = d := by
  obtain ⟨q, hq, hq0, _⟩ := triangle_half (a + b) (by omega) hs
  have hp := Pair_result a b q ha hb hs hq
  have hdep := depair_triangle a b q ha hb hs hq
  refine ⟨?_, ?_, ?_, ?_⟩
  · rw [hp, hq]
    omega
  · rw [hp]
    omega
  · rw [hp]
    exact hdep
  · intro c d hc hd hs2 h
    obtain ⟨r, hr, _, _⟩ := triangle_half (c + d) (by omega) hs2
    have h2 := depair_triangle c d r hc hd hs2 hr
    rw [← Pair_result c d r hc hd hs2 hr, ← h, hp, hdep] at h2
    simpa using h2

/-- C15, amended, at `a = 3`, `b = 4`. -/
theorem C15_pair_roundtrip_in_range_witness :
    Pair 3 4 = (3 + 4) * (3 + 4 + 1) / 2 + 4 ∧ Pair 3 4 ≠ -1 ∧
    depair (Pair 3 4) = [3, 4] ∧
    ∀ c d : Int, 0 ≤ c → 0 ≤ d → c + d < 2 ^ 25 → Pair 3 4 = Pair c d → 3 = c ∧ 4 = d :=
  C15_pair_roundtrip_in_range 3 4 (by decide) (by decide) (by decide)

/-! ## Node bookkeeping: scalar resources and request totals -/

theorem SMap.get?_set (m : SMap) (k r : String) (v : Int) :
    SMap.get? (SMap.set m k v) r = if k = r then some v else SMap.get? m r := by
  induction m with
  | nil => simp [SMap.set, SMap.get?]
  | cons e rest ih =>
    obtain ⟨k1, v1⟩ := e
    simp only [SMap.set]
    by_cases h1 : k1 = k
    · subst h1
      rw [if_pos rfl]
      simp only [SMap.get?]
      by_cases h2 : k1 = r
      · simp [h2]
      · simp [h2]
    · rw [if_neg h1]
      simp only [SMap.get?, ih]
      by_cases h2 : k1 = r
      · subst h2
        have : ¬ k = k1 := fun h => h1 h.symm
        simp [this]
      · simp [h2]

theorem SMap.get_set (m : SMap) (k r : String) (v : Int) :
    SMap.get (SMap.set m k v) r = if k = r then v else SMap.get m r := by
  unfold SMap.get
  rw [SMap.get?_set]
  split <;> rfl

theorem SMap.get_of_not_mem (src : SMap) (r : String) (h : r ∉ src.map Prod.fst) :
    SMap.get src r = 0 := by
  induction src with
  | nil => rfl
  | cons e rest ih =>
    obtain ⟨k, v⟩ := e
    simp only [List.map_cons, List.mem_cons, not_or] at h
    have hk : ¬ k = r := fun hh => h.1 hh.symm
    have := ih h.2
    unfold SMap.get at this ⊢
    simp only [SMap.get?, if_neg hk]
    exact this

theorem SMap.get_of_mem (src : SMap) (r : String) (q : Int)
    (hnodup : (src.map Prod.fst).Nodup) (h : (r, q) ∈ src) : SMap.get src r = q := by
  induction src with
  | nil => simp at h
  | cons e rest ih =>
    obtain ⟨k, v⟩ := e
    simp only [List.map_cons, List.nodup_cons] at hnodup
    rcases List.mem_cons.mp h with h | h
    · simp only [Prod.mk.injEq] at h
      obtain ⟨rfl, rfl⟩ := h
      simp [SMap.get, SMap.get?]
    · have hk : ¬ k = r := by
        intro hh
        subst hh
        exact hnodup.1 (List.mem_map.mpr ⟨(k, q), h, rfl⟩)
      have := ih hnodup.2 h
      unfold SMap.get at this ⊢
      simp only [SMap.get?, if_neg hk]
      exact this

/-- The loop `for k, q := range src { m[k] = f(m[k], q) }` changes `m[r]` by the entry of `r`
in `src`, and nothing else. -/
theorem SMap.get_foldl (f : Int → Int → Int) (src : SMap)
    (hnodup : (src.map Prod.fst).Nodup) (r : String) :
    ∀ m : SMap,
      SMap.get (src.foldl (fun acc e => acc.set e.1 (f (acc.get e.1) e.2)) m) r =
        if r ∈ src.map Prod.fst then f (SMap.get m r) (SMap.get src r) else SMap.get m r := by
  induction src with
  | nil => intro m; simp
  | cons e rest ih =>
    intro m
    obtain ⟨k, v⟩ := e
    have hnd := hnodup
    simp only [List.map_cons, List.nodup_cons] at hnd
    rw [List.foldl_cons, ih hnd.2]
    by_cases hr : r ∈ rest.map Prod.fst
    · have hk : ¬ k = r := by
        intro hh
        subst hh
        exact hnd.1 hr
      have hmem : r ∈ ((k, v) :: rest).map Prod.fst := by
        simp only [List.map_cons, List.mem_cons]
        exact Or.inr hr
      rw [if_pos hr, if_pos hmem, SMap.get_set, if_neg hk]
      congr 1
      unfold SMap.get
      simp only [SMap.get?, if_neg hk]
    · rw [if_neg hr, SMap.get_set]
      by_cases hk : k = r
      · subst hk
        have hmem : k ∈ ((k, v) :: rest).map Prod.fst := by simp
        rw [if_pos rfl, if_pos hmem]
        congr 1
        simp [SMap.get, SMap.get?]
      · have hmem : r ∉ ((k, v) :: rest).map Prod.fst := by
          simp only [List.map_cons, List.mem_cons, not_or]
          exact ⟨fun hh => hk hh.symm, hr⟩
        rw [if_neg hk, if_neg hmem]

theorem SMap.get_addAll (m src : SMap) (hnodup : (src.map Prod.fst).Nodup) (r : String) :
    SMap.get (m.addAll src) r =
      if r ∈ src.map Prod.fst then add64 (SMap.get m r) (SMap.get src r) else SMap.get m r :=
  SMap.get_foldl add64 src hnodup r m

theorem SMap.get_subAll (m src : SMap) (hnodup : (src.map Prod.fst).Nodup) (r : String) :
    SMap.get (m.subAll src) r =
      if r ∈ src.map Prod.fst then sub64 (SMap.get m r) (SMap.get src r) else SMap.get m r :=
  SMap.get_foldl sub64 src hnodup r m

theorem sub64_add64_cancel (x q : Int) (hx : isInt64 x) : sub64 (add64 x q) q = x := by
  unfold sub64 add64 wrap64
  rw [Int.bmod_sub_bmod_congr]
  have : x + q - q = x := by omega
  rw [this]
  exact wrap64_of_isInt64 hx

theorem findKeyIdx_append_self (s : List PodInfo) (p : PodInfo) (k : String)
    (hk : GetPodKey p.Pod = some k) : ∃ i, findKeyIdx (s ++ [p]) k = some i :=
  findKeyIdx_of_mem (s ++ [p]) p k (by simp) hk

/-- C19: for a pod `p` that has a key and whose scalar requests form a map, on a node whose
`Requested` scalars are `int64` values, `AddPod(p)` followed by `RemovePod(p)` succeeds and
restores `Requested.ScalarResources` (absent keys read as 0) at every resource name, while
`RemovePod` leaves `Available.ScalarResources` and `NonZeroRequested.ScalarResources` as
`AddPod` made them: for every scalar resource `r` requested by `p` with quantity `q`,
`Available.ScalarResources[r]` is lower by `q` and `NonZeroRequested.ScalarResources[r]` higher
by `q` than before the `AddPod` (in `int64` arithmetic). -/
theorem C19_scalar_add_remove (generation : Int) (n : NodeInfo) (p : Pod) (k : String)
    (hk : GetPodKey p = some k)
    (hnodup : (p.Res.ScalarResources.map Prod.fst).Nodup)
    (hreq : ∀ r q, (r, q) ∈ p.Res.ScalarResources →
      isInt64 (n.Requested.ScalarResources.get r)) :
    ∃ n2, (n.AddPod generation p).RemovePod (n.AddPod generation p).Generation p =
        .val (n2, none) ∧
      (∀ r, n2.Requested.ScalarResources.get r = n.Requested.ScalarResources.get r) ∧
      n2.Available.ScalarResources = (n.AddPod generation p).Available.ScalarResources ∧
      n2.NonZeroRequested.ScalarResources =
        (n.AddPod generation p).NonZeroRequested.ScalarResources ∧
      ∀ r q, (r, q) ∈ p.Res.ScalarResources →
        n2.Available.ScalarResources.get r = sub64 (n.Available.ScalarResources.get r) q ∧
        n2.NonZeroRequested.ScalarResources.get r =
          add64 (n.NonZeroRequested.ScalarResources.get r) q := by
  obtain ⟨i, hi⟩ := findKeyIdx_append_self n.Pods (NewPodInfo p) k hk
  have hpods : (n.AddPod generation p).Pods = n.Pods ++ [NewPodInfo p] := rfl
  unfold NodeInfo.RemovePod
  rw [hk]
  simp only [hpods, hi]
  refine ⟨_, rfl, ?_, rfl, rfl, ?_⟩
  · intro r
    show SMap.get ((n.Requested.ScalarResources.addAll p.Res.ScalarResources).subAll
      p.Res.ScalarResources) r = _
    rw [SMap.get_subAll _ _ hnodup, SMap.get_addAll _ _ hnodup]
    by_cases hr : r ∈ p.Res.ScalarResources.map Prod.fst
    · rw [if_pos hr, if_pos hr]
      obtain ⟨⟨r1, q⟩, hmem, rfl⟩ := List.mem_map.mp hr
      exact sub64_add64_cancel _ _ (hreq _ q hmem)
    · rw [if_neg hr, if_neg hr]
  · intro r q hmem
    have hr : r ∈ p.Res.ScalarResources.map Prod.fst := List.mem_map.mpr ⟨(r, q), hmem, rfl⟩
    have hq := SMap.get_of_mem _ r q hnodup hmem
    constructor
    · show SMap.get (n.Available.ScalarResources.subAll p.Res.ScalarResources) r = _
      rw [SMap.get_subAll _ _ hnodup, if_pos hr, hq]
    · show SMap.get (n.NonZeroRequested.ScalarResources.addAll p.Res.ScalarResources) r = _
      rw [SMap.get_addAll _ _ hnodup, if_pos hr, hq]

theorem findKeyIdx_some (s : List PodInfo) (k : String) :
    ∀ i, findKeyIdx s k = some i → ∃ q, s[i]? = some q ∧ GetPodKey q.Pod = some k := by
  induction s with
  | nil => intro i h; simp [findKeyIdx] at h
  | cons p rest ih =>
    intro i h
    simp only [findKeyIdx] at h
    by_cases hp : GetPodKey p.Pod = some k
    · rw [if_pos hp] at h
      cases h
      exact ⟨p, by simp, hp⟩
    · rw [if_neg hp] at h
      cases hr : findKeyIdx rest k with
      | none => rw [hr] at h; simp at h
      | some j =>
        rw [hr] at h
        simp only [Option.map_some', Option.some.injEq] at h
        subst h
        obtain ⟨q, hq, hkq⟩ := ih j hr
        exact ⟨q, by simpa using hq, hkq⟩

theorem perm_cons_set (x : PodInfo) (s : List PodInfo) :
    ∀ (i : Nat) (q : PodInfo), s[i]? = some q → (x :: s).Perm (q :: s.set i x) := by
  induction s with
  | nil => intro i q h; simp at h
  | cons a t ih =>
    intro i q h
    cases i with
    | zero =>
      simp only [List.getElem?_cons_zero, Option.some.injEq] at h
      subst h
      exact List.Perm.swap _ _ _
    | succ j =>
      simp only [List.getElem?_cons_succ] at h
      have h1 := ih j q h
      simp only [List.set_cons_succ]
      exact (List.Perm.swap a x t).trans ((h1.cons a).trans (List.Perm.swap q a _))

theorem set_length_concat (s : List PodInfo) (x : PodInfo) :
    (s ++ [x]).set s.length x = s ++ [x] := by
  induction s with
  | nil => rfl
  | cons a t ih => simp only [List.cons_append, List.length_cons, List.set_cons_succ, ih]

theorem set_concat_of_lt (s : List PodInfo) (x y : PodInfo) :
    ∀ i, i < s.length → (s ++ [x]).set i y = s.set i y ++ [x] := by
  induction s with
  | nil => intro i h; simp at h
  | cons a t ih =>
    intro i h
    cases i with
    | zero => rfl
    | succ j =>
      simp only [List.cons_append, List.set_cons_succ]
      rw [ih j (by simpa using h)]

theorem swapRemove_perm (s : List PodInfo) (i : Nat) (q : PodInfo) (h : s[i]? = some q) :
    s.Perm (q :: swapRemove s i) := by
  rcases List.eq_nil_or_concat s with rfl | ⟨init, last, hs⟩
  · simp at h
  · rw [List.concat_eq_append] at hs
    subst hs
    unfold swapRemove
    have hl : (init ++ [last]).getLast? = some last := by simp
    rw [hl]
    simp only []
    by_cases hi : i < init.length
    · rw [set_concat_of_lt init last last i hi, List.dropLast_concat]
      have hq : init[i]? = some q := by
        rw [List.getElem?_append_left hi] at h
        exact h
      exact (List.perm_append_comm).trans (perm_cons_set last init i q hq)
    · have hlen : i < (init ++ [last]).length := by
        by_contra hc
        rw [List.getElem?_eq_none (by omega)] at h
        simp at h
      have hi2 : i = init.length := by
        simp only [List.length_append, List.length_singleton] at hlen
        omega
      subst hi2
      rw [set_length_concat, List.dropLast_concat]
      have hq : q = last := by
        simp at h
        exact h.symm
      subst hq
      exact List.perm_append_comm

theorem add64_wrap64 (a x : Int) : add64 (wrap64 a) x = wrap64 (a + x) := by
  unfold add64 wrap64
  exact Int.bmod_add_bmod_congr

theorem sub64_wrap64 (a x : Int) : sub64 (wrap64 a) x = wrap64 (a - x) := by
  unfold sub64 wrap64
  exact Int.bmod_sub_bmod_congr

theorem RequestedInv_new (g : Int) : RequestedInv (NewNodeInfo g []) := by
  have h0 : (0 : Int) = wrap64 0 := by decide
  exact ⟨h0, h0, fun _ => h0, h0, h0⟩

theorem sum_map_concat (f : PodInfo → Int) (s : List PodInfo) (p : PodInfo) :
    ((s ++ [p]).map f).sum = (s.map f).sum + f p := by
  simp

theorem RequestedInv_AddPod (g : Int) (n : NodeInfo) (pod : Pod) (h : RequestedInv n)
    (hnodup : (pod.Res.ScalarResources.map Prod.fst).Nodup) :
    RequestedInv (n.AddPod g pod) := by
  obtain ⟨h1, h2, h3, h4, h5⟩ := h
  have hpods : (n.AddPod g pod).Pods = n.Pods ++ [NewPodInfo pod] := rfl
  unfold RequestedInv
  rw [hpods]
  simp only [sum_map_concat]
  refine ⟨?_, ?_, ?_, ?_, ?_⟩
  · show add64 n.Requested.MilliCPU pod.Res.MilliCPU = _
    rw [h1, add64_wrap64]; rfl
  · show add64 n.Requested.Memory pod.Res.Memory = _
    rw [h2, add64_wrap64]; rfl
  · intro r
    show SMap.get (n.Requested.ScalarResources.addAll pod.Res.ScalarResources) r =
      wrap64 (_ + SMap.get pod.Res.ScalarResources r)
    rw [SMap.get_addAll _ _ hnodup]
    by_cases hr : r ∈ pod.Res.ScalarResources.map Prod.fst
    · rw [if_pos hr, h3 r, add64_wrap64]
    · rw [if_neg hr, h3 r, SMap.get_of_not_mem _ r hr, Int.add_zero]
  · show add64 n.NonZeroRequested.MilliCPU pod.Non0CPU = _
    rw [h4, add64_wrap64]; rfl
  · show add64 n.NonZeroRequested.Memory pod.Non0Mem = _
    rw [h5, add64_wrap64]; rfl

theorem sum_map_swapRemove (f : PodInfo → Int) (s : List PodInfo) (i : Nat) (q : PodInfo)
    (h : s[i]? = some q) : (s.map f).sum = f q + ((swapRemove s i).map f).sum := by
  have := ((swapRemove_perm s i q h).map f).sum_eq
  simpa using this

theorem RequestedInv_RemovePod (g : Int) (n : NodeInfo) (pod : Pod) (k : String) (q : PodInfo)
    (h : RequestedInv n) (hk : GetPodKey pod = some k)
    (hq : firstWithKey n.Pods k = some q)
    (hsame : CalculateResource q.Pod = CalculateResource pod)
    (hnodup : (pod.Res.ScalarResources.map Prod.fst).Nodup) :
    ∃ n1, n.RemovePod g pod = .val (n1, none) ∧ RequestedInv n1 := by
  obtain ⟨h1, h2, h3, h4, h5⟩ := h
  unfold firstWithKey at hq
  cases hi : findKeyIdx n.Pods k with
  | none => rw [hi] at hq; simp at hq
  | some i =>
    rw [hi] at hq
    simp only [] at hq
    simp only [CalculateResource, Prod.mk.injEq] at hsame
    obtain ⟨hres, hcpu, hmem⟩ := hsame
    unfold NodeInfo.RemovePod
    rw [hk]
    simp only [hi]
    refine ⟨_, rfl, ?_, ?_, ?_, ?_, ?_⟩
    · show sub64 n.Requested.MilliCPU pod.Res.MilliCPU =
        wrap64 (((swapRemove n.Pods i).map fun p => p.Pod.Res.MilliCPU).sum)
      rw [h1, sub64_wrap64, sum_map_swapRemove _ n.Pods i q hq, hres]
      congr 1
      omega
    · show sub64 n.Requested.Memory pod.Res.Memory =
        wrap64 (((swapRemove n.Pods i).map fun p => p.Pod.Res.Memory).sum)
      rw [h2, sub64_wrap64, sum_map_swapRemove _ n.Pods i q hq, hres]
      congr 1
      omega
    · intro r
      show SMap.get (n.Requested.ScalarResources.subAll pod.Res.ScalarResources) r =
        wrap64 (((swapRemove n.Pods i).map fun p => p.Pod.Res.ScalarResources.get r).sum)
      rw [SMap.get_subAll _ _ hnodup, h3 r, sum_map_swapRemove _ n.Pods i q hq, hres]
      by_cases hr : r ∈ pod.Res.ScalarResources.map Prod.fst
      · rw [if_pos hr, sub64_wrap64]
        congr 1
        omega
      · rw [if_neg hr, SMap.get_of_not_mem _ r hr, Int.zero_add]
    · show sub64 n.NonZeroRequested.MilliCPU pod.Non0CPU =
        wrap64 (((swapRemove n.Pods i).map fun p => p.Pod.Non0CPU).sum)
      rw [h4, sub64_wrap64, sum_map_swapRemove _ n.Pods i q hq, hcpu]
      congr 1
      omega
    · show sub64 n.NonZeroRequested.Memory pod.Non0Mem =
        wrap64 (((swapRemove n.Pods i).map fun p => p.Pod.Non0Mem).sum)
      rw [h5, sub64_wrap64, sum_map_swapRemove _ n.Pods i q hq, hmem]
      congr 1
      omega

theorem RemovePod_removes_one (g : Int) (n n1 : NodeInfo) (pod : Pod)
    (h : n.RemovePod g pod = .val (n1, none)) :
    ∃ q, GetPodKey q.Pod = GetPodKey pod ∧ n.Pods.Perm (q :: n1.Pods) := by
  unfold NodeInfo.RemovePod at h
  cases hk : GetPodKey pod with
  | none => rw [hk] at h; simp at h
  | some k =>
    rw [hk] at h
    simp only [] at h
    cases hi : findKeyIdx n.Pods k with
    | some i =>
      rw [hi] at h
      simp only [Run.val.injEq, Prod.mk.injEq, and_true] at h
      obtain ⟨q, hq, hkq⟩ := findKeyIdx_some n.Pods k i hi
      refine ⟨q, hkq, ?_⟩
      rw [← h]
      exact swapRemove_perm n.Pods i q hq
    | none =>
      rw [hi] at h
      cases hn : n.node with
      | none => rw [hn] at h; simp at h
      | some nd => rw [hn] at h; simp at h

theorem runOps_RequestedInv (ops : List NodeOp) :
    ∀ (g : Int) (n : NodeInfo), RequestedInv n → admissible g n ops = true →
      ∃ n1 g1, runOps g n ops = .val (n1, g1) ∧ RequestedInv n1 := by
  induction ops with
  | nil => intro g n h _; exact ⟨n, g, rfl, h⟩
  | cons op rest ih =>
    intro g n h hadm
    cases op with
    | addPod pod =>
      simp only [admissible, Bool.and_eq_true, scalarKeysNodup, decide_eq_true_eq] at hadm
      simp only [runOps]
      exact ih _ _ (RequestedInv_AddPod g n pod h hadm.1) hadm.2
    | removePod pod =>
      simp only [admissible, Bool.and_eq_true, scalarKeysNodup, decide_eq_true_eq] at hadm
      obtain ⟨⟨hnodup, hfirst⟩, hrest⟩ := hadm
      cases hk : GetPodKey pod with
      | none => rw [hk] at hfirst; simp at hfirst
      | some k =>
        rw [hk] at hfirst
        simp only [] at hfirst
        cases hq : firstWithKey n.Pods k with
        | none => rw [hq] at hfirst; simp at hfirst
        | some q =>
          rw [hq] at hfirst
          simp only [decide_eq_true_eq] at hfirst
          obtain ⟨n1, hrun, hinv⟩ := RequestedInv_RemovePod g n pod k q h hk hq hfirst hnodup
          rw [hrun] at hrest
          simp only [runOps, hrun]
          exact ih _ _ hinv hrest

set_option maxRecDepth 100000 in
/-- C19 on the node a (2000m, 4096 MiB) hosting the `gpu` variant of alpha, and the pod
requesting two `gpu` and one `fpga`. -/
theorem C19_scalar_add_remove_witness :
    ∃ n2,
      ((mkNodeInfo "a" 2000 (4096 * MiB) [podAlphaGpu.Pod]).AddPod 9 podScalars).RemovePod
          ((mkNodeInfo "a" 2000 (4096 * MiB) [podAlphaGpu.Pod]).AddPod 9 podScalars).Generation
          podScalars = .val (n2, none) ∧
      (∀ r, n2.Requested.ScalarResources.get r =
        (mkNodeInfo "a" 2000 (4096 * MiB) [podAlphaGpu.Pod]).Requested.ScalarResources.get r) ∧
      n2.Available.ScalarResources =
        ((mkNodeInfo "a" 2000 (4096 * MiB) [podAlphaGpu.Pod]).AddPod 9
          podScalars).Available.ScalarResources ∧
      n2.NonZeroRequested.ScalarResources =
        ((mkNodeInfo "a" 2000 (4096 * MiB) [podAlphaGpu.Pod]).AddPod 9
          podScalars).NonZeroRequested.ScalarResources ∧
      ∀ r q, (r, q) ∈ podScalars.Res.ScalarResources →
        n2.Available.ScalarResources.get r =
          sub64 ((mkNodeInfo "a" 2000 (4096 * MiB)
            [podAlphaGpu.Pod]).Available.ScalarResources.get r) q ∧
        n2.NonZeroRequested.ScalarResources.get r =
          add64 ((mkNodeInfo "a" 2000 (4096 * MiB)
            [podAlphaGpu.Pod]).NonZeroRequested.ScalarResources.get r) q :=
  C19_scalar_add_remove 9 (mkNodeInfo "a" 2000 (4096 * MiB) [podAlphaGpu.Pod]) podScalars
    "default/s" (by decide) (by decide)
    (by
      intro r q hmem
      have hr : r = "gpu" ∨ r = "fpga" := by
        have hs : podScalars.Res.ScalarResources = [("gpu", 2), ("fpga", 1)] := by decide
        rw [hs] at hmem
        simp only [List.mem_cons, Prod.mk.injEq, List.mem_singleton, List.not_mem_nil,
          or_false] at hmem
        rcases hmem with h | h
        · exact Or.inl h.1
        · exact Or.inr h.1
      rcases hr with rfl | rfl <;> decide)

set_option maxRecDepth 100000 in
/-- C18, as stated, fails when two pods of `Pods` share a key: after `AddPod` of two pods with
the key `default/w` requesting 100 and 200 milli-cores, `RemovePod` of the second (a pod of
`Pods`, with its own key and requests) deletes the first and subtracts the requests of the
second: `Pods` holds the pod of 200 milli-cores while `Requested.MilliCPU` is 100. -/
theorem C18_counterexample_duplicate_key :
    (runOps 1 (NewNodeInfo 0 []) [.addPod podDup1, .addPod podDup2]).get?.map
        (fun r => r.1.Pods) = some [NewPodInfo podDup1, NewPodInfo podDup2] ∧
    GetPodKey podDup1 = GetPodKey podDup2 ∧
    (runOps 1 (NewNodeInfo 0 [])
        [.addPod podDup1, .addPod podDup2, .removePod podDup2]).get?.map
        (fun r => (r.1.Pods, r.1.Requested.MilliCPU,
          (r.1.Pods.map fun p => p.Pod.Res.MilliCPU).sum)) =
      some ([NewPodInfo podDup2], 100, 200) := by
  decide

/-- C18, amended: a sequence of `AddPod` and `RemovePod` calls on `NewNodeInfo()` in which
every `RemovePod` is passed a pod whose key and requests are those of the first pod of `Pods`
with that key (`admissible`) runs to completion, and then `Requested` (`MilliCPU`, `Memory`
and every scalar resource, absent keys read as 0) is the sum of the real requests of the pods
of `Pods`, `NonZeroRequested.MilliCPU` and `NonZeroRequested.Memory` are the sums of their
non-zero requests (sums in `int64`), and a `RemovePod` that succeeds on the node takes exactly
one pod with the given key out of `Pods`. -/
theorem C18_requested_is_sum_of_pods (g0 g1 : Int) (ops : List NodeOp)
    (hadm : admissible g1 (NewNodeInfo g0 []) ops = true) :
    ∃ n g, runOps g1 (NewNodeInfo g0 []) ops = .val (n, g) ∧
      n.Requested.MilliCPU = wrap64 ((n.Pods.map fun p => p.Pod.Res.MilliCPU).sum) ∧
      n.Requested.Memory = wrap64 ((n.Pods.map fun p => p.Pod.Res.Memory).sum) ∧
      (∀ r, n.Requested.ScalarResources.get r =
        wrap64 ((n.Pods.map fun p => p.Pod.Res.ScalarResources.get r).sum)) ∧
      n.NonZeroRequested.MilliCPU = wrap64 ((n.Pods.map fun p => p.Pod.Non0CPU).sum) ∧
      n.NonZeroRequested.Memory = wrap64 ((n.Pods.map fun p => p.Pod.Non0Mem).sum) ∧
      ∀ (g2 : Int) (pod : Pod) (n1 : NodeInfo), n.RemovePod g2 pod = .val (n1, none) →
        ∃ q, GetPodKey q.Pod = GetPodKey pod ∧ n.Pods.Perm (q :: n1.Pods) := by
  obtain ⟨n, g, hrun, h1, h2, h3, h4, h5⟩ :=
    runOps_RequestedInv ops g1 (NewNodeInfo g0 []) (RequestedInv_new g0) hadm
  exact ⟨n, g, hrun, h1, h2, h3, h4, h5,
    fun g2 pod n1 h => RemovePod_removes_one g2 n n1 pod h⟩

set_option maxRecDepth 100000 in
/-- C18, amended, on the calls: add the pod of 100 milli-cores, add the pod with scalar
requests, remove the first. -/
theorem C18_requested_is_sum_of_pods_witness :
    admissible 1 (NewNodeInfo 0 [])
      [.addPod podDup1, .addPod podScalars, .removePod podDup1] = true ∧
    ∃ n g, runOps 1 (NewNodeInfo 0 [])
        [.addPod podDup1, .addPod podScalars, .removePod podDup1] = .val (n, g) ∧
      n.Requested.MilliCPU = wrap64 ((n.Pods.map fun p => p.Pod.Res.MilliCPU).sum) ∧
      n.Requested.Memory = wrap64 ((n.Pods.map fun p => p.Pod.Res.Memory).sum) ∧
      (∀ r, n.Requested.ScalarResources.get r =
        wrap64 ((n.Pods.map fun p => p.Pod.Res.ScalarResources.get r).sum)) ∧
      n.NonZeroRequested.MilliCPU = wrap64 ((n.Pods.map fun p => p.Pod.Non0CPU).sum) ∧
      n.NonZeroRequested.Memory = wrap64 ((n.Pods.map fun p => p.Pod.Non0Mem).sum) ∧
      ∀ (g2 : Int) (pod : Pod) (n1 : NodeInfo), n.RemovePod g2 pod = .val (n1, none) →
        ∃ q, GetPodKey q.Pod = GetPodKey pod ∧ n.Pods.Perm (q :: n1.Pods) :=
  ⟨by decide,
    C18_requested_is_sum_of_pods 0 1 [.addPod podDup1, .addPod podScalars, .removePod podDup1]
      (by decide)⟩

/-! ## Strategy entry points and planner: evaluations -/

/-- C21 fails: with `Iterations` nil both entry points panic on `*params.Iterations` in their
validation; with the whole parameter block nil the place strategy passes validation and
panics on `*strategy.Params.Iterations`, and the balance strategy returns without running
its policy. The default 10 is used only for an iteration count of 0. -/
theorem C21_nil_iterations_panics :
    (∀ ns, BalancePodsOnNodeForDefragmentation
      { Params := some { Namespaces := ns, Iterations := none } } = .panic) ∧
    (∀ ns, PlacePodsOnNodeForDefragmentation
      { Params := some { Namespaces := ns, Iterations := none } } = .panic) ∧
    validateAndParsePlacePodsParams none = .val false ∧
    PlacePodsOnNodeForDefragmentation { Params := none } = .panic ∧
    BalancePodsOnNodeForDefragmentation { Params := none } = .val none ∧
    BalancePodsOnNodeForDefragmentation { Params := some { Iterations := some 0 } } =
      .val (some 10) ∧
    PlacePodsOnNodeForDefragmentation { Params := some { Iterations := some 0 } } =
      .val (some 10) :=
  ⟨fun _ => rfl, fun _ => rfl, rfl, rfl, rfl, by decide, by decide⟩

set_option maxRecDepth 100000 in
/-- C30 fails in a run of `BalanceWorkload` on the nodes a and b hosting alpha and beta, two
pods whose key cannot be computed. On the deep copy both `RemovePod` calls return the error of
`GetPodKey`, none of the three branches of `swapIfPossible` applies, and it returns `true`
with the snapshot as it was: no pod was exchanged. `BalanceWorkload` selects the pair for
`SwapPods`. With a key on alpha only, the branch for a single failure puts alpha back and
returns `false`. Called on scenario S4 itself (nodes set) with the two pods interchanged, so
that neither pod is on its node, `swapIfPossible` returns `true` in the same way. -/
theorem C30_swap_reported_with_nothing_exchanged :
    podNames snapUnkeyed = [["alpha"], ["beta"]] ∧
    (snapUnkeyed.map fun n => n.Pods.map fun p => GetPodKey p.Pod) = [[none], [none]] ∧
    swapIfPossible 0 (deepcopyNodeInfos snapUnkeyed) 0 1 podAlphaUnkeyed podBetaUnkeyed =
      .val (true, deepcopyNodeInfos snapUnkeyed, 0) ∧
    (BalanceWorkload apiOk 10 0 [] snapUnkeyed).get?.map
      (fun r => r.choice.map (fun c => [c.podA.Name, c.podB.Name])) =
      some (some ["alpha", "beta"]) ∧
    (swapIfPossible 0 (deepcopyNodeInfos snapHalfKeyed) 0 1 podAlpha podBetaUnkeyed).get?.map
      (fun r => (r.1, podNames r.2.1)) = some (false, [["alpha"], ["beta"]]) ∧
    (snapS4.map fun n => n.node.isSome) = [true, true] ∧
    podNames snapS4 = [["alpha", "gamma"], ["beta", "delta"]] ∧
    swapIfPossible 10 snapS4 0 1 podBeta podAlpha = .val (true, snapS4, 10) :=
  ⟨by decide, by decide, by decide, by decide, by decide, by decide, by decide, by decide⟩

set_option maxRecDepth 100000 in
/-- C29 fails for a pending pod that requests two units of `gpu` and a candidate list of one
pod without `gpu`: the accumulated pods do not cover the scalar request, the guard on the
length of the list is skipped, and `multipleEligiblePods[1]` is out of range. `PlacePod`
reaches this call on the node a (500m available) hosting that pod. -/
theorem C29_index_out_of_range_on_uncovered_scalar :
    computeMultipleEligiblePods pendingGpu (mkNodeInfo "a" 800 (4096 * MiB) [podPlain.Pod]) =
      [podPlain] ∧
    computeMinimumMigrateablePods pendingGpu (mkNodeInfo "a" 800 (4096 * MiB) [podPlain.Pod])
      [podPlain] [podPlain] = .panic ∧
    PlacePod envOk 10 pendingGpu snapPlain = .panic := by
  decide

set_option maxRecDepth 100000 in
/-- C26 fails on the pods `default/web` and `default/web-1`: the key `default-web-1` is split
at every `-`, so it is read as namespace `default`, name `web`; the result holds `web` twice
and `web-1` not at all, and `web-1` alone gives the empty list. -/
theorem C26_dash_in_name_drops_pod :
    (sortMigrateablePods [podWeb, podWeb1]).map (fun p => p.Pod.Name) = ["web", "web"] ∧
    sortMigrateablePods [podWeb1] = [] := by
  decide

set_option maxRecDepth 100000 in
/-- C25 fails in the case of both deficits: node a has 500m and 512 MiB available, the
pending pod asks for 1000m and 1024 MiB, and the candidates are G0 (600m, 600 MiB) and G1
(100m, 100 MiB). The prefix G0 covers both deficits, yet both pods are returned. It fails in
the case of a CPU deficit only: with 500m missing and candidates H0 (100m, 50 MiB), H1 (450m,
10 MiB), H0 alone is returned, whose 100m do not cover the deficit. -/
theorem C25_not_the_shortest_covering_prefix :
    computeMultipleEligiblePods pendingBoth nodeBoth = [podG0, podG1] ∧
    (nodeBoth.Available.MilliCPU, nodeBoth.Available.Memory) = (500, 512 * MiB) ∧
    computeMinimumMigrateablePods pendingBoth nodeBoth [podG0, podG1] [podG0] =
      .val [podG1, podG0] ∧
    computeMultipleEligiblePods pendingCpuOnly nodeCpuOnly = [podH0, podH1] ∧
    (nodeCpuOnly.Available.MilliCPU, nodeCpuOnly.Available.Memory) = (500, 4096 * MiB) ∧
    computeMinimumMigrateablePods pendingCpuOnly nodeCpuOnly [podH0, podH1] [podH0] =
      .val [podH0] ∧
    computeTotalCpuMilicore [podH0] = 50 * MiB := by
  decide

set_option maxRecDepth 100000 in
/-- C24 fails on the nodes a (hosting V1), b (hosting V2), c: no node has room for the pending
pod; the candidates in priority order are a, c, b; the minimum eligible pod of a is V1, whose
placement fails, and `placeCapacity` returns that failure without going on to b, although the
minimum eligible pod of b is V2, whose placement succeeds on the same snapshot. -/
theorem C24_first_candidate_failure_is_final :
    (computeNormalPlacement envOk pendingDetour snapDetour.nodeInfos).get?.map
      (fun r => r.2.2) = some false ∧
    computePlacementPriority pendingDetour snapDetour.nodeInfos = .val ["a", "c", "b"] ∧
    (snapDetour.nodeInfos.map fun n =>
      (computeMinimumMigrateablePod (computeEligiblePods envOk pendingDetour n)).map
        fun p => p.Pod.Name) = [some "v1", some "v2", none] ∧
    (placeCapacity envOk 10 { Pod := podV1 } snapDetour).get?.map (fun r => r.1.2.2) =
      some false ∧
    (placeCapacity envOk 10 { Pod := podV2 } snapDetour).get?.map (fun r => r.1.2.2) =
      some true ∧
    placeCapacity envOk 10 pendingDetour snapDetour = .val ((none, none, false), snapDetour) := by
  decide

/-! ## The node-pair search of `BalanceWorkload` can run for ever -/

set_option maxRecDepth 100000 in
theorem snapCycle_sorted : SortNodesBasedRatio snapCycle = snapCycle := by decide

set_option maxRecDepth 100000 in
theorem nodePairLoop_cycle_start (fuel : Nat) :
    nodePairLoop (GetPivotRatio snapCycle) (fuel + 1) 0 snapCycle 0 3 =
      nodePairLoop (GetPivotRatio snapCycle) fuel 0 snapCycle 0 2 := by
  rfl

set_option maxRecDepth 100000 in
theorem nodePairLoop_cycle_there (fuel : Nat) :
    nodePairLoop (GetPivotRatio snapCycle) (fuel + 1) 0 snapCycle 0 2 =
      nodePairLoop (GetPivotRatio snapCycle) fuel 0 snapCycle 1 3 := by
  rfl

set_option maxRecDepth 100000 in
theorem nodePairLoop_cycle_back (fuel : Nat) :
    nodePairLoop (GetPivotRatio snapCycle) (fuel + 1) 0 snapCycle 1 3 =
      nodePairLoop (GetPivotRatio snapCycle) fuel 0 snapCycle 0 2 := by
  rfl

theorem nodePairLoop_cycle (fuel : Nat) :
    nodePairLoop (GetPivotRatio snapCycle) fuel 0 snapCycle 0 2 = .outOfFuel ∧
    nodePairLoop (GetPivotRatio snapCycle) fuel 0 snapCycle 1 3 = .outOfFuel := by
  induction fuel with
  | zero => exact ⟨rfl, rfl⟩
  | succ fuel ih =>
    exact ⟨(nodePairLoop_cycle_there fuel).trans ih.2, (nodePairLoop_cycle_back fuel).trans ih.1⟩

set_option maxRecDepth 100000 in
/-- C22 fails on four empty nodes with ratios 1, 4, 6, 8 around the pivot ratio 4.75: the
index pair goes from (0, 3) to (0, 2), then to (1, 3), then back to (0, 2), and so on: no
budget of rounds is enough for the node-pair search of `BalanceWorkload` to end, and the
state (0, 2) is revisited every two rounds. -/
theorem C22_node_pair_search_cycles (fuel : Nat) :
    BalanceWorkload apiOk fuel 0 [] snapCycle = .outOfFuel ∧
    nodePairLoop (GetPivotRatio snapCycle) (fuel + 2) 0 (SortNodesBasedRatio snapCycle) 0 2 =
      nodePairLoop (GetPivotRatio snapCycle) fuel 0 (SortNodesBasedRatio snapCycle) 0 2 := by
  have hloop : nodePairLoop (GetPivotRatio snapCycle) fuel 0 snapCycle 0 3 = .outOfFuel := by
    cases fuel with
    | zero => rfl
    | succ fuel => exact (nodePairLoop_cycle_start fuel).trans (nodePairLoop_cycle fuel).1
  constructor
  · unfold BalanceWorkload
    simp only [snapCycle_sorted]
    have h0 : nodeIndex snapCycle 0 = .val (mkNodeInfo "n0" 1000 (1000 * MiB) []) := by decide
    have h3 : nodeIndex snapCycle (((snapCycle.length : Nat) : Int) - 1) =
        .val (mkNodeInfo "n3" 8000 (1000 * MiB) []) := by decide
    have hlen : ((snapCycle.length : Nat) : Int) - 1 = 3 := by decide
    rw [h0, h3, hlen]
    simp only [Run.bind, hloop]
  · rw [snapCycle_sorted]
    exact (nodePairLoop_cycle_there (fuel + 1)).trans (nodePairLoop_cycle_back fuel)

/-! ## Direct placement: proofs -/

theorem GetName_of_node {n : NodeInfo} {nd : Node} (h : n.node = some nd) :
    n.GetName = .val nd.Name := by
  unfold NodeInfo.GetName NodeInfo.Node
  rw [h]

theorem findFromNode_val (nodeName : String) (l : List NodeInfo)
    (hnodes : ∀ n ∈ l, n.node.isSome = true) :
    ∀ (i : Nat) (start : Option Nat), ∃ r, findFromNode nodeName l i start = .val r := by
  induction l with
  | nil => intro i start; exact ⟨start, rfl⟩
  | cons n rest ih =>
    intro i start
    obtain ⟨nd, hnd⟩ := Option.isSome_iff_exists.mp (hnodes n (List.mem_cons_self _ _))
    simp only [findFromNode, GetName_of_node hnd]
    exact ih (fun m hm => hnodes m (List.mem_cons_of_mem _ hm)) _ _

theorem hasRoom_eq (placePodInfo : PodInfo) (n : NodeInfo) :
    hasRoom placePodInfo n =
      (decide ((CalculateResource placePodInfo.Pod).2.1 ≤ n.Available.MilliCPU) &&
        decide ((CalculateResource placePodInfo.Pod).2.2 ≤ n.Available.Memory) &&
        (CalculateResource placePodInfo.Pod).1.ScalarResources.all
          (fun e => decide (e.2 ≤ n.Available.ScalarResources.get e.1))) := by
  unfold hasRoom
  simp only [CalculateResource]
  congr 1
  rw [Bool.eq_iff_iff]
  simp [List.any_eq_true, List.all_eq_true]

/-- The test made on a node by the second loop of `computeNormalPlacement` is the test of the
specification. -/
theorem specDirectTarget_iff (env : Env) (placePodInfo : PodInfo) (n : NodeInfo) (nd : Node)
    (hnd : n.node = some nd) :
    specDirectTarget env placePodInfo n = true ↔
      (¬ (placePodInfo.Pod.NodeName = nd.Name ∨
          env.PodFitsCurrentNode placePodInfo.Pod n.Node = false) ∧
        hasRoom placePodInfo n = true) := by
  rw [hasRoom_eq]
  unfold specDirectTarget
  have hN : n.Node = some nd := hnd
  rw [hN]
  simp only [Bool.and_eq_true, decide_eq_true_eq, not_or, Bool.not_eq_false, ne_eq]
  constructor
  · rintro ⟨⟨⟨⟨h1, h2⟩, h3⟩, h4⟩, h5⟩
    exact ⟨⟨fun h => h1 h.symm, h2⟩, ⟨h3, h4⟩, h5⟩
  · rintro ⟨⟨h1, h2⟩, ⟨h3, h4⟩, h5⟩
    exact ⟨⟨⟨⟨fun h => h1 h.symm, h2⟩, h3⟩, h4⟩, h5⟩

theorem findToNode_spec (env : Env) (placePodInfo : PodInfo) (l : List NodeInfo)
    (hnodes : ∀ n ∈ l, n.node.isSome = true) :
    ∀ k : Nat,
      (findToNode env placePodInfo l k = .val none ∧
        ∀ n ∈ l, specDirectTarget env placePodInfo n = false) ∨
      ∃ i n, findToNode env placePodInfo l k = .val (some (k + i)) ∧ l[i]? = some n ∧
        specDirectTarget env placePodInfo n = true ∧
        ∀ j, j < i → ∀ m, l[j]? = some m → specDirectTarget env placePodInfo m = false := by
  induction l with
  | nil => intro k; exact Or.inl ⟨rfl, by simp⟩
  | cons n rest ih =>
    intro k
    obtain ⟨nd, hnd⟩ := Option.isSome_iff_exists.mp (hnodes n (List.mem_cons_self _ _))
    have hiff := specDirectTarget_iff env placePodInfo n nd hnd
    have hrest := ih (fun m hm => hnodes m (List.mem_cons_of_mem _ hm)) (k + 1)
    by_cases hs : specDirectTarget env placePodInfo n = true
    · obtain ⟨hc, hr⟩ := hiff.mp hs
      refine Or.inr ⟨0, n, ?_, by simp, hs, fun j hj => absurd hj (Nat.not_lt_zero j)⟩
      simp only [findToNode, GetName_of_node hnd]
      rw [if_neg hc, if_pos hr]
      rfl
    · have hsf : specDirectTarget env placePodInfo n = false := by
        cases hv : specDirectTarget env placePodInfo n with
        | false => rfl
        | true => exact absurd hv hs
      have hstep : findToNode env placePodInfo (n :: rest) k =
          findToNode env placePodInfo rest (k + 1) := by
        simp only [findToNode, GetName_of_node hnd]
        by_cases hc : placePodInfo.Pod.NodeName = nd.Name ∨
            env.PodFitsCurrentNode placePodInfo.Pod n.Node = false
        · rw [if_pos hc]
        · rw [if_neg hc]
          have hr : ¬ hasRoom placePodInfo n = true := fun hr => hs (hiff.mpr ⟨hc, hr⟩)
          rw [if_neg hr]
      rcases hrest with ⟨hnone, hall⟩ | ⟨i, m, hfound, hi, hm, hbefore⟩
      · refine Or.inl ⟨hstep.trans hnone, ?_⟩
        intro x hx
        rcases List.mem_cons.mp hx with rfl | hx
        · exact hsf
        · exact hall x hx
      · refine Or.inr ⟨i + 1, m, ?_, by simpa using hi, hm, ?_⟩
        · rw [hstep, hfound]
          congr 2
          omega
        · intro j hj x hx
          cases j with
          | zero =>
            simp only [List.getElem?_cons_zero, Option.some.injEq] at hx
            subst hx
            exact hsf
          | succ j =>
            simp only [List.getElem?_cons_succ] at hx
            exact hbefore j (by omega) x hx

/-- C28: on a list of nodes that all have their node set, `computeNormalPlacement` returns
`found = true` exactly when some node of the list has a name different from the pod's
`spec.nodeName`, passes `PodFitsCurrentNode` and has available CPU, memory and every scalar
resource the pod requests at least the pod's request (`specDirectTarget`); when found,
`toNode` is the first such node in list order, and otherwise `toNode` is `nil`. -/
theorem C28_direct_placement_is_first_fit (env : Env) (placePodInfo : PodInfo)
    (nodeInfos : List NodeInfo) (hnodes : ∀ n ∈ nodeInfos, n.node.isSome = true) :
    ∃ fromNode toNode found,
      computeNormalPlacement env placePodInfo nodeInfos = .val (fromNode, toNode, found) ∧
      (found = true ↔ ∃ n ∈ nodeInfos, specDirectTarget env placePodInfo n = true) ∧
      (found = true → ∃ i n, toNode = some i ∧ nodeInfos[i]? = some n ∧
        specDirectTarget env placePodInfo n = true ∧
        ∀ j, j < i → ∀ m, nodeInfos[j]? = some m →
          specDirectTarget env placePodInfo m = false) ∧
      (found = false → toNode = none) := by
  obtain ⟨f, hf⟩ := findFromNode_val placePodInfo.Pod.NodeName nodeInfos hnodes 0 none
  unfold computeNormalPlacement
  rw [hf]
  rcases findToNode_spec env placePodInfo nodeInfos hnodes 0 with
    ⟨hnone, hall⟩ | ⟨i, n, hfound, hi, hn, hbefore⟩
  · refine ⟨f, none, false, ?_, ?_, ?_, ?_⟩
    · simp only [Run.bind, hnone]
      rfl
    · constructor
      · intro h; exact absurd h (by simp)
      · rintro ⟨n, hn, hs⟩
        rw [hall n hn] at hs
        exact absurd hs (by simp)
    · intro h; exact absurd h (by simp)
    · intro _; rfl
  · rw [Nat.zero_add] at hfound
    refine ⟨f, some i, true, ?_, ?_, ?_, ?_⟩
    · simp only [Run.bind, hfound]
      rfl
    · constructor
      · intro _; exact ⟨n, List.getElem?_mem hi, hn⟩
      · intro _; rfl
    · intro _; exact ⟨i, n, rfl, hi, hn, hbefore⟩
    · intro h; exact absurd h (by simp)

set_option maxRecDepth 100000 in
/-- C28 on scenario S1 and its pending pod: node b is found. -/
theorem C28_direct_placement_is_first_fit_witness :
    (∀ n ∈ snapS1.nodeInfos, n.node.isSome = true) ∧
    ∃ fromNode toNode found,
      computeNormalPlacement envOk pendingS1 snapS1.nodeInfos = .val (fromNode, toNode, found) ∧
      (found = true ↔ ∃ n ∈ snapS1.nodeInfos, specDirectTarget envOk pendingS1 n = true) ∧
      (found = true → ∃ i n, toNode = some i ∧ snapS1.nodeInfos[i]? = some n ∧
        specDirectTarget envOk pendingS1 n = true ∧
        ∀ j, j < i → ∀ m, snapS1.nodeInfos[j]? = some m →
          specDirectTarget envOk pendingS1 m = false) ∧
      (found = false → toNode = none) :=
  ⟨by decide, C28_direct_placement_is_first_fit envOk pendingS1 snapS1.nodeInfos (by decide)⟩

/-! ## Eligible pods: proofs -/

set_option maxRecDepth 100000 in
/-- C27, as stated, fails when the deficit overflows: on a node overcommitted by one
milli-core, for a pending pod requesting `2 ^ 63 - 1` milli-cores, the deficit
`placeCpu - Available.MilliCPU` wraps to `-2 ^ 63`, and the pod of one milli-core is returned
although the node with it freed is far from covering the request. -/
theorem C27_counterexample_deficit_overflow :
    nodeOvercommitted.Available.MilliCPU = -1 ∧
    computeEligiblePods envOk pendingHuge nodeOvercommitted = [podTiny] ∧
    ¬ (nodeOvercommitted.Available.MilliCPU + (CalculateResource podTiny.Pod).2.1 ≥
      (CalculateResource pendingHuge.Pod).2.1) := by
  decide

/-- C27, amended: when the two deficits `placeCpu - Available.MilliCPU` and
`placeMem - Available.Memory` are `int64` values (no overflow), every pod `v` returned by
`computeEligiblePods(P, N)` is an element of `N.Pods`, satisfies `IsMigratable`, has non-zero
CPU and memory requests strictly smaller than those of `P`, and covers the deficit of `N` on
its own; the result is empty when `PodFitsCurrentNode(P, N)` is false. -/
theorem C27_eligible_pods_cover_deficit (env : Env) (placePodInfo : PodInfo)
    (nodeInfo : NodeInfo)
    (hcpu : isInt64 ((CalculateResource placePodInfo.Pod).2.1 - nodeInfo.Available.MilliCPU))
    (hmem : isInt64 ((CalculateResource placePodInfo.Pod).2.2 - nodeInfo.Available.Memory)) :
    (∀ v ∈ computeEligiblePods env placePodInfo nodeInfo,
      v ∈ nodeInfo.Pods ∧ IsMigratable v.Pod = true ∧
      (CalculateResource v.Pod).2.1 < (CalculateResource placePodInfo.Pod).2.1 ∧
      (CalculateResource v.Pod).2.2 < (CalculateResource placePodInfo.Pod).2.2 ∧
      nodeInfo.Available.MilliCPU + (CalculateResource v.Pod).2.1 ≥
        (CalculateResource placePodInfo.Pod).2.1 ∧
      nodeInfo.Available.Memory + (CalculateResource v.Pod).2.2 ≥
        (CalculateResource placePodInfo.Pod).2.2) ∧
    (env.PodFitsCurrentNode placePodInfo.Pod nodeInfo.Node = false →
      computeEligiblePods env placePodInfo nodeInfo = []) := by
  constructor
  · intro v hv
    unfold computeEligiblePods at hv
    split at hv
    · simp at hv
    · rw [List.mem_filter] at hv
      obtain ⟨hmemb, hok⟩ := hv
      simp only [Bool.and_eq_true, isEligible, decide_eq_true_eq] at hok
      obtain ⟨hmig, ⟨⟨⟨⟨h1, h2⟩, h3⟩, h4⟩, _⟩⟩ := hok
      unfold sub64 at h1 h2
      rw [wrap64_of_isInt64 hcpu] at h1
      rw [wrap64_of_isInt64 hmem] at h2
      simp only [CalculateResource] at h1 h2 h3 h4 ⊢
      refine ⟨hmemb, hmig, h3, h4, ?_, ?_⟩ <;> omega
  · intro h
    unfold computeEligiblePods
    rw [if_pos h]

set_option maxRecDepth 100000 in
/-- C27, amended, on node a of the detour scenario (900m, 900 MiB available, hosting V1) and
the pending pod of 1000m, 1000 MiB. -/
theorem C27_eligible_pods_cover_deficit_witness :
    (isInt64 ((CalculateResource pendingDetour.Pod).2.1 -
        (mkNodeInfo "a" 1500 (1800 * MiB) [podV1]).Available.MilliCPU) ∧
      isInt64 ((CalculateResource pendingDetour.Pod).2.2 -
        (mkNodeInfo "a" 1500 (1800 * MiB) [podV1]).Available.Memory) ∧
      computeEligiblePods envOk pendingDetour (mkNodeInfo "a" 1500 (1800 * MiB) [podV1]) =
        [{ Pod := podV1 }]) ∧
    ∀ v ∈ computeEligiblePods envOk pendingDetour (mkNodeInfo "a" 1500 (1800 * MiB) [podV1]),
      v ∈ (mkNodeInfo "a" 1500 (1800 * MiB) [podV1]).Pods ∧ IsMigratable v.Pod = true ∧
      (CalculateResource v.Pod).2.1 < (CalculateResource pendingDetour.Pod).2.1 ∧
      (CalculateResource v.Pod).2.2 < (CalculateResource pendingDetour.Pod).2.2 ∧
      (mkNodeInfo "a" 1500 (1800 * MiB) [podV1]).Available.MilliCPU +
          (CalculateResource v.Pod).2.1 ≥ (CalculateResource pendingDetour.Pod).2.1 ∧
      (mkNodeInfo "a" 1500 (1800 * MiB) [podV1]).Available.Memory +
          (CalculateResource v.Pod).2.2 ≥ (CalculateResource pendingDetour.Pod).2.2 :=
  ⟨by decide,
    (C27_eligible_pods_cover_deficit envOk pendingDetour
      (mkNodeInfo "a" 1500 (1800 * MiB) [podV1]) (by decide) (by decide)).1⟩

/-! ## Depth of the recursion of `placeCapacity` -/

theorem Run.bind_ne_outOfFuel {α β : Type} {r : Run α} {f : α → Run β}
    (hr : r ≠ .outOfFuel) (hf : ∀ a, r = .val a → f a ≠ .outOfFuel) :
    r.bind f ≠ .outOfFuel := by
  cases r with
  | val a => exact hf a rfl
  | panic => simp [Run.bind]
  | outOfFuel => exact absurd rfl hr

theorem GetName_ne_outOfFuel (n : NodeInfo) : n.GetName ≠ .outOfFuel := by
  unfold NodeInfo.GetName
  cases n.Node <;> simp

theorem findFromNode_ne_outOfFuel (nodeName : String) (l : List NodeInfo) :
    ∀ (i : Nat) (start : Option Nat), findFromNode nodeName l i start ≠ .outOfFuel := by
  induction l with
  | nil => intro i start; simp [findFromNode]
  | cons n rest ih =>
    intro i start
    simp only [findFromNode]
    cases h : n.GetName with
    | val name => exact ih _ _
    | panic => simp
    | outOfFuel => exact absurd h (GetName_ne_outOfFuel n)

theorem findToNode_ne_outOfFuel (env : Env) (placePodInfo : PodInfo) (l : List NodeInfo) :
    ∀ i : Nat, findToNode env placePodInfo l i ≠ .outOfFuel := by
  induction l with
  | nil => intro i; simp [findToNode]
  | cons n rest ih =>
    intro i
    simp only [findToNode]
    cases h : n.GetName with
    | val name =>
      simp only []
      split
      · exact ih _
      · split
        · simp
        · exact ih _
    | panic => simp
    | outOfFuel => exact absurd h (GetName_ne_outOfFuel n)

theorem computeNormalPlacement_ne_outOfFuel (env : Env) (placePodInfo : PodInfo)
    (l : List NodeInfo) : computeNormalPlacement env placePodInfo l ≠ .outOfFuel := by
  unfold computeNormalPlacement
  refine Run.bind_ne_outOfFuel (findFromNode_ne_outOfFuel _ _ _ _) fun _ _ => ?_
  refine Run.bind_ne_outOfFuel (findToNode_ne_outOfFuel _ _ _ _) fun _ _ => ?_
  simp

theorem scoreNodes_ne_outOfFuel (podInfo : PodInfo) (l : List NodeInfo) :
    ∀ (keys : List String) (nodeScore : SMap),
      scoreNodes podInfo l keys nodeScore ≠ .outOfFuel := by
  induction l with
  | nil => intro keys nodeScore; simp [scoreNodes]
  | cons n rest ih =>
    intro keys nodeScore
    simp only [scoreNodes]
    cases h : n.GetName with
    | val name => exact ih _ _
    | panic => simp
    | outOfFuel => exact absurd h (GetName_ne_outOfFuel n)

theorem computePlacementPriority_ne_outOfFuel (podInfo : PodInfo) (l : List NodeInfo) :
    computePlacementPriority podInfo l ≠ .outOfFuel := by
  unfold computePlacementPriority
  refine Run.bind_ne_outOfFuel (scoreNodes_ne_outOfFuel _ _ _ _) fun a _ => ?_
  obtain ⟨keys, nodeScore⟩ := a
  simp

theorem findByName_ne_outOfFuel (name : String) (l : List NodeInfo) :
    ∀ (i : Nat) (last : Option Nat), findByName name l i last ≠ .outOfFuel := by
  induction l with
  | nil => intro i last; simp [findByName]
  | cons n rest ih =>
    intro i last
    simp only [findByName]
    cases h : n.GetName with
    | val nm =>
      simp only []
      split
      · simp
      · exact ih _ _
    | panic => simp
    | outOfFuel => exact absurd h (GetName_ne_outOfFuel n)

theorem firstEligible_ne_outOfFuel (env : Env) (placePodInfo : PodInfo) (l : List NodeInfo)
    (names : List String) : firstEligible env placePodInfo l names ≠ .outOfFuel := by
  induction names with
  | nil => simp [firstEligible]
  | cons name rest ih =>
    simp only [firstEligible]
    refine Run.bind_ne_outOfFuel (findByName_ne_outOfFuel _ _ _ _) fun idx _ => ?_
    cases nodeAt l idx with
    | none => simp
    | some nodeInfo =>
      simp only []
      split
      · cases computeMinimumMigrateablePod (computeEligiblePods env placePodInfo nodeInfo) <;>
          simp
      · exact ih

theorem RemovePod_ne_outOfFuel (g : Int) (n : NodeInfo) (pod : Pod) :
    n.RemovePod g pod ≠ .outOfFuel := by
  unfold NodeInfo.RemovePod
  cases GetPodKey pod with
  | none => simp
  | some k =>
    simp only []
    cases findKeyIdx n.Pods k with
    | some i => simp
    | none =>
      simp only []
      cases n.node <;> simp

theorem removePodAt_ne_outOfFuel (g : Int) (l : List NodeInfo) (i : Nat) (pod : Pod) :
    removePodAt g l i pod ≠ .outOfFuel := by
  unfold removePodAt
  cases l[i]? with
  | none => simp
  | some n =>
    simp only []
    cases h : n.RemovePod g pod with
    | val r => simp
    | panic => simp
    | outOfFuel => exact absurd h (RemovePod_ne_outOfFuel g n pod)

theorem mem_snapshotPods (l : List NodeInfo) (n : NodeInfo) (p : PodInfo) (hn : n ∈ l)
    (hp : p ∈ n.Pods) : p ∈ snapshotPods l := by
  induction l with
  | nil => simp at hn
  | cons m rest ih =>
    unfold snapshotPods
    simp only [List.foldr_cons, List.mem_append]
    rcases List.mem_cons.mp hn with rfl | hn
    · exact Or.inl hp
    · exact Or.inr (ih hn)

theorem computeMinimumMigrateablePod_mem (eligiblePods : List PodInfo) (v : PodInfo)
    (h : computeMinimumMigrateablePod eligiblePods = some v) : v ∈ eligiblePods := by
  match eligiblePods, h with
  | [p], h =>
    simp only [computeMinimumMigrateablePod, Option.some.injEq] at h
    simp [h]
  | p :: q :: r, h =>
    simp only [computeMinimumMigrateablePod] at h
    exact mem_of_mem_sortSlice _ _ v (List.mem_of_mem_head? h)

theorem computeEligiblePods_smaller (env : Env) (placePodInfo : PodInfo) (nodeInfo : NodeInfo)
    (v : PodInfo) (hv : v ∈ computeEligiblePods env placePodInfo nodeInfo) :
    v ∈ nodeInfo.Pods ∧
    (CalculateResource v.Pod).2.1 < (CalculateResource placePodInfo.Pod).2.1 ∧
    (CalculateResource v.Pod).2.2 < (CalculateResource placePodInfo.Pod).2.2 := by
  unfold computeEligiblePods at hv
  split at hv
  · simp at hv
  · rw [List.mem_filter] at hv
    obtain ⟨hmemb, hok⟩ := hv
    simp only [Bool.and_eq_true, isEligible, decide_eq_true_eq] at hok
    obtain ⟨_, ⟨⟨⟨⟨_, _⟩, h3⟩, h4⟩, _⟩⟩ := hok
    exact ⟨hmemb, h3, h4⟩

/-- The pod on which `placeCapacity` calls itself is a pod of the snapshot with strictly
smaller non-zero CPU and memory requests. -/
theorem firstEligible_smaller (env : Env) (placePodInfo : PodInfo) (l : List NodeInfo)
    (names : List String) (v : PodInfo)
    (h : firstEligible env placePodInfo l names = .val (some v)) :
    v ∈ snapshotPods l ∧
    (CalculateResource v.Pod).2.1 < (CalculateResource placePodInfo.Pod).2.1 ∧
    (CalculateResource v.Pod).2.2 < (CalculateResource placePodInfo.Pod).2.2 := by
  induction names with
  | nil => simp [firstEligible] at h
  | cons name rest ih =>
    simp only [firstEligible] at h
    obtain ⟨idx, _, h⟩ := Run.bind_eq_val h
    cases hnode : nodeAt l idx with
    | none => rw [hnode] at h; simp at h
    | some nodeInfo =>
      rw [hnode] at h
      simp only [] at h
      split at h
      · cases hmin : computeMinimumMigrateablePod
            (computeEligiblePods env placePodInfo nodeInfo) with
        | none => rw [hmin] at h; simp at h
        | some e =>
          rw [hmin] at h
          simp only [Run.val.injEq, Option.some.injEq] at h
          subst h
          obtain ⟨hpods, hc, hm⟩ := computeEligiblePods_smaller env placePodInfo nodeInfo e
            (computeMinimumMigrateablePod_mem _ e hmin)
          refine ⟨mem_snapshotPods l nodeInfo e ?_ hpods, hc, hm⟩
          unfold nodeAt at hnode
          cases idx with
          | none => simp at hnode
          | some i => exact List.getElem?_mem hnode
      · exact ih h

/-- Fewer pods of the list lie below `v` in non-zero CPU request than below `p`, when `v` is
a pod of the list below `p`. -/
theorem countP_lt_of_smaller (l : List PodInfo) (v p : PodInfo) (hv : v ∈ l)
    (hlt : (CalculateResource v.Pod).2.1 < (CalculateResource p.Pod).2.1) :
    l.countP (fun q => decide ((CalculateResource q.Pod).2.1 < (CalculateResource v.Pod).2.1)) <
      l.countP (fun q => decide ((CalculateResource q.Pod).2.1 < (CalculateResource p.Pod).2.1)) := by
  induction l with
  | nil => simp at hv
  | cons x t ih =>
    have hmono : t.countP (fun q => decide ((CalculateResource q.Pod).2.1 <
          (CalculateResource v.Pod).2.1)) ≤
        t.countP (fun q => decide ((CalculateResource q.Pod).2.1 <
          (CalculateResource p.Pod).2.1)) := by
      apply List.countP_mono_left
      intro q _ hq
      simp only [decide_eq_true_eq] at hq ⊢
      omega
    simp only [List.countP_cons]
    rcases List.mem_cons.mp hv with rfl | hv
    · have h1 : decide ((CalculateResource v.Pod).2.1 < (CalculateResource v.Pod).2.1) = false := by
        simp
      have h2 : decide ((CalculateResource v.Pod).2.1 < (CalculateResource p.Pod).2.1) = true := by
        simp [hlt]
      rw [h1, h2]
      simp only [Bool.false_eq_true, if_false, if_true]
      omega
    · have := ih hv
      by_cases hx : (CalculateResource x.Pod).2.1 < (CalculateResource v.Pod).2.1
      · have hx2 : (CalculateResource x.Pod).2.1 < (CalculateResource p.Pod).2.1 := by omega
        simp only [hx, hx2, decide_True, if_true]
        omega
      · simp only [hx, decide_False, Bool.false_eq_true, if_false]
        split <;> omega

theorem placeCapacity_ne_outOfFuel (env : Env) (st : PState) :
    ∀ (fuel : Nat) (placePodInfo : PodInfo),
      (snapshotPods st.nodeInfos).countP (fun q => decide ((CalculateResource q.Pod).2.1 <
        (CalculateResource placePodInfo.Pod).2.1)) < fuel →
      placeCapacity env fuel placePodInfo st ≠ .outOfFuel := by
  intro fuel
  induction fuel with
  | zero => intro p h; exact absurd h (Nat.not_lt_zero _)
  | succ fuel ih =>
    intro p hfuel
    simp only [placeCapacity]
    split
    · refine Run.bind_ne_outOfFuel (computeNormalPlacement_ne_outOfFuel _ _ _) fun a _ => ?_
      obtain ⟨fromNode, toNode, direct⟩ := a
      simp only []
      split
      · split
        · split
          · simp
          · cases fromNode with
            | none => simp
            | some i =>
              simp only []
              refine Run.bind_ne_outOfFuel (removePodAt_ne_outOfFuel _ _ _ _) fun b _ => ?_
              obtain ⟨ns, g, e⟩ := b
              simp
        · simp
      · refine Run.bind_ne_outOfFuel (computePlacementPriority_ne_outOfFuel _ _) fun names _ => ?_
        refine Run.bind_ne_outOfFuel (firstEligible_ne_outOfFuel _ _ _ _) fun e he => ?_
        cases e with
        | none => simp
        | some v =>
          simp only []
          obtain ⟨hmem, hc, _⟩ := firstEligible_smaller env p st.nodeInfos names v he
          have := countP_lt_of_smaller (snapshotPods st.nodeInfos) v p hmem hc
          exact ih v (by omega)
    · simp

theorem placeCapacity_fuel_succ (env : Env) (st : PState) :
    ∀ (fuel : Nat) (placePodInfo : PodInfo),
      placeCapacity env fuel placePodInfo st ≠ .outOfFuel →
      placeCapacity env (fuel + 1) placePodInfo st = placeCapacity env fuel placePodInfo st := by
  intro fuel
  induction fuel with
  | zero => intro p h; exact absurd rfl h
  | succ fuel ih =>
    intro p h
    rw [placeCapacity] at h ⊢
    conv => rhs; rw [placeCapacity]
    split
    · rename_i hcheck
      rw [if_pos hcheck] at h
      cases hcnp : computeNormalPlacement env p st.nodeInfos with
      | panic => rfl
      | outOfFuel => rfl
      | val a =>
        obtain ⟨fromNode, toNode, direct⟩ := a
        rw [hcnp] at h
        simp only [Run.bind] at h ⊢
        cases direct with
        | true => rfl
        | false =>
          simp only [Bool.false_eq_true, if_false] at h ⊢
          cases hcpp : computePlacementPriority p st.nodeInfos with
          | panic => rfl
          | outOfFuel => rfl
          | val names =>
            rw [hcpp] at h
            simp only [] at h ⊢
            cases hfe : firstEligible env p st.nodeInfos names with
            | panic => rfl
            | outOfFuel => rfl
            | val e =>
              rw [hfe] at h
              simp only [] at h ⊢
              cases e with
              | none => rfl
              | some v => exact ih v h
    · rfl

theorem placeCapacity_fuel_add (env : Env) (st : PState) (fuel : Nat) (placePodInfo : PodInfo)
    (h : placeCapacity env fuel placePodInfo st ≠ .outOfFuel) (k : Nat) :
    placeCapacity env (fuel + k) placePodInfo st = placeCapacity env fuel placePodInfo st := by
  induction k with
  | zero => rfl
  | succ k ih =>
    rw [← Nat.add_assoc, placeCapacity_fuel_succ env st (fuel + k) placePodInfo (by rw [ih]; exact h),
      ih]

/-- C23: with a budget above the number of pods of the snapshot, `placeCapacity` never
exhausts its budget: it ends (with a result or a panic), and every such budget gives the same
outcome as the budget "number of pods plus one". Each recursive call is made on a pod of the
snapshot whose non-zero CPU and memory requests are strictly smaller than those of the pod of
the calling invocation. -/
theorem C23_placeCapacity_depth_bounded (env : Env) (fuel : Nat) (placePodInfo : PodInfo)
    (st : PState) (hfuel : (snapshotPods st.nodeInfos).length < fuel) :
    placeCapacity env fuel placePodInfo st ≠ .outOfFuel ∧
    placeCapacity env fuel placePodInfo st =
      placeCapacity env ((snapshotPods st.nodeInfos).length + 1) placePodInfo st ∧
    ∀ names v, firstEligible env placePodInfo st.nodeInfos names = .val (some v) →
      v ∈ snapshotPods st.nodeInfos ∧
      (CalculateResource v.Pod).2.1 < (CalculateResource placePodInfo.Pod).2.1 ∧
      (CalculateResource v.Pod).2.2 < (CalculateResource placePodInfo.Pod).2.2 := by
  have hcount : ∀ p : PodInfo,
      (snapshotPods st.nodeInfos).countP (fun q => decide ((CalculateResource q.Pod).2.1 <
        (CalculateResource p.Pod).2.1)) ≤ (snapshotPods st.nodeInfos).length :=
    fun _ => List.countP_le_length _
  have hbase := placeCapacity_ne_outOfFuel env st ((snapshotPods st.nodeInfos).length + 1)
    placePodInfo (by have := hcount placePodInfo; omega)
  have heq : placeCapacity env fuel placePodInfo st =
      placeCapacity env ((snapshotPods st.nodeInfos).length + 1) placePodInfo st := by
    obtain ⟨k, hk⟩ : ∃ k, fuel = (snapshotPods st.nodeInfos).length + 1 + k :=
      ⟨fuel - ((snapshotPods st.nodeInfos).length + 1), by omega⟩
    rw [hk]
    exact placeCapacity_fuel_add env st _ placePodInfo hbase k
  refine ⟨?_, heq, fun names v h => firstEligible_smaller env placePodInfo st.nodeInfos names v h⟩
  rw [heq]
  exact hbase

set_option maxRecDepth 100000 in
/-- C23 on the chain scenario (two pods in the snapshot, budget 3): the pending pod leads to
E, E leads to F, F is placed directly. -/
theorem C23_placeCapacity_depth_bounded_witness :
    ((snapshotPods snapChain.nodeInfos).length < 3 ∧
      (placeCapacity envOk 3 pendingChain snapChain).get?.map
        (fun r => r.1.1.map fun p => p.Pod.Name) = some (some "f")) ∧
    placeCapacity envOk 3 pendingChain snapChain ≠ .outOfFuel ∧
    placeCapacity envOk 3 pendingChain snapChain =
      placeCapacity envOk ((snapshotPods snapChain.nodeInfos).length + 1) pendingChain
        snapChain ∧
    ∀ names v, firstEligible envOk pendingChain snapChain.nodeInfos names = .val (some v) →
      v ∈ snapshotPods snapChain.nodeInfos ∧
      (CalculateResource v.Pod).2.1 < (CalculateResource pendingChain.Pod).2.1 ∧
      (CalculateResource v.Pod).2.2 < (CalculateResource pendingChain.Pod).2.2 :=
  ⟨by decide, C23_placeCapacity_depth_bounded envOk 3 pendingChain snapChain (by decide)⟩

/-! ## Destination of the migrations -/

theorem findToNode_other (env : Env) (placePodInfo : PodInfo) (l : List NodeInfo) :
    ∀ (k j : Nat), findToNode env placePodInfo l k = .val (some j) →
      k ≤ j ∧ ∃ n nd, l[j - k]? = some n ∧ n.node = some nd ∧
        nd.Name ≠ placePodInfo.Pod.NodeName := by
  induction l with
  | nil => intro k j h; simp [findToNode] at h
  | cons m rest ih =>
    intro k j h
    simp only [findToNode] at h
    cases hm : m.node with
    | none =>
      have : m.GetName = .panic := by unfold NodeInfo.GetName NodeInfo.Node; rw [hm]
      rw [this] at h
      simp at h
    | some nd =>
      rw [GetName_of_node hm] at h
      simp only [] at h
      have hrec : findToNode env placePodInfo rest (k + 1) = .val (some j) →
          k ≤ j ∧ ∃ n nd, (m :: rest)[j - k]? = some n ∧ n.node = some nd ∧
            nd.Name ≠ placePodInfo.Pod.NodeName := by
        intro h1
        obtain ⟨hle, n, nd1, hn, hnd, hne⟩ := ih (k + 1) j h1
        refine ⟨by omega, n, nd1, ?_, hnd, hne⟩
        have : j - k = (j - (k + 1)) + 1 := by omega
        rw [this, List.getElem?_cons_succ]
        exact hn
      split at h
      · exact hrec h
      · rename_i hc
        split at h
        · simp only [Run.val.injEq, Option.some.injEq] at h
          subst h
          refine ⟨Nat.le_refl _, m, nd, by simp, hm, ?_⟩
          intro heq
          exact hc (Or.inl heq.symm)
        · exact hrec h

theorem MigratePod_calls (env : Env) (calls : List MigrateCall) (pod : Pod)
    (fromNode toNode : Option Node) (isSwap : Bool) :
    (MigratePod env calls pod fromNode toNode isSwap).1 = calls ∨
    (MigratePod env calls pod fromNode toNode isSwap).1 =
      calls ++ [{ pod := pod, fromNode := fromNode, toNode := toNode, isSwap := isSwap }] := by
  unfold MigratePod
  cases fromNode with
  | none => exact Or.inl rfl
  | some _ => exact Or.inr rfl

/-- The call made for a direct placement moves the pod away from its own node. -/
theorem directCall_leavesOwnNode (env : Env) (placePodInfo : PodInfo) (st : PState)
    (fromNode toNode : Option Nat)
    (h : computeNormalPlacement env placePodInfo st.nodeInfos = .val (fromNode, toNode, true)) :
    ∀ c ∈ (MigratePod env st.calls placePodInfo.Pod (ptrNode st.nodeInfos fromNode)
        (ptrNode st.nodeInfos toNode) false).1, c ∈ st.calls ∨ c.leavesOwnNode = true := by
  unfold computeNormalPlacement at h
  obtain ⟨f, _, h⟩ := Run.bind_eq_val h
  obtain ⟨t, ht, h⟩ := Run.bind_eq_val h
  simp only [Run.val.injEq, Prod.mk.injEq] at h
  obtain ⟨_, htt, hsome⟩ := h
  subst htt
  cases t with
  | none => simp at hsome
  | some j =>
    obtain ⟨_, n, nd, hn, hnd, hne⟩ := findToNode_other env placePodInfo st.nodeInfos 0 j ht
    rw [Nat.sub_zero] at hn
    have hptr : ptrNode st.nodeInfos (some j) = some nd := by
      simp [ptrNode, nodeAt, hn, NodeInfo.Node, hnd]
    intro c hc
    rcases MigratePod_calls env st.calls placePodInfo.Pod (ptrNode st.nodeInfos fromNode)
      (ptrNode st.nodeInfos (some j)) false with h1 | h1
    · rw [h1] at hc
      exact Or.inl hc
    · rw [h1, List.mem_append] at hc
      rcases hc with hc | hc
      · exact Or.inl hc
      · right
        simp only [List.mem_singleton] at hc
        subst hc
        simp [MigrateCall.leavesOwnNode, hptr, hne]


/-- Every call of `c1` is a call of `c0` or moves its pod away from its own node. -/
theorem callsAway_trans {c0 c1 c2 : List MigrateCall}
    (h01 : ∀ c ∈ c1, c ∈ c0 ∨ c.leavesOwnNode = true)
    (h12 : ∀ c ∈ c2, c ∈ c1 ∨ c.leavesOwnNode = true) :
    ∀ c ∈ c2, c ∈ c0 ∨ c.leavesOwnNode = true := by
  intro c hc
  rcases h12 c hc with h | h
  · exact h01 c h
  · exact Or.inr h

theorem placeCapacity_callsAway (env : Env) (fuel : Nat) :
    ∀ (placePodInfo : PodInfo) (st : PState) (r : SingleResult) (st1 : PState),
      placeCapacity env fuel placePodInfo st = .val (r, st1) →
      ∀ c ∈ st1.calls, c ∈ st.calls ∨ c.leavesOwnNode = true := by
  induction fuel with
  | zero => intro _ _ _ _ h; simp [placeCapacity] at h
  | succ fuel ih =>
    intro placePodInfo st r st1 h
    simp only [placeCapacity] at h
    split at h
    · obtain ⟨⟨fromNode, toNode, direct⟩, hcnp, h⟩ := Run.bind_eq_val h
      simp only [] at h
      split at h
      · rename_i hdirect
        have hdir : direct = true := hdirect
        subst hdir
        have hcall := directCall_leavesOwnNode env placePodInfo st fromNode toNode hcnp
        split at h
        · split at h
          · simp only [Run.val.injEq, Prod.mk.injEq] at h
            rw [← h.2]
            exact hcall
          · cases fromNode with
            | none =>
              simp only [Run.val.injEq, Prod.mk.injEq] at h
              rw [← h.2]
              exact hcall
            | some i =>
              simp only [] at h
              obtain ⟨⟨ns, g, e⟩, _, h⟩ := Run.bind_eq_val h
              simp only [Run.val.injEq, Prod.mk.injEq] at h
              rw [← h.2]
              exact hcall
        · simp at h
      · obtain ⟨names, _, h⟩ := Run.bind_eq_val h
        obtain ⟨e, _, h⟩ := Run.bind_eq_val h
        split at h
        · exact ih _ _ _ _ h
        · simp only [Run.val.injEq, Prod.mk.injEq] at h
          rw [← h.2]
          exact fun c hc => Or.inl hc
    · simp only [Run.val.injEq, Prod.mk.injEq] at h
      rw [← h.2]
      exact fun c hc => Or.inl hc

theorem placeEach_callsAway (single : PodInfo → PState → Run (SingleResult × PState))
    (multi : PodInfo → PState → Run (MultiResult × PState))
    (hs : ∀ pod st r st1, single pod st = .val (r, st1) →
      ∀ c ∈ st1.calls, c ∈ st.calls ∨ c.leavesOwnNode = true)
    (hm : ∀ pod st r st1, multi pod st = .val (r, st1) →
      ∀ c ∈ st1.calls, c ∈ st.calls ∨ c.leavesOwnNode = true) :
    ∀ (pods : List PodInfo) (st st1 : PState), placeEach single multi pods st = .val st1 →
      ∀ c ∈ st1.calls, c ∈ st.calls ∨ c.leavesOwnNode = true := by
  intro pods
  induction pods with
  | nil =>
    intro st st1 h
    simp only [placeEach, Run.val.injEq] at h
    rw [← h]
    exact fun c hc => Or.inl hc
  | cons pod rest ih =>
    intro st st1 h
    simp only [placeEach] at h
    obtain ⟨⟨r, sta⟩, hsingle, h⟩ := Run.bind_eq_val h
    simp only [] at h
    have h1 := hs pod st r sta hsingle
    split at h
    · exact callsAway_trans h1 (ih sta st1 h)
    · obtain ⟨⟨m, stb⟩, hmulti, h⟩ := Run.bind_eq_val h
      simp only [] at h
      exact callsAway_trans (callsAway_trans h1 (hm pod sta m stb hmulti)) (ih stb st1 h)

theorem placeCapacityWithMultipleMigration_callsAway (env : Env) (fuel : Nat) :
    ∀ (placePodInfo : PodInfo) (st : PState) (r : MultiResult) (st1 : PState),
      placeCapacityWithMultipleMigration env fuel placePodInfo st = .val (r, st1) →
      ∀ c ∈ st1.calls, c ∈ st.calls ∨ c.leavesOwnNode = true := by
  induction fuel with
  | zero => intro _ _ _ _ h; simp [placeCapacityWithMultipleMigration] at h
  | succ fuel ih =>
    intro placePodInfo st r st1 h
    simp only [placeCapacityWithMultipleMigration] at h
    split at h
    · obtain ⟨⟨fromNode, toNode, direct⟩, hcnp, h⟩ := Run.bind_eq_val h
      simp only [] at h
      split at h
      · rename_i hdirect
        have hdir : direct = true := hdirect
        subst hdir
        have hcall := directCall_leavesOwnNode env placePodInfo st fromNode toNode hcnp
        split at h
        · simp only [Run.val.injEq, Prod.mk.injEq] at h
          rw [← h.2]
          exact hcall
        · obtain ⟨found, _, h⟩ := Run.bind_eq_val h
          split at h
          · simp only [Run.val.injEq, Prod.mk.injEq] at h
            rw [← h.2]
            exact hcall
          · simp only [Run.val.injEq, Prod.mk.injEq] at h
            rw [← h.2]
            exact hcall
      · obtain ⟨names, _, h⟩ := Run.bind_eq_val h
        obtain ⟨c, _, h⟩ := Run.bind_eq_val h
        split at h
        · obtain ⟨st2, hplace, h⟩ := Run.bind_eq_val h
          simp only [Run.val.injEq, Prod.mk.injEq] at h
          rw [← h.2]
          exact placeEach_callsAway _ _ (placeCapacity_callsAway env fuel) ih _ _ _ hplace
        · simp only [Run.val.injEq, Prod.mk.injEq] at h
          rw [← h.2]
          exact fun c hc => Or.inl hc
    · simp only [Run.val.injEq, Prod.mk.injEq] at h
      rw [← h.2]
      exact fun c hc => Or.inl hc


theorem findFromNode_named (nodeName : String) (l : List NodeInfo) :
    ∀ (k : Nat) (start : Option Nat) (j : Nat),
      findFromNode nodeName l k start = .val (some j) →
      start = some j ∨
        (k ≤ j ∧ ∃ n nd, l[j - k]? = some n ∧ n.node = some nd ∧ nd.Name = nodeName) := by
  induction l with
  | nil =>
    intro k start j h
    simp only [findFromNode, Run.val.injEq] at h
    exact Or.inl h
  | cons m rest ih =>
    intro k start j h
    simp only [findFromNode] at h
    cases hm : m.node with
    | none =>
      have : m.GetName = .panic := by unfold NodeInfo.GetName NodeInfo.Node; rw [hm]
      rw [this] at h
      simp at h
    | some nd =>
      rw [GetName_of_node hm] at h
      simp only [] at h
      rcases ih _ _ _ h with h1 | ⟨hle, n, nd1, hn, hnd, hname⟩
      · by_cases hnm : nd.Name = nodeName
        · rw [if_pos hnm] at h1
          simp only [Option.some.injEq] at h1
          subst h1
          exact Or.inr ⟨Nat.le_refl _, m, nd, by simp, hm, hnm⟩
        · rw [if_neg hnm] at h1
          exact Or.inl h1
      · refine Or.inr ⟨by omega, n, nd1, ?_, hnd, hname⟩
        have : j - k = (j - (k + 1)) + 1 := by omega
        rw [this, List.getElem?_cons_succ]
        exact hn

/-- The node returned by the single-pod path is the node named by the `spec.nodeName` of the
pod it returns: the node that pod leaves. -/
theorem placeCapacity_target_is_freed_node (env : Env) (fuel : Nat) :
    ∀ (placePodInfo : PodInfo) (st : PState) (pod : Option PodInfo) (target : Option Nat)
      (st1 : PState),
      placeCapacity env fuel placePodInfo st = .val ((pod, target, true), st1) →
      ∃ p t n nd, pod = some p ∧ target = some t ∧ st.nodeInfos[t]? = some n ∧
        n.node = some nd ∧ nd.Name = p.Pod.NodeName := by
  induction fuel with
  | zero => intro _ _ _ _ _ h; simp [placeCapacity] at h
  | succ fuel ih =>
    intro placePodInfo st pod target st1 h
    simp only [placeCapacity] at h
    split at h
    · obtain ⟨⟨fromNode, toNode, direct⟩, hcnp, h⟩ := Run.bind_eq_val h
      simp only [] at h
      split at h
      · cases fromNode with
        | none => simp [ptrNode, nodeAt] at h
        | some i =>
          unfold computeNormalPlacement at hcnp
          obtain ⟨f, hf, hcnp⟩ := Run.bind_eq_val hcnp
          obtain ⟨t, _, hcnp⟩ := Run.bind_eq_val hcnp
          simp only [Run.val.injEq, Prod.mk.injEq] at hcnp
          rw [hcnp.1] at hf
          rcases findFromNode_named _ _ _ _ _ hf with h0 | ⟨_, n, nd, hn, hnd, hname⟩
          · simp at h0
          · rw [Nat.sub_zero] at hn
            split at h
            · split at h
              · simp at h
              · obtain ⟨⟨ns, g, e⟩, _, h⟩ := Run.bind_eq_val h
                simp only [Run.val.injEq, Prod.mk.injEq] at h
                exact ⟨placePodInfo, i, n, nd, h.1.1.symm, h.1.2.1.symm, hn, hnd, hname⟩
            · simp at h
      · obtain ⟨names, _, h⟩ := Run.bind_eq_val h
        obtain ⟨e, _, h⟩ := Run.bind_eq_val h
        split at h
        · exact ih _ _ _ _ _ h
        · simp at h
    · simp at h

/-- C6, amended: if `PlacePod` returns `(migrated, target, true)`, then `target` is a node of
the snapshot; every `MigratePod` call that `PlacePod` issued moves its pod to a node other
than the one named by that pod's `spec.nodeName`; and when the single-pod path succeeded,
`migrated` is one pod and `target` is the node named by the `spec.nodeName` of that pod, the
node that is freed (for a pod placed directly, the pod's own node). -/
theorem C6_migrations_leave_own_node (env : Env) (fuel : Nat) (podInfo : PodInfo)
    (st : PState) (migrated : List PodInfo) (target : Option Nat) (st1 : PState)
    (h : PlacePod env fuel podInfo st = .val ((migrated, target, true), st1)) :
    (∃ t n, target = some t ∧ st.nodeInfos[t]? = some n) ∧
    (∀ c ∈ st1.calls, c ∈ st.calls ∨ c.leavesOwnNode = true) ∧
    (∀ pod tgt st0, placeCapacity env fuel podInfo st = .val ((pod, tgt, true), st0) →
      ∃ p t n nd, migrated = [p] ∧ target = some t ∧ st.nodeInfos[t]? = some n ∧
        n.node = some nd ∧ nd.Name = p.Pod.NodeName) := by
  refine ⟨PlacePod_target_valid env fuel podInfo st migrated target st1 h, ?_, ?_⟩
  · unfold PlacePod at h
    obtain ⟨⟨r, st0⟩, hr, h⟩ := Run.bind_eq_val h
    simp only [] at h
    have h0 := placeCapacity_callsAway env fuel _ _ _ _ hr
    split at h
    · simp only [Run.val.injEq, Prod.mk.injEq] at h
      rw [← h.2]
      exact h0
    · obtain ⟨⟨m, st2⟩, hm, h⟩ := Run.bind_eq_val h
      simp only [] at h
      have h2 := placeCapacityWithMultipleMigration_callsAway env fuel _ _ _ _ hm
      split at h
      · simp only [Run.val.injEq, Prod.mk.injEq] at h
        rw [← h.2]
        exact callsAway_trans h0 h2
      · simp at h
  · intro pod tgt st0 hs
    obtain ⟨p, t, n, nd, hp, ht, hn, hnd, hname⟩ :=
      placeCapacity_target_is_freed_node env fuel _ _ _ _ _ hs
    unfold PlacePod at h
    rw [hs] at h
    simp only [Run.bind, if_true, Run.val.injEq, Prod.mk.injEq] at h
    refine ⟨p, t, n, nd, ?_, ?_, hn, hnd, hname⟩
    · rw [← h.1.1, hp]
      rfl
    · rw [← h.1.2.1, ht]

set_option maxRecDepth 100000 in
/-- C6, amended, on the cluster short of CPU: the pod of node a is moved to node b, and node a
is returned. -/
theorem C6_migrations_leave_own_node_witness :
    ∃ migrated target st1,
      PlacePod envOk 10 pendingS1 snapShort = .val ((migrated, target, true), st1) ∧
      st1.calls.map (fun c => (c.pod.Name, c.pod.NodeName, c.toNode.map fun nd => nd.Name)) =
        [("y", "a", some "b")] ∧
      (∃ t n, target = some t ∧ snapShort.nodeInfos[t]? = some n) ∧
      (∀ c ∈ st1.calls, c ∈ snapShort.calls ∨ c.leavesOwnNode = true) ∧
      (∀ pod tgt st0,
        placeCapacity envOk 10 pendingS1 snapShort = .val ((pod, tgt, true), st0) →
        ∃ p t n nd, migrated = [p] ∧ target = some t ∧ snapShort.nodeInfos[t]? = some n ∧
          n.node = some nd ∧ nd.Name = p.Pod.NodeName) := by
  have hsum : (PlacePod envOk 10 pendingS1 snapShort).get?.map
      (fun r => (r.1.2.2, r.2.calls.map
        (fun c => (c.pod.Name, c.pod.NodeName, c.toNode.map fun nd => nd.Name)))) =
      some (true, [("y", "a", some "b")]) := by decide
  cases hrun : PlacePod envOk 10 pendingS1 snapShort with
  | val r =>
    obtain ⟨⟨migrated, target, ok⟩, st1⟩ := r
    rw [hrun] at hsum
    simp only [Run.get?, Option.map_some', Option.some.injEq, Prod.mk.injEq] at hsum
    obtain ⟨hok, hcalls⟩ := hsum
    subst hok
    exact ⟨migrated, target, st1, rfl, hcalls,
      C6_migrations_leave_own_node envOk 10 pendingS1 snapShort migrated target st1 hrun⟩
  | panic => rw [hrun] at hsum; simp [Run.get?] at hsum
  | outOfFuel => rw [hrun] at hsum; simp [Run.get?] at hsum

/-! ## A swap with a pod that is not on its node -/

theorem findKeyIdx_isSome_iff (s : List PodInfo) (k : String) :
    (findKeyIdx s k).isSome = s.any fun p => decide (GetPodKey p.Pod = some k) := by
  induction s with
  | nil => rfl
  | cons q rest ih =>
    simp only [findKeyIdx, List.any_cons]
    by_cases hq : GetPodKey q.Pod = some k
    · simp [hq]
    · rw [if_neg hq]
      simp only [hq, decide_False, Bool.false_or]
      rw [← ih]
      cases findKeyIdx rest k <;> rfl

theorem RemovePod_of_findsPod (g : Int) (n : NodeInfo) (pod : Pod)
    (h : n.findsPod pod = true) :
    ∃ k i n1, GetPodKey pod = some k ∧ findKeyIdx n.Pods k = some i ∧
      n.RemovePod g pod = .val (n1, none) ∧ n1.Pods = swapRemove n.Pods i ∧
      n1.node = n.node := by
  unfold NodeInfo.findsPod at h
  cases hk : GetPodKey pod with
  | none => rw [hk] at h; simp at h
  | some k =>
    rw [hk] at h
    simp only [] at h
    rw [← findKeyIdx_isSome_iff] at h
    obtain ⟨i, hi⟩ := Option.isSome_iff_exists.mp h
    unfold NodeInfo.RemovePod
    rw [hk]
    simp only [hi]
    exact ⟨k, i, _, rfl, hi, rfl, rfl, rfl⟩

theorem RemovePod_of_not_findsPod (g : Int) (n : NodeInfo) (pod : Pod) (nd : Node)
    (hnode : n.node = some nd) (h : n.findsPod pod = false) :
    ∃ n1 e, n.RemovePod g pod = .val (n1, some e) ∧ n1.Pods = n.Pods ∧ n1.node = n.node := by
  unfold NodeInfo.findsPod at h
  unfold NodeInfo.RemovePod
  cases hk : GetPodKey pod with
  | none => exact ⟨n, .noKey, rfl, rfl, rfl⟩
  | some k =>
    rw [hk] at h
    simp only [] at h
    rw [← findKeyIdx_isSome_iff] at h
    have hi : findKeyIdx n.Pods k = none := by
      cases hf : findKeyIdx n.Pods k with
      | none => rfl
      | some i => rw [hf] at h; simp at h
    simp only [hi, hnode]
    exact ⟨_, _, rfl, rfl, rfl⟩


theorem mem_swapRemove (s : List PodInfo) (i : Nat) (p : PodInfo)
    (h : p ∈ swapRemove s i) : p ∈ s := by
  unfold swapRemove at h
  cases hl : s.getLast? with
  | none => rw [hl] at h; exact h
  | some last =>
    rw [hl] at h
    simp only [] at h
    have h1 := List.mem_of_mem_dropLast h
    rcases List.mem_or_eq_of_mem_set h1 with h2 | h2
    · exact h2
    · rw [h2]
      exact List.mem_of_mem_getLast? hl

theorem findsPod_swapRemove (n n1 : NodeInfo) (i : Nat) (pod : Pod)
    (hp : n1.Pods = swapRemove n.Pods i) (h : n.findsPod pod = false) :
    n1.findsPod pod = false := by
  unfold NodeInfo.findsPod at h ⊢
  cases hk : GetPodKey pod with
  | none => rfl
  | some k =>
    rw [hk] at h
    simp only [] at h ⊢
    rw [hp]
    rw [Bool.eq_false_iff] at h ⊢
    intro hc
    apply h
    rw [List.any_eq_true] at hc ⊢
    obtain ⟨p, hp1, hp2⟩ := hc
    exact ⟨p, mem_swapRemove _ _ _ hp1, hp2⟩

theorem findsPod_congr (n n1 : NodeInfo) (pod : Pod) (hp : n1.Pods = n.Pods) :
    n1.findsPod pod = n.findsPod pod := by
  unfold NodeInfo.findsPod
  rw [hp]


theorem removePodAt_found (g : Int) (l : List NodeInfo) (i : Nat) (n : NodeInfo) (pod : Pod)
    (hn : l[i]? = some n) (h : n.findsPod pod = true) :
    ∃ k j n1 g1, GetPodKey pod = some k ∧ findKeyIdx n.Pods k = some j ∧
      removePodAt g l i pod = .val (l.set i n1, g1, none) ∧
      n1.Pods = swapRemove n.Pods j ∧ n1.node = n.node := by
  obtain ⟨k, j, n1, hk, hj, hrun, hp, hnd⟩ := RemovePod_of_findsPod g n pod h
  refine ⟨k, j, n1, genAfterRemove g (n1, none), hk, hj, ?_, hp, hnd⟩
  unfold removePodAt
  rw [hn]
  simp only [hrun]

theorem removePodAt_not_found (g : Int) (l : List NodeInfo) (i : Nat) (n : NodeInfo)
    (pod : Pod) (nd : Node) (hn : l[i]? = some n) (hnode : n.node = some nd)
    (h : n.findsPod pod = false) :
    ∃ n1 e, removePodAt g l i pod = .val (l.set i n1, g, some e) ∧
      n1.Pods = n.Pods ∧ n1.node = n.node := by
  obtain ⟨n1, e, hrun, hp, hnd⟩ := RemovePod_of_not_findsPod g n pod nd hnode h
  refine ⟨n1, e, ?_, hp, hnd⟩
  unfold removePodAt
  rw [hn]
  simp only [hrun]
  rfl

theorem addPodAt_val (g : Int) (l : List NodeInfo) (i : Nat) (n : NodeInfo) (pod : Pod)
    (hn : l[i]? = some n) :
    addPodAt g l i pod = .val (l.set i (n.AddPod g pod), (n.AddPod g pod).Generation) := by
  unfold addPodAt
  rw [hn]

theorem getElem?_set_same (l : List NodeInfo) (i : Nat) (n x : NodeInfo)
    (hn : l[i]? = some n) : (l.set i x)[i]? = some x := by
  have hi : i < l.length := by
    rcases Nat.lt_or_ge i l.length with h | h
    · exact h
    · rw [List.getElem?_eq_none h] at hn; simp at hn
  simp [List.getElem?_set, hi]

theorem getElem?_set_other (l : List NodeInfo) (i j : Nat) (x : NodeInfo) (h : i ≠ j) :
    (l.set i x)[j]? = l[j]? := by
  simp [List.getElem?_set, h]


theorem getElem?_set_isSome (l : List NodeInfo) (i j : Nat) (n x : NodeInfo)
    (hn : l[j]? = some n) : ∃ m, (l.set i x)[j]? = some m := by
  by_cases h : i = j
  · subst h
    exact ⟨x, getElem?_set_same l i n x hn⟩
  · exact ⟨n, by rw [getElem?_set_other l i j x h, hn]⟩

/-- On a snapshot with a node set on `nodeA` and `nodeB`, if `RemovePod` finds
exactly one of `podA` on `nodeA` and `podB` on `nodeB` (the key of the pod is computed and is
the key of an entry of `Pods`), `swapIfPossible` returns false; and if it returns true for
two distinct nodes and at least one of the pods is found, both pods were exchanged: the
`Pods` of `nodeA` are the former ones with the entry of `podA` deleted and `podB` appended,
and likewise for `nodeB`. -/
theorem swapIfPossible_with_one_pod_missing (generation : Int) (nodeInfos : List NodeInfo)
    (iA iB : Nat) (podA podB : PodInfo) (nodeA nodeB : NodeInfo) (ndA ndB : Node)
    (hA : nodeInfos[iA]? = some nodeA) (hB : nodeInfos[iB]? = some nodeB)
    (hnodeA : nodeA.node = some ndA) (hnodeB : nodeB.node = some ndB) :
    (nodeA.findsPod podA.Pod ≠ nodeB.findsPod podB.Pod →
      ∃ ns g, swapIfPossible generation nodeInfos iA iB podA podB = .val (false, ns, g)) ∧
    (iA ≠ iB → nodeA.findsPod podA.Pod = true ∨ nodeB.findsPod podB.Pod = true →
      ∀ ns g, swapIfPossible generation nodeInfos iA iB podA podB = .val (true, ns, g) →
      ∃ kA kB i j a b, GetPodKey podA.Pod = some kA ∧ GetPodKey podB.Pod = some kB ∧
        findKeyIdx nodeA.Pods kA = some i ∧ findKeyIdx nodeB.Pods kB = some j ∧
        ns[iA]? = some a ∧ ns[iB]? = some b ∧
        a.Pods = swapRemove nodeA.Pods i ++ [{ Pod := podB.Pod }] ∧
        b.Pods = swapRemove nodeB.Pods j ++ [{ Pod := podA.Pod }]) := by
  have hone : nodeA.findsPod podA.Pod ≠ nodeB.findsPod podB.Pod →
      ∃ ns g, swapIfPossible generation nodeInfos iA iB podA podB = .val (false, ns, g) := by
    intro hne
    unfold swapIfPossible
    simp only []
    split
    · exact ⟨_, _, rfl⟩
    · cases hfA : nodeA.findsPod podA.Pod with
      | true =>
        have hfB : nodeB.findsPod podB.Pod = false := by
          cases hv : nodeB.findsPod podB.Pod with
          | false => rfl
          | true => rw [hfA, hv] at hne; exact absurd rfl hne
        obtain ⟨kA, i, n1, g1, _, _, hrun1, hp1, hnd1⟩ :=
          removePodAt_found generation nodeInfos iA nodeA podA.Pod hA hfA
        have hsecond : ∃ m nd, (nodeInfos.set iA n1)[iB]? = some m ∧ m.node = some nd ∧
            m.findsPod podB.Pod = false := by
          by_cases hi : iA = iB
          · subst hi
            rw [hA] at hB
            simp only [Option.some.injEq] at hB
            subst hB
            exact ⟨n1, ndA, getElem?_set_same _ _ _ _ hA, by rw [hnd1, hnodeA],
              findsPod_swapRemove _ _ _ _ hp1 hfB⟩
          · exact ⟨nodeB, ndB, by rw [getElem?_set_other _ _ _ _ hi, hB], hnodeB, hfB⟩
        obtain ⟨m, nd, hm, hmnode, hmf⟩ := hsecond
        obtain ⟨n2, e, hrun2, _, _⟩ :=
          removePodAt_not_found g1 (nodeInfos.set iA n1) iB m podB.Pod nd hm hmnode hmf
        obtain ⟨x, hx⟩ := getElem?_set_isSome (nodeInfos.set iA n1) iB iA n1 n2
          (getElem?_set_same _ _ _ _ hA)
        rw [hrun1]
        simp only [Run.bind, hrun2]
        simp only [reduceCtorEq, and_false, if_false, if_true]
        rw [addPodAt_val _ _ _ x _ hx]
        exact ⟨_, _, rfl⟩
      | false =>
        have hfB : nodeB.findsPod podB.Pod = true := by
          cases hv : nodeB.findsPod podB.Pod with
          | true => rfl
          | false => rw [hfA, hv] at hne; exact absurd rfl hne
        obtain ⟨n1, e, hrun1, hp1, hnd1⟩ :=
          removePodAt_not_found generation nodeInfos iA nodeA podA.Pod ndA hA hnodeA hfA
        have hsecond : ∃ m, (nodeInfos.set iA n1)[iB]? = some m ∧
            m.findsPod podB.Pod = true := by
          by_cases hi : iA = iB
          · subst hi
            rw [hA] at hB
            simp only [Option.some.injEq] at hB
            subst hB
            exact ⟨n1, getElem?_set_same _ _ _ _ hA, by rw [findsPod_congr _ _ _ hp1, hfB]⟩
          · exact ⟨nodeB, by rw [getElem?_set_other _ _ _ _ hi, hB], hfB⟩
        obtain ⟨m, hm, hmf⟩ := hsecond
        obtain ⟨kB, j, n2, g2, _, _, hrun2, _, _⟩ :=
          removePodAt_found generation (nodeInfos.set iA n1) iB m podB.Pod hm hmf
        rw [hrun1]
        simp only [Run.bind, hrun2]
        simp only [reduceCtorEq, false_and, if_false, if_true]
        rw [addPodAt_val _ _ _ n2 _ (getElem?_set_same _ _ _ _ hm)]
        exact ⟨_, _, rfl⟩
  refine ⟨hone, ?_⟩
  intro hi hor ns g hrun
  have hfA : nodeA.findsPod podA.Pod = true := by
    cases hv : nodeA.findsPod podA.Pod with
    | true => rfl
    | false =>
      have hb : nodeB.findsPod podB.Pod = true := by
        rcases hor with h | h
        · rw [hv] at h; exact absurd h (by simp)
        · exact h
      obtain ⟨ns1, g1, h1⟩ := hone (by rw [hv, hb]; simp)
      rw [hrun] at h1
      simp at h1
  have hfB : nodeB.findsPod podB.Pod = true := by
    cases hv : nodeB.findsPod podB.Pod with
    | true => rfl
    | false =>
      obtain ⟨ns1, g1, h1⟩ := hone (by rw [hfA, hv]; simp)
      rw [hrun] at h1
      simp at h1
  obtain ⟨kA, i, n1, g1, hkA, hiA, hrun1, hp1, _⟩ :=
    removePodAt_found generation nodeInfos iA nodeA podA.Pod hA hfA
  have hB1 : (nodeInfos.set iA n1)[iB]? = some nodeB := by
    rw [getElem?_set_other _ _ _ _ hi, hB]
  obtain ⟨kB, j, n2, g2, hkB, hiB, hrun2, hp2, _⟩ :=
    removePodAt_found g1 (nodeInfos.set iA n1) iB nodeB podB.Pod hB1 hfB
  have hA2 : ((nodeInfos.set iA n1).set iB n2)[iA]? = some n1 := by
    rw [getElem?_set_other _ _ _ _ (Ne.symm hi)]
    exact getElem?_set_same _ _ _ _ hA
  have hB3 : ((((nodeInfos.set iA n1).set iB n2).set iA (n1.AddPod g2 podB.Pod)))[iB]? =
      some n2 := by
    rw [getElem?_set_other _ _ _ _ hi]
    exact getElem?_set_same _ _ _ _ hB1
  unfold swapIfPossible at hrun
  simp only [] at hrun
  split at hrun
  · simp at hrun
  · rw [hrun1] at hrun
    simp only [Run.bind, hrun2, and_self, if_true] at hrun
    rw [addPodAt_val _ _ _ n1 _ hA2] at hrun
    simp only [] at hrun
    rw [addPodAt_val _ _ _ n2 _ hB3] at hrun
    simp only [] at hrun
    split at hrun
    · split at hrun
      · split at hrun
        · simp at hrun
        · split at hrun
          · split at hrun
            · simp at hrun
            · split at hrun
              · split at hrun
                · simp at hrun
                · simp at hrun
                · simp at hrun
              · simp at hrun
              · simp at hrun
          · simp at hrun
          · simp at hrun
      · simp at hrun
      · simp at hrun
    · simp only [Run.val.injEq, Prod.mk.injEq, true_and] at hrun
      refine ⟨kA, kB, i, j, n1.AddPod g2 podB.Pod,
        n2.AddPod (n1.AddPod g2 podB.Pod).Generation podA.Pod, hkA, hkB, hiA, hiB, ?_, ?_, ?_, ?_⟩
      · rw [← hrun.1, getElem?_set_other _ _ _ _ (Ne.symm hi)]
        exact getElem?_set_same _ _ _ _ hA2
      · rw [← hrun.1]
        exact getElem?_set_same _ _ _ _ hB3
      · show n1.Pods ++ [NewPodInfo podB.Pod] = _
        rw [hp1]
        rfl
      · show n2.Pods ++ [NewPodInfo podA.Pod] = _
        rw [hp2]
        rfl

set_option maxRecDepth 100000 in
/-- On scenario S4: with alpha as both pods, alpha is found on node a and not on
node b, and `swapIfPossible` returns false; with alpha and beta the swap is accepted and the
two pods are exchanged. -/
theorem swapIfPossible_with_one_pod_missing_on_S4 :
    ((mkNodeInfo "a" 4000 (8192 * MiB)
        [podAlpha.Pod, mkPod "gamma" "a" 1000 (1024 * MiB) true]).findsPod podAlpha.Pod = true ∧
      (mkNodeInfo "b" 4000 (8192 * MiB)
        [podBeta.Pod, mkPod "delta" "b" 500 (2048 * MiB) true]).findsPod podAlpha.Pod = false ∧
      ∃ ns g, swapIfPossible 10 snapS4 0 1 podAlpha podAlpha = .val (false, ns, g)) ∧
    ((swapIfPossible 10 snapS4 0 1 podAlpha podBeta).get?.map (fun r => r.1) = some true ∧
      ∀ ns g, swapIfPossible 10 snapS4 0 1 podAlpha podBeta = .val (true, ns, g) →
        ∃ kA kB i j a b, GetPodKey podAlpha.Pod = some kA ∧ GetPodKey podBeta.Pod = some kB ∧
          findKeyIdx (mkNodeInfo "a" 4000 (8192 * MiB)
            [podAlpha.Pod, mkPod "gamma" "a" 1000 (1024 * MiB) true]).Pods kA = some i ∧
          findKeyIdx (mkNodeInfo "b" 4000 (8192 * MiB)
            [podBeta.Pod, mkPod "delta" "b" 500 (2048 * MiB) true]).Pods kB = some j ∧
          ns[0]? = some a ∧ ns[1]? = some b ∧
          a.Pods = swapRemove (mkNodeInfo "a" 4000 (8192 * MiB)
            [podAlpha.Pod, mkPod "gamma" "a" 1000 (1024 * MiB) true]).Pods i ++
              [{ Pod := podBeta.Pod }] ∧
          b.Pods = swapRemove (mkNodeInfo "b" 4000 (8192 * MiB)
            [podBeta.Pod, mkPod "delta" "b" 500 (2048 * MiB) true]).Pods j ++
              [{ Pod := podAlpha.Pod }]) :=
  ⟨⟨by decide, by decide,
      (swapIfPossible_with_one_pod_missing 10 snapS4 0 1 podAlpha podAlpha
        (mkNodeInfo "a" 4000 (8192 * MiB)
          [podAlpha.Pod, mkPod "gamma" "a" 1000 (1024 * MiB) true])
        (mkNodeInfo "b" 4000 (8192 * MiB)
          [podBeta.Pod, mkPod "delta" "b" 500 (2048 * MiB) true])
        { Name := "a", Allocatable := { MilliCPU := 4000, Memory := 8192 * MiB } }
        { Name := "b", Allocatable := { MilliCPU := 4000, Memory := 8192 * MiB } }
        (by decide) (by decide) (by decide) (by decide)).1 (by decide)⟩,
    ⟨by decide,
      (swapIfPossible_with_one_pod_missing 10 snapS4 0 1 podAlpha podBeta
        (mkNodeInfo "a" 4000 (8192 * MiB)
          [podAlpha.Pod, mkPod "gamma" "a" 1000 (1024 * MiB) true])
        (mkNodeInfo "b" 4000 (8192 * MiB)
          [podBeta.Pod, mkPod "delta" "b" 500 (2048 * MiB) true])
        { Name := "a", Allocatable := { MilliCPU := 4000, Memory := 8192 * MiB } }
        { Name := "b", Allocatable := { MilliCPU := 4000, Memory := 8192 * MiB } }
        (by decide) (by decide) (by decide) (by decide)).2 (by decide) (Or.inl (by decide))⟩⟩

/-! ## Node bookkeeping: a pod without a key -/

set_option maxRecDepth 100000 in
/-- C19, as stated for every pod, fails for a pod without a key (`GetPodKey` returns an error):
`AddPod` raises `Requested.ScalarResources["gpu"]` from 0 to 2, `RemovePod` returns the error
of `GetPodKey` and leaves it at 2. -/
theorem C19_counterexample_pod_without_key :
    GetPodKey podNoKey = none ∧
    podNoKey.Res.ScalarResources = [("gpu", 2), ("fpga", 1)] ∧
    (mkNodeInfo "a" 2000 (4096 * MiB) []).Requested.ScalarResources.get "gpu" = 0 ∧
    ((mkNodeInfo "a" 2000 (4096 * MiB) []).AddPod 9 podNoKey).Requested.ScalarResources.get
      "gpu" = 2 ∧
    (((mkNodeInfo "a" 2000 (4096 * MiB) []).AddPod 9 podNoKey).RemovePod
        ((mkNodeInfo "a" 2000 (4096 * MiB) []).AddPod 9 podNoKey).Generation podNoKey).get?.map
      (fun r => (r.2, r.1.Requested.ScalarResources.get "gpu")) = some (some .noKey, 2) := by
  decide

/-! ## An accepted swap lowers the entropy -/

theorem isInt64_wrap64 (x : Int) : isInt64 (wrap64 x) := by
  unfold isInt64 wrap64 Int.bmod
  have h1 : (2 : Int) ^ 63 = 9223372036854775808 := by norm_num
  have h2 : ((2 ^ 64 : Nat) : Int) = 18446744073709551616 := by norm_num
  rw [h1, h2]
  simp only []
  split <;> omega

theorem RemovePod_cpu_int64 (g : Int) (n : NodeInfo) (pod : Pod) (r : NodeInfo × Option RemoveErr)
    (hn : isInt64 n.Available.MilliCPU) (h : n.RemovePod g pod = .val r) :
    isInt64 r.1.Available.MilliCPU := by
  unfold NodeInfo.RemovePod at h
  cases hk : GetPodKey pod with
  | none =>
    rw [hk] at h
    simp only [Run.val.injEq] at h
    rw [← h]
    exact hn
  | some k =>
    rw [hk] at h
    simp only [] at h
    cases hi : findKeyIdx n.Pods k with
    | some i =>
      simp only [hi, Run.val.injEq] at h
      rw [← h]
      exact isInt64_wrap64 _
    | none =>
      simp only [hi] at h
      cases hnd : n.node with
      | none => simp [hnd] at h
      | some nd =>
        simp only [hnd, Run.val.injEq] at h
        rw [← h]
        exact hn

theorem removePodAt_cpu_int64 (g : Int) (l l1 : List NodeInfo) (i : Nat) (pod : Pod) (g1 : Int)
    (e : Option RemoveErr) (hl : ∀ n ∈ l, isInt64 n.Available.MilliCPU)
    (h : removePodAt g l i pod = .val (l1, g1, e)) :
    ∀ n ∈ l1, isInt64 n.Available.MilliCPU := by
  unfold removePodAt at h
  split at h
  · simp at h
  · rename_i n hn
    split at h
    · rename_i r hr
      simp only [Run.val.injEq, Prod.mk.injEq] at h
      intro m hm
      rw [← h.1] at hm
      rcases List.mem_or_eq_of_mem_set hm with hm1 | hm1
      · exact hl m hm1
      · rw [hm1]
        exact RemovePod_cpu_int64 g n pod r (hl n (List.getElem?_mem hn)) hr
    · simp at h
    · simp at h

theorem addPodAt_cpu_int64 (g : Int) (l l1 : List NodeInfo) (i : Nat) (pod : Pod) (g1 : Int)
    (hl : ∀ n ∈ l, isInt64 n.Available.MilliCPU)
    (h : addPodAt g l i pod = .val (l1, g1)) :
    ∀ n ∈ l1, isInt64 n.Available.MilliCPU := by
  unfold addPodAt at h
  split at h
  · simp at h
  · simp only [Run.val.injEq, Prod.mk.injEq] at h
    intro m hm
    rw [← h.1] at hm
    rcases List.mem_or_eq_of_mem_set hm with hm1 | hm1
    · exact hl m hm1
    · rw [hm1]
      exact isInt64_wrap64 _

/-- On a snapshot whose nodes have an `int64` as available CPU, for two nodes `nodeA` and
`nodeB` of it on the two sides of the pivot ratio
(`GetCpuMemoryRatio(nodeA) < GetPivotRatio(snapshot) < GetCpuMemoryRatio(nodeB)`, the condition
under which `BalanceWorkload` calls `swapIfPossible`) and a pod `podA` that `RemovePod` finds in
`nodeA.Pods`: if `swapIfPossible` returns `true`, then the `GetSystemEntropy` of the snapshot
after the call is strictly less than the `GetSystemEntropy` of the snapshot before the call,
both being the `float64` values that the code computes. -/
theorem swapIfPossible_accepted_reduces_entropy (generation : Int) (nodeInfos : List NodeInfo)
    (iA iB : Nat) (podA podB : PodInfo) (nodeA nodeB : NodeInfo) (ns : List NodeInfo) (g : Int)
    (hA : nodeInfos[iA]? = some nodeA) (hB : nodeInfos[iB]? = some nodeB)
    (hint : ∀ n ∈ nodeInfos, isInt64 n.Available.MilliCPU)
    (hleft : F64.lt (GetCpuMemoryRatio nodeA) (GetPivotRatio nodeInfos) = true)
    (hright : F64.gt (GetCpuMemoryRatio nodeB) (GetPivotRatio nodeInfos) = true)
    (hfA : nodeA.findsPod podA.Pod = true)
    (h : swapIfPossible generation nodeInfos iA iB podA podB = .val (true, ns, g)) :
    F64.lt (GetSystemEntropy ns) (GetSystemEntropy nodeInfos) = true := by
  have _ := hB
  obtain ⟨p, q, hpq⟩ := F64.fin_of_between _ _ _ hleft hright
  have hzero : F64.ofInt 0 = .posInf ∨ ∃ a b, F64.ofInt 0 = .fin a b ∧ 0 ≤ a ∧ 0 < b :=
    Or.inr ⟨0, 1, by decide, by decide, by decide⟩
  obtain ⟨_, _, n1, gA, _, _, hfound, _, _⟩ :=
    removePodAt_found generation nodeInfos iA nodeA podA.Pod hA hfA
  unfold swapIfPossible at h
  simp only [] at h
  split at h
  · simp at h
  · obtain ⟨⟨ns1, g1, eA⟩, hrA, h⟩ := Run.bind_eq_val h
    obtain ⟨⟨ns2, g2, eB⟩, hrB, h⟩ := Run.bind_eq_val h
    have heA : eA = none := by
      rw [hfound] at hrA
      simp only [Run.val.injEq, Prod.mk.injEq] at hrA
      exact hrA.2.2.symm
    subst heA
    simp only [] at h
    cases eB with
    | some e =>
      simp only [true_and, if_true] at h
      rw [if_neg (by simp)] at h
      obtain ⟨⟨ns3, g3⟩, _, h⟩ := Run.bind_eq_val h
      simp at h
    | none =>
      simp only [and_self, if_true] at h
      obtain ⟨⟨ns3, g3⟩, ha1, h⟩ := Run.bind_eq_val h
      obtain ⟨⟨ns4, g4⟩, ha2, h⟩ := Run.bind_eq_val h
      simp only [] at h
      split at h
      · obtain ⟨⟨ns5, g5, e1⟩, _, h⟩ := Run.bind_eq_val h
        simp only [] at h
        split at h
        · simp at h
        · obtain ⟨⟨ns6, g6, e2⟩, _, h⟩ := Run.bind_eq_val h
          simp only [] at h
          split at h
          · simp at h
          · obtain ⟨⟨ns7, g7⟩, _, h⟩ := Run.bind_eq_val h
            obtain ⟨⟨ns8, g8⟩, _, h⟩ := Run.bind_eq_val h
            simp at h
      · rename_i hge
        simp only [Run.val.injEq, Prod.mk.injEq, true_and] at h
        obtain ⟨hns, _⟩ := h
        subst hns
        -- the totals, hence the pivot ratio, are those of the snapshot before the call
        obtain ⟨hc1, hm1⟩ := (removePodAt_totals _ _ _ _ _ _ _ hrA).1 rfl
        obtain ⟨hc2, hm2⟩ := (removePodAt_totals _ _ _ _ _ _ _ hrB).1 rfl
        obtain ⟨hc3, hm3⟩ := addPodAt_totals _ _ _ _ _ _ ha1
        obtain ⟨hc4, hm4⟩ := addPodAt_totals _ _ _ _ _ _ ha2
        have hc : totalAvailableCpu ns4 = totalAvailableCpu nodeInfos := by
          rw [hc4, hc3, hc2, hc1]
          exact wrap64_swap_cancel _ _ _ (wrap64_totalAvailableCpu _)
        have hm : totalAvailableMem ns4 = totalAvailableMem nodeInfos := by
          rw [hm4, hm3, hm2, hm1]
          exact wrap64_swap_cancel _ _ _ (wrap64_totalAvailableMem _)
        have hpivot4 : GetPivotRatio ns4 = .fin p q := by
          rw [GetPivotRatio_congr ns4 nodeInfos hc hm]
          exact hpq
        -- the available CPU of every node is still an int64
        have hint4 : ∀ n ∈ ns4, isInt64 n.Available.MilliCPU :=
          addPodAt_cpu_int64 _ _ _ _ _ _
            (addPodAt_cpu_int64 _ _ _ _ _ _
              (removePodAt_cpu_int64 _ _ _ _ _ _ _
                (removePodAt_cpu_int64 _ _ _ _ _ _ _ hint hrA) hrB) ha1) ha2
        have hafter : GetSystemEntropy ns4 = .posInf ∨ ∃ a b, GetSystemEntropy ns4 = .fin a b := by
          unfold GetSystemEntropy
          rw [hpivot4]
          rcases entropySum_NN p q ns4 hint4 _ hzero with h1 | ⟨a, b, h1, _⟩
          · exact Or.inl h1
          · exact Or.inr ⟨a, b, h1⟩
        have hbefore : GetSystemEntropy nodeInfos = .posInf ∨
            ∃ a b, GetSystemEntropy nodeInfos = .fin a b := by
          unfold GetSystemEntropy
          rw [hpq]
          rcases entropySum_NN p q nodeInfos hint _ hzero with h1 | ⟨a, b, h1, _⟩
          · exact Or.inl h1
          · exact Or.inr ⟨a, b, h1⟩
        have hge1 : F64.ge (GetSystemEntropy ns4) (GetSystemEntropy nodeInfos) = false := by
          simpa using hge
        exact F64.lt_of_not_ge _ _ hafter hbefore hge1

set_option maxRecDepth 100000 in
/-- On scenario S4: node a (ratio 1000 / 6144) and node b (3000 / 2048) are on the two sides
of the pivot ratio 4000 / 8192, alpha (on a) and beta (on b) are swapped, and the entropy
falls. -/
theorem swapIfPossible_accepted_reduces_entropy_on_S4 :
    (F64.lt (GetCpuMemoryRatio (mkNodeInfo "a" 4000 (8192 * MiB)
        [podAlpha.Pod, mkPod "gamma" "a" 1000 (1024 * MiB) true])) (GetPivotRatio snapS4) = true ∧
      F64.gt (GetCpuMemoryRatio (mkNodeInfo "b" 4000 (8192 * MiB)
        [podBeta.Pod, mkPod "delta" "b" 500 (2048 * MiB) true])) (GetPivotRatio snapS4) = true ∧
      (swapIfPossible 10 snapS4 0 1 podAlpha podBeta).get?.map (fun r => r.1) = some true) ∧
    ∀ ns g, swapIfPossible 10 snapS4 0 1 podAlpha podBeta = .val (true, ns, g) →
      F64.lt (GetSystemEntropy ns) (GetSystemEntropy snapS4) = true :=
  ⟨⟨by decide, by decide, by decide⟩, fun ns g h =>
    swapIfPossible_accepted_reduces_entropy 10 snapS4 0 1 podAlpha podBeta
      (mkNodeInfo "a" 4000 (8192 * MiB) [podAlpha.Pod, mkPod "gamma" "a" 1000 (1024 * MiB) true])
      (mkNodeInfo "b" 4000 (8192 * MiB) [podBeta.Pod, mkPod "delta" "b" 500 (2048 * MiB) true])
      ns g (by decide) (by decide) (by decide) (by decide) (by decide) (by decide) h⟩

set_option maxRecDepth 100000 in
/-- C7 fails in a run of `BalanceWorkload` on the nodes a and b hosting alpha and beta, two
pods whose key cannot be computed. The nodes are on the two sides of the pivot ratio and both
pods are in the `Pods` of their node, so `swapIfPossible` is called on the deep copy; both
`RemovePod` calls fail, no branch applies, and it returns `true` with an entropy that is not
less than before. `BalanceWorkload` then swaps alpha and beta through `SwapPods` (a Delete and
a Create for each). The cluster with the two pods exchanged has no lower entropy than before,
and with the keys present the same swap is rejected and nothing is called. -/
theorem C7_swap_performed_without_entropy_gain :
    (snapUnkeyed.map fun n => n.node.isSome) = [true, true] ∧
    snapUnkeyed.map (fun n => n.Pods) = [[podAlphaUnkeyed], [podBetaUnkeyed]] ∧
    (GetPodKey podAlphaUnkeyed.Pod = none ∧ GetPodKey podBetaUnkeyed.Pod = none) ∧
    (SortNodesBasedRatio snapUnkeyed = snapUnkeyed ∧
      F64.lt (GetCpuMemoryRatio (mkNodeInfo "a" 4000 (8192 * MiB) [podAlphaUnkeyed.Pod]))
        (GetPivotRatio snapUnkeyed) = true ∧
      F64.gt (GetCpuMemoryRatio (mkNodeInfo "b" 4000 (8192 * MiB) [podBetaUnkeyed.Pod]))
        (GetPivotRatio snapUnkeyed) = true) ∧
    (swapIfPossible 0 (deepcopyNodeInfos snapUnkeyed) 0 1 podAlphaUnkeyed
        podBetaUnkeyed).get?.map
      (fun r => (r.1,
        F64.lt (GetSystemEntropy r.2.1) (GetSystemEntropy (deepcopyNodeInfos snapUnkeyed)))) =
      some (true, false) ∧
    (BalanceWorkload apiOk 10 0 [] snapUnkeyed).get?.map
      (fun r => r.choice.map (fun c => [c.podA.Name, c.podB.Name])) =
      some (some ["alpha", "beta"]) ∧
    (BalanceWorkload apiOk 10 0 [] snapUnkeyed).get?.map (fun r => callNames r.calls) =
      some [("deletePod", "alpha"), ("createPod", "alpha"), ("deletePod", "beta"),
        ("createPod", "beta")] ∧
    F64.lt (GetSystemEntropy snapUnkeyedSwapped) (GetSystemEntropy snapUnkeyed) = false ∧
    (swapIfPossible 0 (deepcopyNodeInfos snapKeyed) 0 1 podAlpha podBeta).get?.map
      (fun r => r.1) = some false ∧
    (BalanceWorkload apiOk 10 0 [] snapKeyed).get?.map (fun r => (r.choice, r.calls)) =
      some (none, []) :=
  ⟨by decide, by decide, ⟨by decide, by decide⟩, ⟨by decide, by decide, by decide⟩, by decide,
    by decide, by decide, by decide, by decide, by decide⟩

end Defrag
